import Mathlib

/-!
The gotar container format, its writer and reader, and the extraction runtime.

A shallow embedding of `format/main.go` (package `gotar`) and `decoder/main.go`.

* Byte streams are lists of bytes; Go's `int64` is an `Int` kept in range by `wrap64`.
* An `io.ReadSeeker` is a file-like cursor over immutable bytes.
* `compress/flate`, `archive/tar` and `encoding/json` are not part of the repository; they are
  taken as parameters (`Codec`, `Puller`, `Json`), so every theorem holds for every
  implementation of those libraries.
* The output `io.Writer` is an append-only byte buffer; panics are results of their own.
-/

set_option autoImplicit false

namespace gotar

/-! ## Machine integers and the footer codec -/

/-- One byte. -/
abbrev Byte := Fin 256

/-- Go strings, as sequences of characters. -/
abbrev GoString := List Char

/-- Two's-complement reduction of an integer to the `int64` range. -/
@[irreducible] def wrap64 (x : Int) : Int := (2 ^ 63 + x) % 2 ^ 64 - 2 ^ 63

/-- Big-endian encoding of an unsigned 64-bit value (`binary.BigEndian.PutUint64`). -/
def putUint64 (u : Nat) : List Byte :=
  [7, 6, 5, 4, 3, 2, 1, 0].map (fun i => ⟨u / 256 ^ i % 256, Nat.mod_lt _ (by decide)⟩)

/-- Big-endian decoding of a byte string as an unsigned number (`binary.BigEndian.Uint64`). -/
def uint64 (bs : List Byte) : Nat := bs.foldl (fun acc b => acc * 256 + b.val) 0

/-- Encoding of an `int64` field by `binary.Write` with `binary.BigEndian`. -/
def putInt64 (x : Int) : List Byte := putUint64 (x % 2 ^ 64).toNat

/-- Decoding of an `int64` field by `binary.Read` with `binary.BigEndian`. -/
def getInt64 (bs : List Byte) : Int := wrap64 (uint64 bs)

/-- The signature of a gotar executable: `var SIGNATURE = int64(0xDEF1A7ED)`. -/
def SIGNATURE : Int := 0xDEF1A7ED

/-- Errors returned (not panics). -/
inductive Error where
  | ErrInvalidFormat
  | EOF
  | ErrUnexpectedEOF
  | other (msg : GoString)
deriving DecidableEq, Repr

/-- Results that carry an error or a value can be compared. -/
instance decEqExcept {ε α : Type} [DecidableEq ε] [DecidableEq α] : DecidableEq (Except ε α) :=
  fun a b =>
    match a, b with
    | .ok x, .ok y =>
      if h : x = y then isTrue (by rw [h]) else isFalse (fun e => h (by cases e; rfl))
    | .error x, .error y =>
      if h : x = y then isTrue (by rw [h]) else isFalse (fun e => h (by cases e; rfl))
    | .ok _, .error _ => isFalse (fun e => by cases e)
    | .error _, .ok _ => isFalse (fun e => by cases e)

/-- The fixed-length archive footer (`type footer struct`). -/
structure footer where
  LenDecoder : Int
  LenTar : Int
  LenJson : Int
  Signature : Int
deriving DecidableEq, Repr

/-- The zero value of `footer`. -/
def footer.zero : footer := ⟨0, 0, 0, 0⟩

/-- Size of the encoded footer: `binary.Size(archive.footer)`. -/
def footerSize : Nat := 32

/-- A footer whose four fields are `int64` values. -/
def footer.inRange (ft : footer) : Prop :=
  (-2 ^ 63 ≤ ft.LenDecoder ∧ ft.LenDecoder < 2 ^ 63) ∧ (-2 ^ 63 ≤ ft.LenTar ∧ ft.LenTar < 2 ^ 63) ∧
  (-2 ^ 63 ≤ ft.LenJson ∧ ft.LenJson < 2 ^ 63) ∧ (-2 ^ 63 ≤ ft.Signature ∧ ft.Signature < 2 ^ 63)

/-- Encoding of the footer: `binary.Write(writer.file, binary.BigEndian, writer.footer)`. -/
def encodeFooter (f : footer) : List Byte :=
  putInt64 f.LenDecoder ++ putInt64 f.LenTar ++ putInt64 f.LenJson ++ putInt64 f.Signature

/-- Decoding of 32 bytes into a footer: `binary.Read(archive.file, binary.BigEndian, &footer)`. -/
def decodeFooter (bs : List Byte) : footer :=
  { LenDecoder := getInt64 (bs.take 8)
    LenTar := getInt64 ((bs.drop 8).take 8)
    LenJson := getInt64 ((bs.drop 16).take 8)
    Signature := getInt64 ((bs.drop 24).take 8) }

/-! ## Seekable input: `io.ReadSeeker`, `readerAt`, `io.SectionReader` -/

/-- An `io.ReadSeeker` over immutable data (an `*os.File` opened for reading). -/
structure ReadSeeker where
  data : List Byte
  pos : Nat
deriving DecidableEq, Repr

/-- Origin of a seek: `os.SEEK_SET`, `os.SEEK_END`. -/
inductive Whence where
  | SEEK_SET
  | SEEK_END
deriving DecidableEq, Repr

/-- The method `Seek(offset, whence)`: a resulting negative position is an error and leaves the cursor
where it was; seeking past the end is allowed. Returns the new position. -/
def ReadSeeker.Seek (r : ReadSeeker) (off : Int) (whence : Whence) : Option Int × ReadSeeker :=
  let target : Int :=
    match whence with
    | .SEEK_SET => off
    | .SEEK_END => (r.data.length : Int) + off
  if target < 0 then (none, r) else (some target, { r with pos := target.toNat })

/-- The method `Read(p)` with `len(p) = n`: returns the bytes available at the cursor, at most `n`, and
advances the cursor. No byte returned stands for `0, io.EOF`. -/
def ReadSeeker.Read (r : ReadSeeker) (n : Nat) : List Byte × ReadSeeker :=
  let bs := (r.data.drop r.pos).take n
  (bs, { r with pos := r.pos + bs.length })

/-- The method `readerAt.ReadAt(p, off)`: `r.Seek(off, os.SEEK_SET)` (its error is dropped), then
`return r.Read(p)`. The mutex only serialises concurrent callers. -/
def readerAt.ReadAt (r : ReadSeeker) (n : Nat) (off : Int) : List Byte × ReadSeeker :=
  let r1 := (r.Seek off .SEEK_SET).2
  r1.Read n

/-- An `io.SectionReader` created by `io.NewSectionReader(r, off, n)`: the fields `off` and `limit`
(`base` is not used by `Read`). -/
structure SectionReader where
  off : Int
  limit : Int
deriving DecidableEq, Repr

/-- The constructor `io.NewSectionReader(r, off, n)`: the limit is `n + off`, or the largest
`int64` when that addition overflows (`if off <= maxint64-n { remaining = n + off } else
{ remaining = maxint64 }`, in `int64` arithmetic). -/
def NewSectionReader (off n : Int) : SectionReader :=
  ⟨off, if off ≤ wrap64 (2 ^ 63 - 1 - n) then wrap64 (n + off) else 2 ^ 63 - 1⟩

/-- The method `SectionReader.Read(p)` with `len(p) = n`, over the shared `readerAt`:
`if s.off >= s.limit { return 0, io.EOF }`, the buffer is cut to `s.limit - s.off`, then
`s.r.ReadAt(p, s.off)` and `s.off += int64(n)`. -/
def SectionReader.Read (s : SectionReader) (r : ReadSeeker) (n : Nat) :
    List Byte × SectionReader × ReadSeeker :=
  if s.off ≥ s.limit then ([], s, r)
  else
    let max := wrap64 (s.limit - s.off)
    let n1 := if (n : Int) > max then max.toNat else n
    ((readerAt.ReadAt r n1 s.off).1,
      { s with off := wrap64 (s.off + (readerAt.ReadAt r n1 s.off).1.length) },
      (readerAt.ReadAt r n1 s.off).2)

/-! ## Reading the footer -/

/-- An Archive opened for reading, before the file-tree reader is attached: the shared file and
the decoded footer. -/
structure ArchiveCore where
  file : ReadSeeker
  footer : footer
deriving DecidableEq, Repr

/-- The last 32 bytes of a stream, decoded as a footer. -/
def footerOf (data : List Byte) : footer := decodeFooter (data.drop (data.length - 32))

/-- The method `readFooter`: reads the binary footer and checks that it has the correct format. -/
def readFooter (f : ReadSeeker) : Except Error ArchiveCore :=
  -- check, err := archive.file.Seek(-int64(binary.Size(archive.footer)), os.SEEK_END)
  match f.Seek (-(footerSize : Int)) .SEEK_END with
  | (none, _) => .error .ErrInvalidFormat
  | (some check, f1) =>
    -- err = binary.Read(archive.file, binary.BigEndian, &archive.footer)
    let (bs, f2) := f1.Read footerSize
    if bs.length < footerSize then .error .ErrInvalidFormat
    else
      let ft := decodeFooter bs
      if ft.Signature ≠ SIGNATURE then .error .ErrInvalidFormat
      else if check ≠ wrap64 (wrap64 (ft.LenDecoder + ft.LenTar) + ft.LenJson) then
        .error .ErrInvalidFormat
      else .ok ⟨f2, ft⟩

/-! ## The libraries the writer drives -/

/-- A tar header, with the fields the code sets and reads. -/
structure Header where
  Name : GoString
  Mode : Int
  Size : Int
deriving DecidableEq, Repr

/-- What a call into the stacked writers did: the new state, the bytes the flate writer handed
to its underlying writer (the `countingWriter`) during the call, whether the call returned nil,
and the count it returned. -/
structure Step (σ : Type) where
  st : σ
  out : List Byte
  ok : Bool
  n : Nat

/-- The `tar.Writer` stacked on the `flate.Writer` of `NewWriter`, seen through the calls the
code makes. What the compressor keeps buffered stays in the state. -/
structure Codec where
  /-- State of the two stacked writers. -/
  σ : Type
  /-- State after `tar.NewWriter(flate.NewWriter(w, flate.DefaultCompression))`. -/
  init : σ
  /-- The call `tar.WriteHeader(hdr)`. -/
  WriteHeader : σ → Header → Step σ
  /-- The call `io.Copy(writer.tar, f)` on the bytes of `f`; `n` is the count it returns and `ok`
  tells that the tar writer accepted every write. -/
  Write : σ → List Byte → Step σ
  /-- The call `tar.Flush()`; its error is dropped by the code. -/
  Flush : σ → Step σ
  /-- The call `flate.Close()`; its error is dropped by the code. -/
  Close : σ → Step σ

/-- The package `encoding/json` on the metadata values in use. -/
structure Json where
  /-- Values of `interface{}` handed to `WriteMetaData`. -/
  Val : Type
  /-- The nil interface value. -/
  nil : Val
  /-- The function `json.Marshal`; `none` when the value cannot be serialised. -/
  Marshal : Val → Option (List Byte)

/-- An `io.Reader` handed to `io.Copy`: the bytes it delivers, then the error it ends with
(`none` for a plain end of file). -/
structure Reader where
  bytes : List Byte
  err : Option Error
deriving DecidableEq, Repr

/-- An `os.FileInfo` of a file, as `tar.FileInfoHeader` uses it. -/
structure FileInfo where
  Name : GoString
  Size : Int
  Mode : Int
deriving DecidableEq, Repr

/-- An `*os.File` handed to `WriteFile`, with what the file system answers for its name during
the call. -/
structure OsFile where
  /-- The name the file was opened with: `file.Name()`. -/
  Name : GoString
  /-- The answer of `os.Stat(file.Name())`. -/
  stat : Except Error FileInfo
  /-- The answer of `os.Open(file.Name())`: the reader `io.Copy` drains. -/
  content : Except Error Reader

/-- The function `tar.FileInfoHeader(info, "")` on a regular file. -/
def FileInfoHeader (info : FileInfo) : Header :=
  { Name := info.Name, Mode := info.Mode, Size := info.Size }

/-- The header `WriteFile` hands to `tar.WriteHeader`: the header of the file info, renamed. -/
def headerOf (info : FileInfo) (Name : GoString) : Header :=
  { FileInfoHeader info with Name := Name }

/-- The function `strings.TrimPrefix`. -/
def TrimPrefix (s pre : GoString) : GoString :=
  if pre.isPrefixOf s then s.drop pre.length else s

/-- The entry name `WriteFile` records: `hdr.Name = strings.TrimPrefix(file.Name(), relativeTo)`
followed by `hdr.Name = strings.TrimPrefix(hdr.Name, "/")`. -/
def entryName (name relativeTo : GoString) : GoString :=
  TrimPrefix (TrimPrefix name relativeTo) ['/']

/-! ## The writer -/

/-- How a call ends: it returns (with an error value or nil) leaving a state, or it panics in a
state. -/
inductive Outcome (α : Type) where
  | returned (err : Option Error) (s : α)
  | panicked (msg : GoString) (s : α)

/-- An Archive Writer (`type Writer struct`). The field `tar` holds both `flate` and `tar`. -/
structure Writer (C : Codec) (J : Json) where
  file : List Byte
  metaData : J.Val
  footer : footer
  tar : C.σ

/-- The method `countingWriter.Write`: forwards the bytes and adds their number to the counter. -/
def countingWriter.Write (file : List Byte) (dest : Int) (b : List Byte) : List Byte × Int :=
  (file ++ b, wrap64 (dest + b.length))

/-- A write of the flate writer into its `countingWriter{writer.file, &writer.footer.LenTar}`. -/
def Writer.emit {C : Codec} {J : Json} (w : Writer C J) (st : C.σ) (b : List Byte) : Writer C J :=
  let (file1, n1) := countingWriter.Write w.file w.footer.LenTar b
  { w with file := file1, footer := { w.footer with LenTar := n1 }, tar := st }

/-- The function `NewWriter` on an output that holds `out` already. -/
def NewWriter (C : Codec) (J : Json) (out : List Byte) : Writer C J :=
  { file := out, metaData := J.nil, footer := footer.zero, tar := C.init }

/-- The method `WriteDecoder`: writes the decoder executable into the archive. -/
def Writer.WriteDecoder {C : Codec} {J : Json} (w : Writer C J) (f : Reader) :
    Outcome (Writer C J) :=
  if w.footer.LenDecoder ≠ 0 then
    .panicked "gotar.Writer WriteDecoder: tried to write two decoders".toList w
  else
    -- n, err := io.Copy(writer.file, f); writer.footer.LenDecoder = n
    .returned f.err
      { w with file := w.file ++ f.bytes
               footer := { w.footer with LenDecoder := wrap64 f.bytes.length } }

/-- The method `WriteFile`: adds a file into the archive with the path set relative to the given
directory. -/
def Writer.WriteFile {C : Codec} {J : Json} (w : Writer C J) (file : OsFile)
    (relativeTo : GoString) : Outcome (Writer C J) :=
  if w.footer.LenDecoder = 0 ∨ w.footer.LenJson ≠ 0 then
    .panicked "gotar.Writer WriteTar: must writeTar exactly once after writing decoder".toList w
  else
    -- info, err := os.Stat(file.Name())
    match file.stat with
    | .error e => .returned (some e) w
    | .ok info =>
      -- hdr, err := tar.FileInfoHeader(info, ""); hdr.Name = ...; err = writer.tar.WriteHeader(hdr)
      let hdr := headerOf info (entryName file.Name relativeTo)
      let w1 := w.emit (C.WriteHeader w.tar hdr).st (C.WriteHeader w.tar hdr).out
      if (C.WriteHeader w.tar hdr).ok = false then
        .returned (some (.other "tar: WriteHeader".toList)) w1
      else
        -- f, err := os.Open(file.Name())
        match file.content with
        | .error e => .returned (some e) w1
        | .ok f =>
          -- n, err := io.Copy(writer.tar, f)
          let w2 := w1.emit (C.Write w1.tar f.bytes).st (C.Write w1.tar f.bytes).out
          if (C.Write w1.tar f.bytes).ok = false then
            .returned (some (.other "tar: write too long".toList)) w2
          else
            match f.err with
            | some e => .returned (some e) w2
            | none =>
              if ((C.Write w1.tar f.bytes).n : Int) ≠ hdr.Size then
                .returned (some (.other "File changed while tarring".toList)) w2
              else .returned none w2

/-- The method `WriteMetaData`: stores the value serialised by `Close`. -/
def Writer.WriteMetaData {C : Codec} {J : Json} (w : Writer C J) (metaData : J.Val) : Writer C J :=
  { w with metaData := metaData }

/-- The method `json.Encoder.Encode` into a `countingWriter`: the marshalled value followed by a
newline, in one write. -/
def Json.Encode (J : Json) (v : J.Val) : Option (List Byte) :=
  (J.Marshal v).map (fun b => b ++ [10])

/-- The end of `Close`, `jb` being what `json.NewEncoder(&countingWriter{writer.file,
&writer.footer.LenJson}).Encode(writer.metaData)` writes: then `writer.footer.Signature =
SIGNATURE` and `binary.Write(writer.file, binary.BigEndian, writer.footer)`. -/
def Writer.writeFooter {C : Codec} {J : Json} (w : Writer C J) (jb : List Byte) : Writer C J :=
  let ft : gotar.footer :=
    { w.footer with LenJson := (countingWriter.Write w.file w.footer.LenJson jb).2
                    Signature := SIGNATURE }
  { w with file := (countingWriter.Write w.file w.footer.LenJson jb).1 ++ encodeFooter ft
           footer := ft }

/-- The method `Close`: closes the archive and finishes writing the metadata and footer. -/
def Writer.Close {C : Codec} {J : Json} (w : Writer C J) : Outcome (Writer C J) :=
  if w.footer.LenDecoder = 0 ∨ w.footer.LenTar = 0 then
    .panicked "gotar.Writer Close: closed incomplete archive".toList w
  else
    -- writer.tar.Flush(); writer.flate.Close()
    let w1 := w.emit (C.Flush w.tar).st (C.Flush w.tar).out
    let w2 := w1.emit (C.Close w1.tar).st (C.Close w1.tar).out
    -- err := json.NewEncoder(...).Encode(writer.metaData)
    match J.Encode w2.metaData with
    | none => .returned (some (.other "json: unsupported value".toList)) w2
    | some jb => .returned none (w2.writeFooter jb)

/-- The bytes `Close` makes the compressor emit: those of `tar.Flush()`, then those of
`flate.Close()`. -/
def Codec.finish (C : Codec) (st : C.σ) : List Byte :=
  (C.Flush st).out ++ (C.Close (C.Flush st).st).out

/-! ## Histories of writer calls -/

/-- A call on a `Writer`. -/
inductive Call (J : Json) where
  | WriteDecoder (f : Reader)
  | WriteFile (file : OsFile) (relativeTo : GoString)
  | WriteMetaData (metaData : J.Val)
  | Close

/-- The outcome of one call. -/
def Writer.call {C : Codec} {J : Json} (w : Writer C J) (c : Call J) : Outcome (Writer C J) :=
  match c with
  | .WriteDecoder f => w.WriteDecoder f
  | .WriteFile file relativeTo => w.WriteFile file relativeTo
  | .WriteMetaData m => .returned none (w.WriteMetaData m)
  | .Close => w.Close

/-- The state after a history of calls that all returned, with the error values they returned;
`none` when one of them panicked. -/
def Writer.run {C : Codec} {J : Json} (w : Writer C J) :
    List (Call J) → Option (List (Option Error) × Writer C J)
  | [] => some ([], w)
  | c :: cs =>
    match w.call c with
    | .panicked _ _ => none
    | .returned e w1 =>
      match w1.run cs with
      | none => none
      | some (es, w2) => some (e :: es, w2)

/-- The state after a history of calls that all returned nil; `none` when one of them panicked
or returned an error. -/
def Writer.chain {C : Codec} {J : Json} (w : Writer C J) (cs : List (Call J)) :
    Option (Writer C J) :=
  match w.run cs with
  | none => none
  | some (es, w1) => if es.all (fun e => e.isNone) then some w1 else none

/-- The documented sequence of calls before `Close`: `WriteDecoder`, `WriteFile` for each file,
`WriteMetaData`. -/
def documented {J : Json} (decoder : Reader) (files : List (OsFile × GoString)) (metaData : J.Val) :
    List (Call J) :=
  [.WriteDecoder decoder] ++ files.map (fun f => .WriteFile f.1 f.2) ++ [.WriteMetaData metaData]

/-- The container the documented sequence yields on an empty output, when every call and the
final `Close` returned nil. -/
def build (C : Codec) (J : Json) (decoder : Reader) (files : List (OsFile × GoString))
    (metaData : J.Val) : Option (List Byte) :=
  match (NewWriter C J []).chain (documented decoder files metaData) with
  | none => none
  | some w =>
    match w.Close with
    | .returned none w1 => some w1.file
    | _ => none

/-! ## What a history puts into the output -/

/-- The decoder bytes a call copies. -/
def Call.decoder {J : Json} : Call J → List Byte
  | .WriteDecoder f => f.bytes
  | _ => []

/-- The decoder bytes a history copies, in order. -/
def decoderBytes {J : Json} (cs : List (Call J)) : List Byte :=
  (cs.map Call.decoder).flatten

/-- The entry a file becomes: the header `WriteFile` builds for it and the content it copies. -/
def fileEntry (file : OsFile) (relativeTo : GoString) : Option (Header × List Byte) :=
  match file.stat, file.content with
  | .ok info, .ok f => some (headerOf info (entryName file.Name relativeTo), f.bytes)
  | _, _ => none

/-- The entries a list of files becomes, in order. -/
def recorded (files : List (OsFile × GoString)) : List (Header × List Byte) :=
  files.filterMap (fun f => fileEntry f.1 f.2)

/-- The entry a call adds. -/
def Call.entry {J : Json} : Call J → Option (Header × List Byte)
  | .WriteFile file relativeTo => fileEntry file relativeTo
  | _ => none

/-- The entries a history adds, in order. -/
def entriesOf {J : Json} (cs : List (Call J)) : List (Header × List Byte) :=
  cs.filterMap Call.entry

/-- Writing one entry into the stacked writers: `WriteHeader`, then the content. The state
reached and the bytes the compressor emitted so far. -/
def Codec.addEntry (C : Codec) (acc : C.σ × List Byte) (e : Header × List Byte) :
    C.σ × List Byte :=
  ((C.Write (C.WriteHeader acc.1 e.1).st e.2).st,
    acc.2 ++ ((C.WriteHeader acc.1 e.1).out ++ (C.Write (C.WriteHeader acc.1 e.1).st e.2).out))

/-- Writing entries in order, from the initial state. -/
def Codec.session (C : Codec) (es : List (Header × List Byte)) : C.σ × List Byte :=
  es.foldl C.addEntry (C.init, [])

/-- The compressed file tree of a list of entries: every byte the compressor emits while they
are written and while `Close` flushes and closes. -/
def Codec.stream (C : Codec) (es : List (Header × List Byte)) : List Byte :=
  (C.session es).2 ++ C.finish (C.session es).1

/-- What can be observed of an outcome: whether the call panicked, the error value it returned,
the output and the footer. -/
structure Observed where
  panicked : Bool
  err : Option Error
  file : List Byte
  footer : footer
deriving DecidableEq, Repr

/-- The state a call ended in. -/
def Outcome.state {α : Type} (o : Outcome α) : α :=
  match o with
  | .returned _ s => s
  | .panicked _ s => s

/-- The observation of an outcome. -/
def Outcome.observe {C : Codec} {J : Json} (o : Outcome (Writer C J)) : Observed :=
  match o with
  | .returned e w => ⟨false, e, w.file, w.footer⟩
  | .panicked _ w => ⟨true, none, w.file, w.footer⟩

/-! ## The libraries the reader drives -/

/-- A decoder that pulls its input from an `io.Reader` (`flate.NewReader` under `tar.NewReader`,
or `json.NewDecoder`): to serve a call it issues reads of the sizes it chooses until it can answer
or a read brings no byte (`0, io.EOF`). -/
structure Puller (Cmd Reply : Type) where
  /-- State of the decoder, its buffered input included. -/
  ρ : Type
  /-- State after construction; no read is issued by the constructors. -/
  init : ρ
  /-- Size of the next read needed to serve the call; `none` when the call can be answered. -/
  need : ρ → Cmd → Option Nat
  /-- The bytes a read returned; the empty list is the end of input. -/
  feed : ρ → List Byte → ρ
  /-- The answer to the call. -/
  reply : ρ → Cmd → Reply × ρ

/-- An input the decoders read from: `read s n` is `Read(p)` with `len(p) = n`, and `remaining`
bounds the number of bytes still to come. -/
structure Source (S : Type) where
  read : S → Nat → List Byte × S
  remaining : S → Nat

/-- Serving one call of a decoder over a source: reads are issued while the decoder needs
input, until one brings no byte. -/
def Puller.drive {Cmd Reply S : Type} (P : Puller Cmd Reply) (src : Source S) :
    Nat → P.ρ → S → Cmd → Reply × P.ρ × S
  | 0, st, s, c => ((P.reply st c).1, (P.reply st c).2, s)
  | fuel + 1, st, s, c =>
    match P.need st c with
    | none => ((P.reply st c).1, (P.reply st c).2, s)
    | some n =>
      if (src.read s n).1 = [] then
        ((P.reply (P.feed st []) c).1, (P.reply (P.feed st []) c).2, (src.read s n).2)
      else P.drive src fuel (P.feed st (src.read s n).1) (src.read s n).2 c

/-- Serving one call, with fuel for every byte the source can still deliver. -/
def Puller.call {Cmd Reply S : Type} (P : Puller Cmd Reply) (src : Source S) (st : P.ρ) (s : S)
    (c : Cmd) : Reply × P.ρ × S :=
  P.drive src (src.remaining s + 1) st s c

/-- Calls of `tar.Reader`: `Next()` and `Read(p)` with `len(p) = n`. -/
inductive TarCmd where
  | Next
  | Read (n : Nat)
deriving DecidableEq, Repr

/-- Answers of `tar.Reader`: a header, content bytes (none at the end of an entry), or an error
(`Error.EOF` at the end of the archive). -/
inductive TarReply where
  | header (h : Header)
  | data (bs : List Byte)
  | failed (e : Error)
deriving DecidableEq, Repr

/-- The tar reader over the flate reader. -/
abbrev TarReader := Puller TarCmd TarReply

/-- The decoder `json.NewDecoder(r)` with its method `Decode`, for values of type `V`. -/
abbrev JsonDecoder (V : Type) := Puller Unit (Except Error V)

/-- The result of `tar.Reader.Next()` for an answer of the tar reader. -/
def TarReply.toHeader (r : TarReply) : Except Error Header :=
  match r with
  | .header h => .ok h
  | .failed e => .error e
  | .data _ => .error (.other "tar: invalid header".toList)

/-- The method `tar.Reader.Next()` over a source. -/
def tarNext {S : Type} (T : TarReader) (src : Source S) (st : T.ρ) (s : S) :
    Except Error Header × T.ρ × S :=
  ((T.call src st s .Next).1.toHeader, (T.call src st s .Next).2.1, (T.call src st s .Next).2.2)

/-- The bytes of an answer of `tar.Reader.Read`. -/
def TarReply.bytes (r : TarReply) : List Byte :=
  match r with
  | .data bs => bs
  | _ => []

/-- The method `Read(p)` of `io.LimitReader(archive.tar, N)` with `len(p) = n`: returns the bytes
and the new `N`. -/
def limitedRead {S : Type} (T : TarReader) (src : Source S) (N : Int) (st : T.ρ) (s : S)
    (n : Nat) : List Byte × Int × T.ρ × S :=
  if N ≤ 0 then ([], N, st, s)
  else
    ((T.call src st s (.Read (if (n : Int) > N then N.toNat else n))).1.bytes,
      N - ((T.call src st s (.Read (if (n : Int) > N then N.toNat else n))).1.bytes.length : Nat),
      (T.call src st s (.Read (if (n : Int) > N then N.toNat else n))).2.1,
      (T.call src st s (.Read (if (n : Int) > N then N.toNat else n))).2.2)

/-- Draining the reader returned by `NextFile` with buffers of `buf` bytes, as `io.Copy` and
`ioutil.ReadAll` do, until a read brings no byte. -/
def readContents {S : Type} (T : TarReader) (src : Source S) (buf : Nat) :
    Nat → Int → T.ρ → S → List Byte × T.ρ × S
  | 0, _, st, s => ([], st, s)
  | fuel + 1, N, st, s =>
    if (limitedRead T src N st s buf).1 = [] then
      ([], (limitedRead T src N st s buf).2.2.1, (limitedRead T src N st s buf).2.2.2)
    else
      ((limitedRead T src N st s buf).1 ++
        (readContents T src buf fuel (limitedRead T src N st s buf).2.1
          (limitedRead T src N st s buf).2.2.1 (limitedRead T src N st s buf).2.2.2).1,
       (readContents T src buf fuel (limitedRead T src N st s buf).2.1
          (limitedRead T src N st s buf).2.2.1 (limitedRead T src N st s buf).2.2.2).2.1,
       (readContents T src buf fuel (limitedRead T src N st s buf).2.1
          (limitedRead T src N st s buf).2.2.1 (limitedRead T src N st s buf).2.2.2).2.2)

/-- One step of the file walk: `Next()` and, on a header, the whole content of the entry. -/
def walkStep {S : Type} (T : TarReader) (src : Source S) (buf : Nat) (st : T.ρ) (s : S) :
    Except Error (Header × List Byte) × T.ρ × S :=
  match (tarNext T src st s).1 with
  | .error e => (.error e, (tarNext T src st s).2.1, (tarNext T src st s).2.2)
  | .ok h =>
    (.ok (h, (readContents T src buf (h.Size.toNat + 1) h.Size (tarNext T src st s).2.1
        (tarNext T src st s).2.2).1),
      (readContents T src buf (h.Size.toNat + 1) h.Size (tarNext T src st s).2.1
        (tarNext T src st s).2.2).2.1,
      (readContents T src buf (h.Size.toNat + 1) h.Size (tarNext T src st s).2.1
        (tarNext T src st s).2.2).2.2)

/-- Whether a step of the walk ended with an error. -/
def isError {α : Type} (r : Except Error α) : Bool :=
  match r with
  | .error _ => true
  | .ok _ => false

/-- The file walk over a source: up to `k` steps; it stops at the first error, which is
recorded. -/
def walk {S : Type} (T : TarReader) (src : Source S) (buf : Nat) :
    Nat → T.ρ → S → List (Except Error (Header × List Byte)) × T.ρ × S
  | 0, st, s => ([], st, s)
  | k + 1, st, s =>
    if isError (walkStep T src buf st s).1 then
      ([(walkStep T src buf st s).1], (walkStep T src buf st s).2.1, (walkStep T src buf st s).2.2)
    else
      ((walkStep T src buf st s).1 ::
        (walk T src buf k (walkStep T src buf st s).2.1 (walkStep T src buf st s).2.2).1,
       (walk T src buf k (walkStep T src buf st s).2.1 (walkStep T src buf st s).2.2).2.1,
       (walk T src buf k (walkStep T src buf st s).2.1 (walkStep T src buf st s).2.2).2.2)

/-- A reader over bytes held in memory (`bytes.Reader`): the bytes not yet read. -/
def memSource : Source (List Byte) :=
  { read := fun s n => (s.take n, s.drop n)
    remaining := fun s => s.length }

/-- An `io.SectionReader` over the shared `readerAt`. -/
def sectionSource : Source (SectionReader × ReadSeeker) :=
  { read := fun s n => ((s.1.Read s.2 n).1, (s.1.Read s.2 n).2)
    remaining := fun s => (s.1.limit - s.1.off).toNat }

/-! ## The reader -/

/-- An Archive opened for reading (`type Archive struct`): the shared file, the footer, and the
tar reader over the flate reader over the section reader of the file tree. -/
structure Archive (T : TarReader) where
  file : ReadSeeker
  footer : footer
  stream : SectionReader
  tar : T.ρ

/-- The function `Read`: reads an archive from a file. -/
def Read (T : TarReader) (f : ReadSeeker) : Except Error (Archive T) :=
  match readFooter f with
  | .error e => .error e
  | .ok core =>
    -- flate.NewReader(io.NewSectionReader(archive.file, footer.LenDecoder, footer.LenTar))
    .ok { file := core.file, footer := core.footer
          stream := NewSectionReader core.footer.LenDecoder core.footer.LenTar
          tar := T.init }

/-- The state of an archive after its tar reader ran over the section reader. -/
def Archive.after {T : TarReader} (a : Archive T) (r : T.ρ × SectionReader × ReadSeeker) :
    Archive T :=
  { a with tar := r.1, stream := r.2.1, file := r.2.2 }

/-- The method `NextFile`: the next header of the embedded tar file with the size the
`io.LimitReader` it returns is limited to, or an error (`Error.EOF` at the end of the tar
file). -/
def Archive.NextFile {T : TarReader} (a : Archive T) : Except Error (Header × Int) × Archive T :=
  ((tarNext T sectionSource a.tar (a.stream, a.file)).1.map (fun hdr => (hdr, hdr.Size)),
    a.after (tarNext T sectionSource a.tar (a.stream, a.file)).2)

/-- A read of `n` bytes from the reader returned by `NextFile`, `N` bytes being left to it. -/
def Archive.readFile {T : TarReader} (a : Archive T) (N : Int) (n : Nat) :
    List Byte × Int × Archive T :=
  ((limitedRead T sectionSource N a.tar (a.stream, a.file) n).1,
    (limitedRead T sectionSource N a.tar (a.stream, a.file) n).2.1,
    a.after (limitedRead T sectionSource N a.tar (a.stream, a.file) n).2.2)

/-- The method `ReadMetaData`: decodes the metadata stored within the archive, through a new
section reader over the shared file. -/
def Archive.ReadMetaData {T : TarReader} {V : Type} (D : JsonDecoder V) (a : Archive T) :
    Except Error V × Archive T :=
  ((D.call sectionSource D.init
      (NewSectionReader (wrap64 (a.footer.LenDecoder + a.footer.LenTar)) a.footer.LenJson, a.file)
      ()).1,
    { a with file := (D.call sectionSource D.init
      (NewSectionReader (wrap64 (a.footer.LenDecoder + a.footer.LenTar)) a.footer.LenJson, a.file)
      ()).2.2.2 })

/-- Draining the reader `NextFile` returned, `N` bytes being left to it, by reads of `buf` bytes
until a read brings no byte, as `ioutil.ReadAll` and `io.Copy` do. -/
def Archive.drain {T : TarReader} (buf : Nat) : Nat → Archive T → Int → List Byte × Archive T
  | 0, a, _ => ([], a)
  | fuel + 1, a, N =>
    if (a.readFile N buf).1 = [] then ([], (a.readFile N buf).2.2)
    else
      ((a.readFile N buf).1 ++ (Archive.drain buf fuel (a.readFile N buf).2.2 (a.readFile N buf).2.1).1,
        (Archive.drain buf fuel (a.readFile N buf).2.2 (a.readFile N buf).2.1).2)

/-- The file walk of a caller: up to `k` calls of `NextFile`, the reader each call returns being
drained before the next call, until `NextFile` returns an error. -/
def Archive.walk {T : TarReader} (buf : Nat) :
    Nat → Archive T → List (Except Error (Header × List Byte)) × Archive T
  | 0, a => ([], a)
  | k + 1, a =>
    match (a.NextFile).1 with
    | .error e => ([.error e], (a.NextFile).2)
    | .ok p =>
      (.ok (p.1, (Archive.drain buf (p.2.toNat + 1) (a.NextFile).2 p.2).1) ::
        (Archive.walk buf k (Archive.drain buf (p.2.toNat + 1) (a.NextFile).2 p.2).2).1,
       (Archive.walk buf k (Archive.drain buf (p.2.toNat + 1) (a.NextFile).2 p.2).2).2)

/-- Draining the reader `NextFile` returned, limited to `N` bytes, as `io.Copy` does with its
buffer of 32 KiB. -/
def Archive.copyFile {T : TarReader} (a : Archive T) (N : Int) : List Byte × Archive T :=
  ((readContents T sectionSource (32 * 1024) (N.toNat + 1) N a.tar (a.stream, a.file)).1,
    a.after (readContents T sectionSource (32 * 1024) (N.toNat + 1) N a.tar (a.stream, a.file)).2)

/-! ## Interleaved reads -/

/-- A read on an archive: `NextFile()`, a read of `n` bytes from the reader `NextFile` returned
last, or `ReadMetaData`. -/
inductive ReadOp where
  | NextFile
  | ReadFile (n : Nat)
  | ReadMetaData
deriving DecidableEq, Repr

/-- What a read returned. -/
inductive ReadEvent (V : Type) where
  | header (r : Except Error (Header × Int))
  | bytes (bs : List Byte)
  | metaData (r : Except Error V)

/-- Whether an event is the result of `ReadMetaData`. -/
def ReadEvent.isMetaData {V : Type} (e : ReadEvent V) : Bool :=
  match e with
  | .metaData _ => true
  | _ => false

/-- The limit of the reader `NextFile` returned; there is none after an error. -/
def limitOf (r : Except Error (Header × Int)) : Int :=
  match r with
  | .ok p => p.2
  | .error _ => 0

/-- The results of a sequence of reads made one after the other on an archive, `N` bytes being
left to the reader `NextFile` returned last. -/
def Archive.ops {T : TarReader} {V : Type} (Dj : JsonDecoder V) :
    List ReadOp → Archive T → Int → List (ReadEvent V)
  | [], _, _ => []
  | .NextFile :: l, a, _ =>
    .header (a.NextFile).1 :: Archive.ops Dj l (a.NextFile).2 (limitOf (a.NextFile).1)
  | .ReadFile n :: l, a, N =>
    .bytes (a.readFile N n).1 :: Archive.ops Dj l (a.readFile N n).2.2 (a.readFile N n).2.1
  | .ReadMetaData :: l, a, N =>
    .metaData (a.ReadMetaData Dj).1 :: Archive.ops Dj l (a.ReadMetaData Dj).2 N

/-! ## A section of a stream seen as bytes in memory -/

/-- The section reader `s` over the stream `data` stands at the bytes `m` still to be read of
the section `B` that starts at offset `base`: wherever the cursor of the file is. -/
def SectionAt (data : List Byte) (base : Nat) (B : List Byte)
    (s : SectionReader × ReadSeeker) (m : List Byte) : Prop :=
  s.2.data = data ∧ data.length < 2 ^ 63 ∧ (data.drop base).take B.length = B ∧
  s.1.limit = ((base + B.length : Nat) : Int) ∧
  ∃ k, k ≤ B.length ∧ s.1.off = ((base + k : Nat) : Int) ∧ m = B.drop k

/-- Two sources that deliver the same bytes: related states answer every read with the same
bytes, stay related, and have the same number of bytes left. -/
def SameBytes {S1 S2 : Type} (a : Source S1) (b : Source S2) (R : S1 → S2 → Prop) : Prop :=
  (∀ s m n, R s m → (a.read s n).1 = (b.read m n).1 ∧ R (a.read s n).2 (b.read m n).2) ∧
  (∀ s m, R s m → a.remaining s = b.remaining m)

/-! ## Reference implementations of the library interfaces

Small implementations of `Codec`, `TarReader`, `Json` and `JsonDecoder`, used to evaluate the
writer and the reader on concrete inputs. Entries are framed as a one-byte name length, the name,
two bytes of mode and two bytes of size, followed by the content; the compressor stores its input
unchanged and holds it back until `window` bytes are pending. -/

/-- The byte of a character. -/
def charByte (c : Char) : Byte := ⟨c.toNat % 256, Nat.mod_lt _ (by decide)⟩

/-- The character of a byte. -/
def byteChar (b : Byte) : Char := Char.ofNat b.val

/-- The bytes of a string. -/
def strBytes (s : GoString) : List Byte := s.map charByte

/-- State of the reference codec: the bytes the compressor holds back, and the bytes of the
current entry still to be written. -/
structure RefState where
  pending : List Byte
  nb : Nat
deriving DecidableEq, Repr

/-- The framing of a header in the reference codec. -/
def refHeaderBytes (h : Header) : List Byte :=
  [charByte (Char.ofNat h.Name.length)] ++ strBytes h.Name ++
    [⟨h.Mode.toNat / 256 % 256, Nat.mod_lt _ (by decide)⟩, ⟨h.Mode.toNat % 256, Nat.mod_lt _ (by decide)⟩,
     ⟨h.Size.toNat / 256 % 256, Nat.mod_lt _ (by decide)⟩, ⟨h.Size.toNat % 256, Nat.mod_lt _ (by decide)⟩]

/-- The compressor takes `bs`: it emits what it holds once `window` bytes are pending. -/
def refPush (window : Nat) (st : RefState) (bs : List Byte) (nb : Nat) (ok : Bool) (n : Nat) :
    Step RefState :=
  if window ≤ (st.pending ++ bs).length then ⟨⟨[], nb⟩, st.pending ++ bs, ok, n⟩
  else ⟨⟨st.pending ++ bs, nb⟩, [], ok, n⟩

/-- The reference codec with a compressor window of `window` bytes. -/
def refCodec (window : Nat) : Codec :=
  { σ := RefState
    init := ⟨[], 0⟩
    WriteHeader := fun st h =>
      if st.nb = 0 ∧ h.Name.length < 256 ∧ 0 ≤ h.Mode ∧ h.Mode < 65536 ∧ 0 ≤ h.Size ∧ h.Size < 65536 then
        refPush window st (refHeaderBytes h) h.Size.toNat true 0
      else ⟨st, [], false, 0⟩
    Write := fun st bs =>
      refPush window st (bs.take st.nb) (st.nb - (bs.take st.nb).length)
        (decide (bs.length ≤ st.nb)) (bs.take st.nb).length
    Flush := fun st => ⟨st, [], true, 0⟩
    Close := fun st => ⟨⟨[], st.nb⟩, st.pending, true, 0⟩ }

/-- An entry the reference codec can frame: a name of fewer than 256 one-byte characters, mode
and size below 65536, and a content of the size of the header. -/
def framed (e : Header × List Byte) : Prop :=
  e.1.Name.length < 256 ∧ (∀ c ∈ e.1.Name, c.toNat < 256) ∧ (0 ≤ e.1.Mode ∧ e.1.Mode < 65536) ∧
    (0 ≤ e.1.Size ∧ e.1.Size < 65536) ∧ e.2.length = e.1.Size.toNat

/-- The frames of a list of entries in the reference codec. -/
def frames (es : List (Header × List Byte)) : List Byte :=
  (es.map (fun e => refHeaderBytes e.1 ++ e.2)).flatten

/-- State of the reference tar reader: input received and not yet consumed, whether the end of
input was seen, and the content bytes of the current entry not yet read. -/
structure RefReader where
  buf : List Byte
  eof : Bool
  nb : Nat
deriving DecidableEq, Repr

/-- Parsing of a header in the reference framing; `none` while it is incomplete. -/
def refParseHeader (b : List Byte) : Option (Header × List Byte) :=
  match b with
  | [] => none
  | l :: rest =>
    match rest.drop l.val with
    | m1 :: m0 :: s1 :: s0 :: tail =>
      some ({ Name := (rest.take l.val).map byteChar
              Mode := ((m1.val * 256 + m0.val : Nat) : Int)
              Size := ((s1.val * 256 + s0.val : Nat) : Int) }, tail)
    | _ => none

/-- The reference tar reader. -/
def refTar : TarReader :=
  { ρ := RefReader
    init := ⟨[], false, 0⟩
    need := fun st c =>
      match c with
      | .Next =>
        if st.eof ∨ (refParseHeader (st.buf.drop st.nb)).isSome then none else some 4096
      | .Read n => if st.nb = 0 ∨ n = 0 ∨ st.buf ≠ [] ∨ st.eof then none else some 4096
    feed := fun st bs => if bs = [] then { st with eof := true } else { st with buf := st.buf ++ bs }
    reply := fun st c =>
      match c with
      | .Next =>
        match refParseHeader (st.buf.drop st.nb) with
        | some (h, tail) => (.header h, ⟨tail, st.eof, h.Size.toNat⟩)
        | none =>
          if st.buf.drop st.nb = [] then (.failed .EOF, st)
          else (.failed .ErrUnexpectedEOF, st)
      | .Read n =>
        (.data (st.buf.take (min n st.nb)),
          ⟨st.buf.drop (min n st.nb), st.eof, st.nb - (st.buf.take (min n st.nb)).length⟩) }

/-- Characters the reference serialiser writes without escaping. -/
def refPlain (c : Char) : Bool :=
  (48 ≤ c.toNat && c.toNat ≤ 57) || (65 ≤ c.toNat && c.toNat ≤ 90) ||
    (97 ≤ c.toNat && c.toNat ≤ 122) || c.toNat = 45 || c.toNat = 46 || c.toNat = 47 || c.toNat = 95

/-- The reference serialiser, for the nil value and for values `struct{ Name string }` with a
plain name. -/
def refJson : Json :=
  { Val := Option GoString
    nil := none
    Marshal := fun v =>
      match v with
      | none => some (strBytes "null".toList)
      | some name =>
        if name.all refPlain then
          some (strBytes "\x7b\"Name\":\"".toList ++ strBytes name ++ strBytes "\"\x7d".toList)
        else none }

/-- Parsing of the reference serialisation. -/
def refUnmarshal (b : List Byte) : Except Error (Option GoString) :=
  if b = strBytes "null\n".toList then .ok none
  else if (strBytes "\x7b\"Name\":\"".toList).isPrefixOf b then
    let rest := b.drop 9
    let name := rest.takeWhile (fun x => x.val ≠ 34)
    if rest.drop name.length = strBytes "\"\x7d\n".toList then .ok (some (name.map byteChar))
    else .error (.other "json: invalid value".toList)
  else .error (.other "json: invalid value".toList)

/-- The reference decoder: it reads to the end of its input and parses what it got. -/
def refJsonDecoder : JsonDecoder (Option GoString) :=
  { ρ := List Byte × Bool
    init := ([], false)
    need := fun st _ => if st.2 then none else some 512
    feed := fun st bs => if bs = [] then (st.1, true) else (st.1 ++ bs, st.2)
    reply := fun st _ => (refUnmarshal st.1, st) }

/-! ### Readers of the formats of the libraries

A tar reader for deflate streams of stored blocks that hold ustar headers, and a JSON decoder
that reads a line: they read the first 4096 and 512 bytes as the libraries do. -/

/-- Reading of an octal field of a tar header: the octal digits of the field. -/
def parseOctal (bs : List Byte) : Nat :=
  (bs.filter (fun b => 48 ≤ b.val ∧ b.val ≤ 55)).foldl (fun acc b => acc * 8 + (b.val - 48)) 0

/-- The checksum of a tar header block: the sum of its bytes, the checksum field (offsets 148 to
155) counted as spaces. -/
def tarChecksum (block : List Byte) : Nat :=
  ((block.take 148).map Fin.val).sum + 8 * 32 + ((block.drop 156).map Fin.val).sum

/-- Parsing of a 512-byte tar header block: the name (up to the first NUL of the first 100
bytes), the mode and the size; `none` when the checksum does not match. -/
def parseTarHeader (block : List Byte) : Option Header :=
  if block.length = 512 ∧ parseOctal ((block.drop 148).take 8) = tarChecksum block then
    some { Name := ((block.take 100).takeWhile (fun b => b.val ≠ 0)).map byteChar
           Mode := (parseOctal ((block.drop 100).take 8) : Nat)
           Size := (parseOctal ((block.drop 124).take 12) : Nat) }
  else none

/-- What a deflate stream starts with, for streams of stored blocks: a complete stored block
(its data and the input after it), an incomplete block, or input that is not a stored block. -/
inductive Stored where
  | block (data rest : List Byte)
  | incomplete
  | corrupt
deriving DecidableEq, Repr

/-- Decoding of the first block of a deflate stream when it is a stored block: the block type
in bits 1 and 2 of the first byte is 0, then `LEN` and its complement `NLEN` (little-endian),
then `LEN` bytes. -/
def inflateStored (b : List Byte) : Stored :=
  match b with
  | [] => .incomplete
  | hd :: rest =>
    if hd.val / 2 % 4 ≠ 0 then .corrupt
    else
      match rest with
      | l0 :: l1 :: n0 :: n1 :: body =>
        if l0.val + 256 * l1.val + (n0.val + 256 * n1.val) ≠ 65535 then .corrupt
        else if body.length < l0.val + 256 * l1.val then .incomplete
        else .block (body.take (l0.val + 256 * l1.val)) (body.drop (l0.val + 256 * l1.val))
      | _ => .incomplete

/-- State of the stored-block tar reader: compressed input received and not yet decoded,
whether the end of input was seen, decoded bytes not yet consumed, and the content bytes of the
current entry not yet read. -/
structure StoredReader where
  buf : List Byte
  eof : Bool
  plain : List Byte
  nb : Nat
deriving DecidableEq, Repr

/-- A tar reader over a flate reader for deflate streams of stored blocks, each block holding
the 512-byte header of an entry followed by its content. It asks for 4096 bytes at a time, as
the buffered reader under `flate.NewReader` does. -/
def storedTar : TarReader :=
  { ρ := StoredReader
    init := ⟨[], false, [], 0⟩
    need := fun st c =>
      match c with
      | .Next => if st.eof ∨ inflateStored st.buf ≠ .incomplete then none else some 4096
      | .Read _ => none
    feed := fun st bs => if bs = [] then { st with eof := true } else { st with buf := st.buf ++ bs }
    reply := fun st c =>
      match c with
      | .Next =>
        match inflateStored st.buf with
        | .corrupt => (.failed (.other "flate: corrupt input".toList), st)
        | .incomplete => (.failed .ErrUnexpectedEOF, st)
        | .block data rest =>
          match parseTarHeader (data.take 512) with
          | none => (.failed (.other "archive/tar: invalid tar header".toList), st)
          | some h => (.header h, ⟨rest, st.eof, data.drop 512, h.Size.toNat⟩)
      | .Read n =>
        (.data (st.plain.take (min n st.nb)),
          { st with plain := st.plain.drop (min n st.nb)
                    nb := st.nb - (st.plain.take (min n st.nb)).length }) }

/-- A decoder that reads 512 bytes at a time, as `json.Decoder` does, until it holds a line, and
parses its first line. -/
def lineJsonDecoder : JsonDecoder (Option GoString) :=
  { ρ := List Byte × Bool
    init := ([], false)
    need := fun st _ => if st.2 ∨ (10 : Byte) ∈ st.1 then none else some 512
    feed := fun st bs => if bs = [] then (st.1, true) else (st.1 ++ bs, st.2)
    reply := fun st _ => (refUnmarshal (st.1.takeWhile (fun b => b ≠ 10) ++ [10]), st) }

/-! ## Concrete inputs -/

/-- The file of the end-to-end scenario: `templates/index.html`, mode 0644, content `hello`. -/
def indexHtml : OsFile :=
  { Name := "templates/index.html".toList
    stat := .ok ⟨"index.html".toList, 5, 0o644⟩
    content := .ok ⟨strBytes "hello".toList, none⟩ }

/-- The file `.gotar` of the current directory, as `filepath.Walk(".", ...)` names it. -/
def dotGotar : OsFile :=
  { Name := ".gotar".toList
    stat := .ok ⟨".gotar".toList, 2, 0o644⟩
    content := .ok ⟨strBytes "*\n".toList, none⟩ }

/-- The calls of the end-to-end scenario before `Close`: the decoder byte `0x42`, the file
`templates/index.html` relative to `.`, the metadata with `Name` set to `app`. -/
def scenario : List (Call refJson) :=
  documented ⟨[0x42], none⟩ [(indexHtml, ".".toList)] (some "app".toList)

/-- The writer after the scenario, over a compressor that holds its output back, as
`compress/flate` does for inputs smaller than its window. -/
def heldWriter : Writer (refCodec 65536) refJson :=
  ((NewWriter (refCodec 65536) refJson []).chain scenario).getD (NewWriter (refCodec 65536) refJson [])

/-- The writer after the scenario, over a compressor with a window of 8 bytes. -/
def eagerWriter : Writer (refCodec 8) refJson :=
  ((NewWriter (refCodec 8) refJson []).chain scenario).getD (NewWriter (refCodec 8) refJson [])

/-- The writer of `eagerWriter` after `Close`. -/
def eagerClosed : Writer (refCodec 8) refJson := eagerWriter.Close.state

/-- The container of the end-to-end scenario over the reference codec with a window of 8
bytes. -/
def scenarioContainer : List Byte :=
  (build (refCodec 8) refJson ⟨[0x42], none⟩ [(indexHtml, ".".toList)] (some "app".toList)).getD []

/-- The writer after one `WriteDecoder` call on an empty stream. -/
def emptyDecoderWriter : Writer (refCodec 8) refJson :=
  (((NewWriter (refCodec 8) refJson []).run [.WriteDecoder ⟨[], none⟩]).getD
    ([], NewWriter (refCodec 8) refJson [])).2

/-- The writer after one `WriteDecoder` call on the stream of the byte `0x42`. -/
def oneDecoderWriter : Writer (refCodec 8) refJson :=
  (((NewWriter (refCodec 8) refJson []).run [.WriteDecoder ⟨[0x42], none⟩]).getD
    ([], NewWriter (refCodec 8) refJson [])).2

/-- Whether a result of `Read` is an archive. -/
def isArchive {T : TarReader} (r : Except Error (Archive T)) : Bool :=
  match r with
  | .ok _ => true
  | .error _ => false

/-- A 32-byte stream: the footer with the three lengths 0 and the signature. -/
def zeroLengthStream : List Byte := encodeFooter ⟨0, 0, 0, SIGNATURE⟩

/-- A 32-byte stream: the footer with `LenDecoder = LenTar = -2^63`, `LenJson = 0` and the
signature. -/
def overflowStream : List Byte := encodeFooter ⟨-2 ^ 63, -2 ^ 63, 0, SIGNATURE⟩

/-- A 32-bit mixing function (multiplications and xor-shifts modulo 2^32). -/
def mix32 (i : Nat) : Nat :=
  ((((i ^^^ (i >>> 16)) * 0x7feb352d % 4294967296) ^^^
      (((i ^^^ (i >>> 16)) * 0x7feb352d % 4294967296) >>> 15)) * 0x846ca68b % 4294967296) ^^^
    (((((i ^^^ (i >>> 16)) * 0x7feb352d % 4294967296) ^^^
      (((i ^^^ (i >>> 16)) * 0x7feb352d % 4294967296) >>> 15)) * 0x846ca68b % 4294967296) >>> 16)

/-- A sequence of `n` pseudo-random bytes: the low bytes of `mix32 0`, `mix32 1`, ... -/
def noise (n : Nat) : List Byte :=
  (List.range n).map (fun i => ⟨mix32 i % 256, Nat.mod_lt _ (by decide)⟩)

/-- A program file `app` of the current directory, as `filepath.Walk(".", ...)` names it: mode
0755 and 65535 bytes that do not compress. -/
def appBinary : OsFile :=
  { Name := "app".toList
    stat := .ok ⟨"app".toList, 65535, 0o755⟩
    content := .ok ⟨noise 65535, none⟩ }

/-- The files the packaging tool adds from a directory that holds `app` and `.gotar`, each
relative to `.`. -/
def toolFiles : List (OsFile × GoString) := [(appBinary, ".".toList), (dotGotar, ".".toList)]

/-- The bytes of the container the writer over the reference codec yields from a decoder and
the files of `toolFiles`. -/
def toolBytes (D : List Byte) : List Byte :=
  D ++ (refHeaderBytes ⟨"app".toList, 0o755, 65535⟩ ++ noise 65535 ++
      (refHeaderBytes ⟨"gotar".toList, 0o644, 2⟩ ++ strBytes "*\n".toList)) ++
    strBytes "\x7b\"Name\":\"app\"\x7d\n".toList ++
    encodeFooter ⟨(D.length : Nat), 65555, 15, SIGNATURE⟩

/-- The container of the decoder byte `0x42`, the files `app` and `.gotar` and the metadata with
`Name` set to `app`, written over the reference codec with a window of 65536 bytes. -/
def toolContainer : List Byte :=
  (build (refCodec 65536) refJson ⟨[0x42], none⟩ toolFiles (some "app".toList)).getD []

/-- The container of the decoder byte `0x42`, the files `templates/index.html` and `.gotar` and
the metadata with `Name` set to `app`, written over the reference codec with a window of 8
bytes. -/
def dotContainer : List Byte :=
  (build (refCodec 8) refJson ⟨[0x42], none⟩ ([(indexHtml, ".".toList)] ++ [(dotGotar, ".".toList)])
    (some "app".toList)).getD []

/-- The 512-byte ustar header of a regular file `app` with mode 0755, size 0 and owner 0. -/
def ustarHeader : List Byte :=
  strBytes "app".toList ++ List.replicate 97 0 ++
  strBytes "0000755".toList ++ [0] ++ strBytes "0000000".toList ++ [0] ++
  strBytes "0000000".toList ++ [0] ++ strBytes "00000000000".toList ++ [0] ++
  strBytes "00000000000".toList ++ [0] ++ strBytes "006441".toList ++ [0, 32] ++
  strBytes "0".toList ++ List.replicate 100 0 ++ strBytes "ustar".toList ++ [0] ++
  strBytes "00".toList ++ List.replicate 247 0

/-- A deflate stream of 517 bytes: one final stored block (`01`, `LEN = 512`, `NLEN`) holding
`ustarHeader`. -/
def storedEntry : List Byte := [0x01, 0x00, 0x02, 0xFF, 0xFD] ++ ustarHeader

/-- The first 512 bytes of the metadata section of `forgedStream`: a JSON value and its
newline, then spaces. -/
def forgedMetaData : List Byte :=
  strBytes "\x7b\"Name\":\"app\"\x7d\n".toList ++ List.replicate 497 32

/-- A forged stream of 1660 bytes: 599 zero bytes, 512 bytes of metadata, a deflate stream
holding a tar header, and a footer with `LenDecoder = -1`, `LenTar = 600`, `LenJson = 1029` and
the signature. The metadata section starts at offset 599 and the deflate stream at offset
1111. -/
def forgedStream : List Byte :=
  List.replicate 599 0 ++ forgedMetaData ++ storedEntry ++ encodeFooter ⟨-1, 600, 1029, SIGNATURE⟩

/-- The archive of a result of `Read`. -/
def Archive.ofResult {T : TarReader} (r : Except Error (Archive T)) : Archive T :=
  match r with
  | .ok a => a
  | .error _ => ⟨⟨[], 0⟩, footer.zero, ⟨0, 0⟩, T.init⟩

/-- The archive `Read` returns for the container of the end-to-end scenario. -/
def scenarioArchive : Archive refTar := Archive.ofResult (Read refTar ⟨scenarioContainer, 0⟩)

end gotar

/-! ## The decoder: `decoder/main.go` -/

namespace decoder

open gotar

/-- The metadata the decoder reads (`type metaData struct`). -/
structure metaData where
  Name : GoString
deriving DecidableEq, Repr

/-- A change the decoder makes to the file system. -/
inductive FsOp where
  | MkdirAll (path : GoString) (perm : Nat)
  | Create (name : GoString)
  | Write (name : GoString) (content : List Byte)
  | Close (name : GoString)
  | Chmod (name : GoString) (mode : Int)
deriving DecidableEq, Repr

/-- The state of the process: working directory, environment, argument vector, and the changes
made to the file system so far. -/
structure Process where
  cwd : GoString
  env : GoString → Option GoString
  args : List GoString
  fs : List FsOp

/-- What the operating system and the path library answer. -/
structure World where
  /-- The error of `os.Getwd()`, if any; on success it returns the working directory. -/
  getwd : Option Error
  /-- The answer of `osext.Executable()`. -/
  executable : Except Error GoString
  /-- The answer of `os.Open(pth)`. -/
  openFile : GoString → Except Error ReadSeeker
  /-- The answer of `ioutil.TempDir("", "")`. -/
  tempDir : Except Error GoString
  /-- The error of `os.Chdir(dir)`, if any; the code drops it. -/
  chdir : GoString → Option Error
  /-- The error of a change to the file system, if any. -/
  fsFails : FsOp → Option Error
  /-- The function `path.Join` on two elements. -/
  pathJoin : GoString → GoString → GoString
  /-- The function `path.Dir`. -/
  pathDir : GoString → GoString

/-- The call `os.Setenv(key, value)`. -/
def Process.Setenv (p : Process) (key value : GoString) : Process :=
  { p with env := fun k => if k = key then some value else p.env k }

/-- The call `os.Chdir(dir)`: the working directory changes when the call succeeds. -/
def Process.Chdir (p : Process) (W : World) (dir : GoString) : Process :=
  match W.chdir dir with
  | none => { p with cwd := dir }
  | some _ => p

/-- The process after changes to the file system. -/
def Process.did (p : Process) (ops : List FsOp) : Process :=
  { p with fs := p.fs ++ ops }

/-- How a run ends before the handoff: it completes, it panics, or it is still running when
the bound on the number of entries is reached. -/
inductive Result (α : Type) where
  | ok (a : α)
  | panic (e : Error)
  | running

/-- Whether a run completed. -/
def Result.isOk {α : Type} (r : Result α) : Bool :=
  match r with
  | .ok _ => true
  | _ => false

/-- The function `Unpack`: for every entry of the archive, the directory of its name is made,
the file is created, its content is copied when its size is positive, the file is closed and
its mode is set; end of data ends the loop. At most `fuel` entries are looked at. -/
def Unpack (W : World) {T : TarReader} : Nat → Archive T → Process → Result Process
  | 0, _, _ => .running
  | fuel + 1, archive, p =>
    -- hdr, contents, err := archive.NextFile()
    match (archive.NextFile).1 with
    | .error e => if e = .EOF ∨ e = .ErrUnexpectedEOF then .ok p else .panic e
    | .ok (hdr, N) =>
      -- err = os.MkdirAll(path.Dir(hdr.Name), 0755)
      match W.fsFails (.MkdirAll (W.pathDir hdr.Name) 0o755) with
      | some e => .panic e
      | none =>
        -- file, err := os.Create(hdr.Name)
        match W.fsFails (.Create hdr.Name) with
        | some e => .panic e
        | none =>
          -- if hdr.Size > 0 { _, err := io.Copy(file, contents) }
          match (if hdr.Size > 0 then
              W.fsFails (.Write hdr.Name ((archive.NextFile).2.copyFile N).1) else none) with
          | some e => .panic e
          | none =>
            -- err = file.Close()
            match W.fsFails (.Close hdr.Name) with
            | some e => .panic e
            | none =>
              -- err = os.Chmod(file.Name(), os.FileMode(hdr.Mode))
              match W.fsFails (.Chmod hdr.Name hdr.Mode) with
              | some e => .panic e
              | none =>
                Unpack W fuel
                  (if hdr.Size > 0 then ((archive.NextFile).2.copyFile N).2
                    else (archive.NextFile).2)
                  (p.did ([.MkdirAll (W.pathDir hdr.Name) 0o755, .Create hdr.Name] ++
                    (if hdr.Size > 0 then [.Write hdr.Name ((archive.NextFile).2.copyFile N).1]
                      else []) ++
                    [.Close hdr.Name, .Chmod hdr.Name hdr.Mode]))

/-- The process when `Unpack` starts: `os.Setenv("GOTAR_PWD", pwd)`,
`os.Setenv("GOTAR_DIR", dir)` and, after the metadata is read, `os.Chdir(dir)`. -/
def Process.prepared (p : Process) (W : World) (pwd dir : GoString) : Process :=
  ((p.Setenv "GOTAR_PWD".toList pwd).Setenv "GOTAR_DIR".toList dir).Chdir W dir

/-- How `main` ends: with a panic, with the call `syscall.Exec(argv0, argv, envv)` made in a
process whose working directory is `cwd`, or still unpacking at the bound. -/
inductive Exit where
  | panic (e : Error)
  | exec (argv0 : GoString) (argv : List GoString) (envv : GoString → Option GoString)
      (cwd : GoString)
  | running

/-- The function `main` of the decoder. -/
def main (W : World) (T : TarReader) (Dj : JsonDecoder metaData) (fuel : Nat) (p : Process) :
    Exit :=
  -- pwd, err := os.Getwd()
  match W.getwd with
  | some e => .panic e
  | none =>
    -- pth, err := osext.Executable()
    match W.executable with
    | .error e => .panic e
    | .ok pth =>
      -- file, err := os.Open(pth)
      match W.openFile pth with
      | .error e => .panic e
      | .ok file =>
        -- archive, err := gotar.Read(file)
        match Read T file with
        | .error e => .panic e
        | .ok archive =>
          -- dir, err := ioutil.TempDir("", "")
          match W.tempDir with
          | .error e => .panic e
          | .ok dir =>
            -- os.Setenv("GOTAR_PWD", pwd); os.Setenv("GOTAR_DIR", dir)
            -- err = archive.ReadMetaData(&m)
            match (archive.ReadMetaData Dj).1 with
            | .error e => .panic e
            | .ok m =>
              -- os.Chdir(dir); err = Unpack(archive)
              match Unpack W fuel (archive.ReadMetaData Dj).2 (p.prepared W p.cwd dir) with
              | .panic e => .panic e
              | .running => .running
              | .ok p1 =>
                -- err = syscall.Exec(path.Join(dir, m.Name), os.Args, os.Environ())
                .exec (W.pathJoin dir m.Name) p1.args p1.env p1.cwd

/-- The reference decoder for the metadata of the decoder: `null` leaves the zero value. -/
def refMetaDecoder : JsonDecoder metaData :=
  { ρ := refJsonDecoder.ρ
    init := refJsonDecoder.init
    need := refJsonDecoder.need
    feed := refJsonDecoder.feed
    reply := fun st c =>
      (match (refJsonDecoder.reply st c).1 with
        | .ok (some name) => .ok ⟨name⟩
        | .ok none => .ok ⟨[]⟩
        | .error e => .error e,
       (refJsonDecoder.reply st c).2) }

/-- A world in which every call succeeds: the running executable is the container of the
end-to-end scenario and the temporary directory is `/tmp/123`. -/
def scenarioWorld : World :=
  { getwd := none
    executable := .ok "/usr/bin/app".toList
    openFile := fun _ => .ok ⟨scenarioContainer, 0⟩
    tempDir := .ok "/tmp/123".toList
    chdir := fun _ => none
    fsFails := fun _ => none
    pathJoin := fun a b => a ++ "/".toList ++ b
    pathDir := fun s => ((s.reverse.dropWhile (fun c => c ≠ '/')).drop 1).reverse }

/-- A process started in `/home/u` with one variable and two arguments. -/
def scenarioProcess : Process :=
  { cwd := "/home/u".toList
    env := fun k => if k = "HOME".toList then some "/home/u".toList else none
    args := ["app".toList, "--flag".toList]
    fs := [] }

end decoder

namespace gotar

/-! ## Machine integers -/

theorem wrap64_wrap64_add (a b : Int) : wrap64 (wrap64 a + b) = wrap64 (a + b) := by
  unfold wrap64
  omega

theorem wrap64_of_range (x : Int) (h1 : -2 ^ 63 ≤ x) (h2 : x < 2 ^ 63) : wrap64 x = x := by
  unfold wrap64
  omega

theorem wrap64_range (x : Int) : -2 ^ 63 ≤ wrap64 x ∧ wrap64 x < 2 ^ 63 := by
  unfold wrap64
  omega

theorem NewSectionReader_eq (off n : Int) (hn : 0 ≤ n) (h1 : -2 ^ 63 ≤ off)
    (h2 : off + n < 2 ^ 63) : NewSectionReader off n = ⟨off, off + n⟩ := by
  unfold NewSectionReader
  rw [wrap64_of_range (2 ^ 63 - 1 - n) (by omega) (by omega), if_pos (by omega),
    wrap64_of_range (n + off) (by omega) (by omega), add_comm]

theorem uint64_lt (bs : List Byte) (h : bs.length = 8) : uint64 bs < 2 ^ 64 := by
  match bs, h with
  | [a, b, c, d, e, f, g, k], _ =>
    simp only [uint64, List.foldl]
    omega

theorem putUint64_uint64 (bs : List Byte) (h : bs.length = 8) : putUint64 (uint64 bs) = bs := by
  match bs, h with
  | [a, b, c, d, e, f, g, k], _ =>
    simp only [uint64, List.foldl, putUint64, List.map]
    simp only [List.cons.injEq, and_true]
    refine ⟨?_, ?_, ?_, ?_, ?_, ?_, ?_, ?_⟩ <;> apply Fin.ext <;> simp only [] <;> omega

theorem uint64_putUint64 (u : Nat) (h : u < 2 ^ 64) : uint64 (putUint64 u) = u := by
  simp only [uint64, List.foldl, putUint64, List.map]
  omega

theorem putUint64_length (u : Nat) : (putUint64 u).length = 8 := by
  simp [putUint64]

theorem putInt64_length (x : Int) : (putInt64 x).length = 8 := by
  simp [putInt64, putUint64_length]

theorem getInt64_putInt64 (x : Int) (h1 : -2 ^ 63 ≤ x) (h2 : x < 2 ^ 63) :
    getInt64 (putInt64 x) = x := by
  unfold getInt64 putInt64
  rw [uint64_putUint64 _ (by omega)]
  unfold wrap64
  omega

theorem getInt64_injective (a b : List Byte) (ha : a.length = 8) (hb : b.length = 8)
    (h : getInt64 a = getInt64 b) : a = b := by
  have h1 := uint64_lt a ha
  have h2 := uint64_lt b hb
  have h3 : uint64 a = uint64 b := by
    unfold getInt64 wrap64 at h
    omega
  rw [← putUint64_uint64 a ha, ← putUint64_uint64 b hb, h3]

theorem encodeFooter_length (ft : footer) : (encodeFooter ft).length = 32 := by
  simp [encodeFooter, putInt64_length]

theorem decodeFooter_encodeFooter (ft : footer) (h : ft.inRange) :
    decodeFooter (encodeFooter ft) = ft := by
  obtain ⟨⟨a1, a2⟩, ⟨b1, b2⟩, ⟨c1, c2⟩, ⟨d1, d2⟩⟩ := h
  have e1 := putInt64_length ft.LenDecoder
  have e2 := putInt64_length ft.LenTar
  have e3 := putInt64_length ft.LenJson
  have e4 := putInt64_length ft.Signature
  unfold decodeFooter encodeFooter
  have t1 : (putInt64 ft.LenDecoder ++ putInt64 ft.LenTar ++ putInt64 ft.LenJson ++
      putInt64 ft.Signature).take 8 = putInt64 ft.LenDecoder := by
    rw [List.append_assoc, List.append_assoc, List.take_left' e1]
  have t2 : ((putInt64 ft.LenDecoder ++ putInt64 ft.LenTar ++ putInt64 ft.LenJson ++
      putInt64 ft.Signature).drop 8).take 8 = putInt64 ft.LenTar := by
    rw [List.append_assoc, List.append_assoc, List.drop_left' e1, List.take_left' e2]
  have t3 : ((putInt64 ft.LenDecoder ++ putInt64 ft.LenTar ++ putInt64 ft.LenJson ++
      putInt64 ft.Signature).drop 16).take 8 = putInt64 ft.LenJson := by
    rw [List.append_assoc, List.drop_left' (by simp [e1, e2]), List.take_left' e3]
  have t4 : ((putInt64 ft.LenDecoder ++ putInt64 ft.LenTar ++ putInt64 ft.LenJson ++
      putInt64 ft.Signature).drop 24).take 8 = putInt64 ft.Signature := by
    rw [List.drop_left' (by simp [e1, e2, e3])]
    exact List.take_of_length_le (by omega)
  rw [t1, t2, t3, t4, getInt64_putInt64 _ a1 a2, getInt64_putInt64 _ b1 b2,
    getInt64_putInt64 _ c1 c2, getInt64_putInt64 _ d1 d2]

/-! ## The footer check -/

theorem Seek_end (f : ReadSeeker) (h : 32 ≤ f.data.length) :
    f.Seek (-(footerSize : Int)) .SEEK_END =
      (some ((f.data.length : Int) - 32), ⟨f.data, f.data.length - 32⟩) := by
  unfold ReadSeeker.Seek
  have h3 : ((f.data.length : Int) + -(footerSize : Int)) = (f.data.length : Int) - 32 := by
    simp only [footerSize]; omega
  have h1 : ¬ ((f.data.length : Int) - 32) < 0 := by omega
  have h2 : ((f.data.length : Int) - 32).toNat = f.data.length - 32 := by omega
  simp only [h3, h1, if_false, h2]

theorem Seek_end_short (f : ReadSeeker) (h : f.data.length < 32) :
    f.Seek (-(footerSize : Int)) .SEEK_END = (none, f) := by
  unfold ReadSeeker.Seek
  have h1 : ((f.data.length : Int) + -(footerSize : Int)) < 0 := by
    simp only [footerSize]; omega
  simp only [h1, if_true]

theorem Read_footer_bytes (data : List Byte) (h : 32 ≤ data.length) :
    ReadSeeker.Read ⟨data, data.length - 32⟩ footerSize =
      (data.drop (data.length - 32), ⟨data, data.length⟩) := by
  have h3 : (data.drop (data.length - 32)).take 32 = data.drop (data.length - 32) :=
    List.take_of_length_le (by simp only [List.length_drop]; omega)
  have h4 : (data.drop (data.length - 32)).length = 32 := by
    simp only [List.length_drop]; omega
  have h5 : data.length - 32 + 32 = data.length := by omega
  simp only [ReadSeeker.Read, footerSize, h3, h4, h5]

theorem readFooter_eq (f : ReadSeeker) :
    readFooter f =
      if f.data.length < 32 then .error .ErrInvalidFormat
      else if (footerOf f.data).Signature ≠ SIGNATURE then .error .ErrInvalidFormat
      else if (f.data.length : Int) - 32 ≠
          wrap64 ((footerOf f.data).LenDecoder + (footerOf f.data).LenTar +
            (footerOf f.data).LenJson) then .error .ErrInvalidFormat
      else .ok ⟨⟨f.data, f.data.length⟩, footerOf f.data⟩ := by
  unfold readFooter
  by_cases h : f.data.length < 32
  · rw [Seek_end_short f h]
    simp only [h, if_true]
  · rw [Seek_end f (by omega)]
    simp only [Read_footer_bytes f.data (by omega)]
    have h4 : (f.data.drop (f.data.length - 32)).length = 32 := by
      simp only [List.length_drop]; omega
    simp only [h4, footerSize, lt_irrefl, if_false, h, footerOf, wrap64_wrap64_add]


theorem Read_eq (T : TarReader) (f : ReadSeeker) :
    Read T f =
      if f.data.length < 32 then .error .ErrInvalidFormat
      else if (footerOf f.data).Signature ≠ SIGNATURE then .error .ErrInvalidFormat
      else if (f.data.length : Int) - 32 ≠
          wrap64 ((footerOf f.data).LenDecoder + (footerOf f.data).LenTar +
            (footerOf f.data).LenJson) then .error .ErrInvalidFormat
      else .ok { file := ⟨f.data, f.data.length⟩, footer := footerOf f.data
                 stream := NewSectionReader (footerOf f.data).LenDecoder (footerOf f.data).LenTar
                 tar := T.init } := by
  unfold Read
  rw [readFooter_eq]
  split_ifs <;> rfl

theorem footerOf_Signature (data : List Byte) :
    (footerOf data).Signature = getInt64 (((data.drop (data.length - 32)).drop 24).take 8) := rfl

theorem sig_bytes_set (data : List Byte) (h : 32 ≤ data.length) (i : Nat) (b : Byte) (hi : i < 8)
    (hb : data[data.length - 8 + i]? ≠ some b) :
    (((data.set (data.length - 8 + i) b).drop ((data.set (data.length - 8 + i) b).length - 32)).drop 24).take 8
      ≠ ((data.drop (data.length - 32)).drop 24).take 8 := by
  intro heq
  have h1 := congrArg (fun l => l[i]?) heq
  simp only [List.length_set, List.drop_drop, List.getElem?_take, hi, if_true,
    List.getElem?_drop] at h1
  have e : data.length - 32 + 24 + i = data.length - 8 + i := by omega
  rw [e] at h1
  have hlt : data.length - 8 + i < data.length := by omega
  rw [List.getElem?_set_self hlt] at h1
  exact hb h1.symm

theorem exists_ok_of_isArchive {T : TarReader} (r : Except Error (Archive T))
    (h : isArchive r = true) : ∃ a, r = .ok a := by
  cases r with
  | ok a => exact ⟨a, rfl⟩
  | error e => simp [isArchive] at h

theorem Read_ok_iff (T : TarReader) (f : ReadSeeker) :
    (∃ a, Read T f = .ok a) ↔
      (32 ≤ f.data.length ∧ (footerOf f.data).Signature = SIGNATURE ∧
        wrap64 ((footerOf f.data).LenDecoder + (footerOf f.data).LenTar +
          (footerOf f.data).LenJson) = (f.data.length : Int) - 32) := by
  rw [Read_eq]
  constructor
  · rintro ⟨a, h⟩
    split_ifs at h with h1 h2 h3
    exact ⟨by omega, not_not.mp h2, (not_not.mp h3).symm⟩
  · rintro ⟨h1, h2, h3⟩
    rw [if_neg (by omega), if_neg (not_not.mpr h2), if_neg (not_not.mpr h3.symm)]
    exact ⟨_, rfl⟩

theorem Read_error (T : TarReader) (f : ReadSeeker) :
    (∃ a, Read T f = .ok a) ∨ Read T f = .error .ErrInvalidFormat := by
  rw [Read_eq]
  split_ifs
  · exact Or.inr rfl
  · exact Or.inr rfl
  · exact Or.inr rfl
  · exact Or.inl ⟨_, rfl⟩

theorem Read_ok_fields (T : TarReader) (f : ReadSeeker) (a : Archive T) (h : Read T f = .ok a) :
    a.file = ⟨f.data, f.data.length⟩ ∧ a.footer = footerOf f.data ∧
    a.stream = NewSectionReader (footerOf f.data).LenDecoder (footerOf f.data).LenTar ∧
    a.tar = T.init := by
  rw [Read_eq] at h
  split_ifs at h
  cases h
  exact ⟨rfl, rfl, rfl, rfl⟩

/-! ## One call of the writer -/

theorem emit_file {C : Codec} {J : Json} (w : Writer C J) (st : C.σ) (b : List Byte) :
    (w.emit st b).file = w.file ++ b := rfl

theorem emit_tar {C : Codec} {J : Json} (w : Writer C J) (st : C.σ) (b : List Byte) :
    (w.emit st b).tar = st := rfl

theorem emit_metaData {C : Codec} {J : Json} (w : Writer C J) (st : C.σ) (b : List Byte) :
    (w.emit st b).metaData = w.metaData := rfl

theorem emit_LenDecoder {C : Codec} {J : Json} (w : Writer C J) (st : C.σ) (b : List Byte) :
    (w.emit st b).footer.LenDecoder = w.footer.LenDecoder := rfl

theorem emit_LenTar {C : Codec} {J : Json} (w : Writer C J) (st : C.σ) (b : List Byte) :
    (w.emit st b).footer.LenTar = wrap64 (w.footer.LenTar + b.length) := rfl

theorem emit_LenJson {C : Codec} {J : Json} (w : Writer C J) (st : C.σ) (b : List Byte) :
    (w.emit st b).footer.LenJson = w.footer.LenJson := rfl

theorem emit_Signature {C : Codec} {J : Json} (w : Writer C J) (st : C.σ) (b : List Byte) :
    (w.emit st b).footer.Signature = w.footer.Signature := rfl

theorem emit_emit_LenTar {C : Codec} {J : Json} (w : Writer C J) (st1 st2 : C.σ)
    (b1 b2 : List Byte) :
    ((w.emit st1 b1).emit st2 b2).footer.LenTar =
      wrap64 (w.footer.LenTar + ((b1 ++ b2).length : Nat)) := by
  rw [emit_LenTar, emit_LenTar, wrap64_wrap64_add, List.length_append]
  push_cast
  rw [add_assoc]

theorem WriteDecoder_returned {C : Codec} {J : Json} (w w1 : Writer C J) (f : Reader)
    (e : Option Error) (h : w.WriteDecoder f = .returned e w1) :
    w.footer.LenDecoder = 0 ∧ e = f.err ∧ w1.file = w.file ++ f.bytes ∧
      w1.footer.LenDecoder = wrap64 f.bytes.length ∧ w1.footer.LenTar = w.footer.LenTar ∧
      w1.footer.LenJson = w.footer.LenJson ∧ w1.footer.Signature = w.footer.Signature ∧
      w1.metaData = w.metaData ∧ w1.tar = w.tar := by
  unfold Writer.WriteDecoder at h
  split_ifs at h with h0
  cases h
  exact ⟨not_not.mp h0, rfl, rfl, rfl, rfl, rfl, rfl, rfl, rfl⟩

theorem WriteDecoder_panicked {C : Codec} {J : Json} (w : Writer C J) (f : Reader)
    (h : w.footer.LenDecoder ≠ 0) : ∃ msg, w.WriteDecoder f = .panicked msg w := by
  unfold Writer.WriteDecoder
  rw [if_pos h]
  exact ⟨_, rfl⟩

theorem WriteFile_panicked {C : Codec} {J : Json} (w : Writer C J) (file : OsFile)
    (rel : GoString) (h : w.footer.LenDecoder = 0 ∨ w.footer.LenJson ≠ 0) :
    ∃ msg, w.WriteFile file rel = .panicked msg w := by
  unfold Writer.WriteFile
  rw [if_pos h]
  exact ⟨_, rfl⟩

theorem Close_panicked {C : Codec} {J : Json} (w : Writer C J)
    (h : w.footer.LenDecoder = 0 ∨ w.footer.LenTar = 0) :
    ∃ msg, w.Close = .panicked msg w := by
  unfold Writer.Close
  rw [if_pos h]
  exact ⟨_, rfl⟩

theorem WriteFile_returned {C : Codec} {J : Json} (w w1 : Writer C J) (file : OsFile)
    (rel : GoString) (e : Option Error) (h : w.WriteFile file rel = .returned e w1) :
    w.footer.LenDecoder ≠ 0 ∧ w.footer.LenJson = 0 ∧ w.file.length ≤ w1.file.length ∧
      w1.footer.LenDecoder = w.footer.LenDecoder ∧ w1.footer.LenJson = w.footer.LenJson ∧
      w1.metaData = w.metaData := by
  unfold Writer.WriteFile at h
  split_ifs at h with h0
  rw [not_or, not_not] at h0
  refine ⟨h0.1, h0.2, ?_⟩
  cases hs : file.stat with
  | error e0 =>
    simp only [hs] at h
    cases h
    exact ⟨le_refl _, rfl, rfl, rfl⟩
  | ok info =>
    simp only [hs] at h
    by_cases h1 : (C.WriteHeader w.tar (headerOf info (entryName file.Name rel))).ok = false
    · rw [if_pos h1] at h
      cases h
      exact ⟨by rw [emit_file, List.length_append]; omega, rfl, rfl, rfl⟩
    · rw [if_neg h1] at h
      cases hc : file.content with
      | error e0 =>
        simp only [hc] at h
        cases h
        exact ⟨by rw [emit_file, List.length_append]; omega, rfl, rfl, rfl⟩
      | ok f =>
        simp only [hc, emit_tar] at h
        have key : w1 = (w.emit (C.WriteHeader w.tar (headerOf info (entryName file.Name rel))).st
            (C.WriteHeader w.tar (headerOf info (entryName file.Name rel))).out).emit
            (C.Write (C.WriteHeader w.tar (headerOf info (entryName file.Name rel))).st f.bytes).st
            (C.Write (C.WriteHeader w.tar (headerOf info (entryName file.Name rel))).st f.bytes).out := by
          by_cases h2 : (C.Write (C.WriteHeader w.tar (headerOf info (entryName file.Name rel))).st
              f.bytes).ok = false
          · rw [if_pos h2] at h
            cases h; rfl
          · rw [if_neg h2] at h
            cases hfe : f.err with
            | some e1 => simp only [hfe] at h; cases h; rfl
            | none =>
              simp only [hfe] at h
              split_ifs at h <;> cases h <;> rfl
        subst key
        exact ⟨by rw [emit_file, emit_file, List.length_append, List.length_append]; omega,
          rfl, rfl, rfl⟩

theorem WriteFile_ok {C : Codec} {J : Json} (w w1 : Writer C J) (file : OsFile)
    (rel : GoString) (h : w.WriteFile file rel = .returned none w1) :
    ∃ info f,
      file.stat = .ok info ∧ file.content = .ok f ∧ f.err = none ∧
      (C.WriteHeader w.tar (headerOf info (entryName file.Name rel))).ok = true ∧
      (C.Write (C.WriteHeader w.tar (headerOf info (entryName file.Name rel))).st f.bytes).ok = true ∧
      ((C.Write (C.WriteHeader w.tar (headerOf info (entryName file.Name rel))).st f.bytes).n : Int)
        = info.Size ∧
      w1.file = w.file ++ ((C.WriteHeader w.tar (headerOf info (entryName file.Name rel))).out ++
        (C.Write (C.WriteHeader w.tar (headerOf info (entryName file.Name rel))).st f.bytes).out) ∧
      w1.tar = (C.Write (C.WriteHeader w.tar (headerOf info (entryName file.Name rel))).st f.bytes).st ∧
      w1.footer.LenTar = wrap64 (w.footer.LenTar +
        (((C.WriteHeader w.tar (headerOf info (entryName file.Name rel))).out ++
        (C.Write (C.WriteHeader w.tar (headerOf info (entryName file.Name rel))).st f.bytes).out).length
          : Nat)) ∧
      w1.footer.LenDecoder = w.footer.LenDecoder ∧ w1.footer.LenJson = w.footer.LenJson ∧
      w1.metaData = w.metaData := by
  unfold Writer.WriteFile at h
  split_ifs at h with h0
  cases hs : file.stat with
  | error e0 =>
    simp only [hs] at h
    cases h
  | ok info =>
    simp only [hs] at h
    by_cases h1 : (C.WriteHeader w.tar (headerOf info (entryName file.Name rel))).ok = false
    · rw [if_pos h1] at h
      cases h
    rw [if_neg h1] at h
    cases hc : file.content with
    | error e0 =>
      simp only [hc] at h
      cases h
    | ok f =>
      simp only [hc, emit_tar] at h
      by_cases h2 : (C.Write (C.WriteHeader w.tar (headerOf info (entryName file.Name rel))).st
          f.bytes).ok = false
      · rw [if_pos h2] at h
        cases h
      rw [if_neg h2] at h
      cases hfe : f.err with
      | some e1 => simp only [hfe] at h; cases h
      | none =>
        simp only [hfe] at h
        by_cases h3 : ((C.Write (C.WriteHeader w.tar (headerOf info (entryName file.Name rel))).st
          f.bytes).n : Int) ≠ (headerOf info (entryName file.Name rel)).Size
        · rw [if_pos h3] at h
          cases h
        rw [if_neg h3] at h
        simp only [Outcome.returned.injEq, true_and] at h
        subst h
        refine ⟨info, f, rfl, rfl, hfe, by simpa using h1, by simpa using h2, not_not.mp h3,
          by rw [emit_file, emit_file, List.append_assoc], rfl, emit_emit_LenTar _ _ _ _ _,
          rfl, rfl, rfl⟩

theorem Encode_length (J : Json) (v : J.Val) (jb : List Byte) (h : J.Encode v = some jb) :
    0 < jb.length := by
  unfold Json.Encode at h
  cases hm : J.Marshal v with
  | none => simp [hm] at h
  | some b =>
    simp only [hm, Option.map_some', Option.some.injEq] at h
    rw [← h, List.length_append]
    simp

theorem writeFooter_file {C : Codec} {J : Json} (w : Writer C J) (jb : List Byte) :
    (w.writeFooter jb).file = w.file ++ jb ++ encodeFooter (w.writeFooter jb).footer := rfl

theorem writeFooter_footer {C : Codec} {J : Json} (w : Writer C J) (jb : List Byte) :
    (w.writeFooter jb).footer =
      ⟨w.footer.LenDecoder, w.footer.LenTar, wrap64 (w.footer.LenJson + jb.length), SIGNATURE⟩ :=
  rfl

theorem writeFooter_metaData {C : Codec} {J : Json} (w : Writer C J) (jb : List Byte) :
    (w.writeFooter jb).metaData = w.metaData := rfl

theorem Close_returned {C : Codec} {J : Json} (w w1 : Writer C J) (e : Option Error)
    (h : w.Close = .returned e w1) :
    w.footer.LenDecoder ≠ 0 ∧ w.footer.LenTar ≠ 0 ∧
    w1.footer.LenDecoder = w.footer.LenDecoder ∧ w1.metaData = w.metaData ∧
    w1.footer.LenTar = wrap64 (w.footer.LenTar + ((C.finish w.tar).length : Nat)) ∧
    ((e ≠ none ∧ J.Encode w.metaData = none ∧ w1.file = w.file ++ C.finish w.tar ∧
        w1.footer.LenJson = w.footer.LenJson) ∨
     (e = none ∧ ∃ jb, J.Encode w.metaData = some jb ∧
        w1.file = w.file ++ C.finish w.tar ++ jb ++ encodeFooter w1.footer ∧
        w1.footer.LenJson = wrap64 (w.footer.LenJson + jb.length) ∧
        w1.footer.Signature = SIGNATURE)) := by
  unfold Writer.Close at h
  split_ifs at h with h0
  rw [not_or] at h0
  refine ⟨h0.1, h0.2, ?_⟩
  simp only [emit_tar, emit_metaData] at h
  cases hj : J.Encode w.metaData with
  | none =>
    simp only [hj, Outcome.returned.injEq] at h
    obtain ⟨he, rfl⟩ := h
    exact ⟨rfl, rfl, emit_emit_LenTar _ _ _ _ _,
      Or.inl ⟨by rw [← he]; simp, rfl,
        by rw [emit_file, emit_file, List.append_assoc]; rfl, rfl⟩⟩
  | some jb =>
    simp only [hj, Outcome.returned.injEq] at h
    obtain ⟨he, rfl⟩ := h
    refine ⟨rfl, rfl, ?_, Or.inr ⟨he.symm, jb, rfl, ?_, rfl, rfl⟩⟩
    · rw [writeFooter_footer]
      dsimp only
      rw [emit_emit_LenTar]
      rfl
    · rw [writeFooter_file, emit_file, emit_file, List.append_assoc w.file]
      rfl

/-! ## Histories -/

theorem run_cons {C : Codec} {J : Json} (c : Call J) (cs : List (Call J)) (w w2 : Writer C J)
    (es : List (Option Error)) (h : w.run (c :: cs) = some (es, w2)) :
    ∃ e w1 es1, w.call c = .returned e w1 ∧ w1.run cs = some (es1, w2) ∧ es = e :: es1 := by
  simp only [Writer.run] at h
  cases hc : w.call c with
  | panicked m s => simp [hc] at h
  | returned e w1 =>
    simp only [hc] at h
    cases hr : w1.run cs with
    | none => simp [hr] at h
    | some p =>
      obtain ⟨es', w'⟩ := p
      simp only [hr, Option.some.injEq, Prod.mk.injEq] at h
      obtain ⟨h1, h2⟩ := h
      subst h1 h2
      exact ⟨e, w1, es', rfl, hr, rfl⟩

theorem run_append {C : Codec} {J : Json} (cs1 cs2 : List (Call J)) (w w2 : Writer C J)
    (es : List (Option Error)) (h : w.run (cs1 ++ cs2) = some (es, w2)) :
    ∃ es1 w1 es2, w.run cs1 = some (es1, w1) ∧ w1.run cs2 = some (es2, w2) ∧ es = es1 ++ es2 := by
  induction cs1 generalizing w es with
  | nil => exact ⟨[], w, es, rfl, h, rfl⟩
  | cons c cs ih =>
    obtain ⟨e, w1, es1, hc, hr, rfl⟩ := run_cons c (cs ++ cs2) w w2 es h
    obtain ⟨es1', wm, es2, h1, h2, rfl⟩ := ih w1 es1 hr
    refine ⟨e :: es1', wm, es2, ?_, h2, rfl⟩
    simp only [Writer.run, hc, h1]

/-- What a call that returned did to the lengths. -/
theorem call_returned {C : Codec} {J : Json} (w w1 : Writer C J) (c : Call J) (e : Option Error)
    (h : w.call c = .returned e w1) :
    w.file.length ≤ w1.file.length ∧
    (w.footer.LenDecoder ≠ 0 → w1.footer.LenDecoder = w.footer.LenDecoder) ∧
    ((∀ f, c ≠ .WriteDecoder f) → w1.footer.LenDecoder = w.footer.LenDecoder) ∧
    ((∀ file rel, c ≠ .WriteFile file rel) → w.footer.LenTar = 0 → w1.footer.LenTar = 0) ∧
    (∀ j : Nat, j ≤ w.file.length → w.footer.LenJson = wrap64 j →
      ∃ j1 : Nat, j ≤ j1 ∧ j1 ≤ w1.file.length ∧ w1.footer.LenJson = wrap64 j1 ∧
        (c = .Close → e = none → 0 < j1)) := by
  cases c with
  | WriteDecoder f =>
    obtain ⟨h0, -, hf, -, hT, hJ, -⟩ := WriteDecoder_returned w w1 f e h
    refine ⟨by rw [hf, List.length_append]; omega, fun hne => absurd h0 hne,
      fun hc => absurd rfl (hc f), fun _ h => by rw [hT, h], ?_⟩
    intro j hj hw
    exact ⟨j, le_refl _, by rw [hf, List.length_append]; omega, by rw [hJ, hw],
      fun hc => by cases hc⟩
  | WriteFile file rel =>
    obtain ⟨-, -, hle, hD, hJ, -⟩ := WriteFile_returned w w1 file rel e h
    refine ⟨hle, fun _ => hD, fun _ => hD, fun hc => absurd rfl (hc file rel), ?_⟩
    intro j hj hw
    exact ⟨j, le_refl _, by omega, by rw [hJ, hw], fun hc => by cases hc⟩
  | WriteMetaData m =>
    simp only [Writer.call, Outcome.returned.injEq] at h
    obtain ⟨-, rfl⟩ := h
    exact ⟨le_refl _, fun _ => rfl, fun _ => rfl, fun _ h => h,
      fun j hj hw => ⟨j, le_refl _, hj, hw, fun hc => by cases hc⟩⟩
  | Close =>
    obtain ⟨h0, h1, hD, -, -, h2⟩ := Close_returned w w1 e h
    refine ⟨?_, fun _ => hD, fun _ => hD, fun _ h => absurd h h1, ?_⟩
    · rcases h2 with ⟨-, -, hf, -⟩ | ⟨-, jb, -, hf, -, -⟩
      · rw [hf, List.length_append]; omega
      · rw [hf]; simp only [List.length_append]; omega
    · intro j hj hw
      rcases h2 with ⟨hne, -, hf, hJ⟩ | ⟨-, jb, hjb, hf, hJ, -⟩
      · exact ⟨j, le_refl _, by rw [hf, List.length_append]; omega, by rw [hJ, hw],
          fun _ he => absurd he hne⟩
      · have hpos := Encode_length J _ jb hjb
        refine ⟨j + jb.length, by omega, by rw [hf]; simp only [List.length_append]; omega, ?_,
          fun _ _ => by omega⟩
        rw [hJ, hw, wrap64_wrap64_add]
        push_cast
        rfl

theorem run_returned {C : Codec} {J : Json} (cs : List (Call J)) (w w1 : Writer C J)
    (es : List (Option Error)) (h : w.run cs = some (es, w1)) :
    w.file.length ≤ w1.file.length ∧
    (w.footer.LenDecoder ≠ 0 → w1.footer.LenDecoder = w.footer.LenDecoder) ∧
    ((∀ f, Call.WriteDecoder f ∉ cs) → w1.footer.LenDecoder = w.footer.LenDecoder) ∧
    ((∀ file rel, Call.WriteFile file rel ∉ cs) → w.footer.LenTar = 0 → w1.footer.LenTar = 0) ∧
    (∀ j : Nat, j ≤ w.file.length → w.footer.LenJson = wrap64 j →
      ∃ j1 : Nat, j ≤ j1 ∧ j1 ≤ w1.file.length ∧ w1.footer.LenJson = wrap64 j1) := by
  induction cs generalizing w es with
  | nil =>
    simp only [Writer.run, Option.some.injEq, Prod.mk.injEq] at h
    obtain ⟨-, rfl⟩ := h
    exact ⟨le_refl _, fun _ => rfl, fun _ => rfl, fun _ h => h, fun j hj hw => ⟨j, le_refl _, hj, hw⟩⟩
  | cons c cs ih =>
    obtain ⟨e, wm, es1, hc, hr, rfl⟩ := run_cons c cs w w1 es h
    obtain ⟨a1, a2, a3, a4, a5⟩ := call_returned w wm c e hc
    obtain ⟨b1, b2, b3, b4, b5⟩ := ih wm es1 hr
    refine ⟨le_trans a1 b1, ?_, ?_, ?_, ?_⟩
    · intro hne
      rw [b2 (by rw [a2 hne]; exact hne), a2 hne]
    · intro hno
      rw [b3 (fun f hf => hno f (List.mem_cons_of_mem _ hf)),
        a3 (fun f hf => hno f (by rw [hf]; exact List.mem_cons_self _ _))]
    · intro hno h0
      exact b4 (fun file rel hf => hno file rel (List.mem_cons_of_mem _ hf))
        (a4 (fun file rel hf => hno file rel (by rw [hf]; exact List.mem_cons_self _ _)) h0)
    · intro j hj hw
      obtain ⟨j1, l1, l2, l3, -⟩ := a5 j hj hw
      obtain ⟨j2, m1, m2, m3⟩ := b5 j1 l2 l3
      exact ⟨j2, le_trans l1 m1, m2, m3⟩

/-! ## The layout of the output -/

theorem decoderBytes_append {J : Json} (l : List (Call J)) (c : Call J) :
    decoderBytes (l ++ [c]) = decoderBytes l ++ c.decoder := by
  simp [decoderBytes]

theorem entriesOf_append {J : Json} (l : List (Call J)) (c : Call J) :
    entriesOf (l ++ [c]) = entriesOf l ++ c.entry.toList := by
  unfold entriesOf
  rw [List.filterMap_append]
  cases h : c.entry <;> simp [List.filterMap, h]

theorem session_append (C : Codec) (es : List (Header × List Byte)) (e : Header × List Byte) :
    C.session (es ++ [e]) = C.addEntry (C.session es) e := by
  simp [Codec.session, List.foldl_append]

theorem wrap64_zero : wrap64 0 = 0 := wrap64_of_range 0 (by norm_num) (by norm_num)

theorem wrap64_nat (n : Nat) (h : n < 2 ^ 63) : wrap64 n = n :=
  wrap64_of_range n (by omega) (by omega)

theorem run_singleton {C : Codec} {J : Json} (c : Call J) (w w2 : Writer C J)
    (es : List (Option Error)) (h : w.run [c] = some (es, w2)) :
    ∃ e, w.call c = .returned e w2 ∧ es = [e] := by
  obtain ⟨e, w1, es1, hc, hr, rfl⟩ := run_cons c [] w w2 es h
  simp only [Writer.run, Option.some.injEq, Prod.mk.injEq] at hr
  obtain ⟨rfl, rfl⟩ := hr
  exact ⟨e, hc, rfl⟩

/-- The output after calls that all returned nil, none of them `Close`, on an empty output:
the decoder bytes, then the bytes the compressor emitted; the footer counts both. -/
theorem layout {C : Codec} {J : Json} (cs : List (Call J)) (es : List (Option Error))
    (w : Writer C J) (h : (NewWriter C J []).run cs = some (es, w))
    (hnil : ∀ e ∈ es, e = none) (hcl : Call.Close ∉ cs) (hsz : w.file.length < 2 ^ 63) :
    w.file = decoderBytes cs ++ (C.session (entriesOf cs)).2 ∧
    w.tar = (C.session (entriesOf cs)).1 ∧
    w.footer.LenDecoder = ((decoderBytes cs).length : Nat) ∧
    w.footer.LenTar = ((C.session (entriesOf cs)).2.length : Nat) ∧
    w.footer.LenJson = 0 ∧
    (decoderBytes cs = [] → entriesOf cs = []) := by
  induction cs using List.reverseRecOn generalizing es w with
  | nil =>
    simp only [Writer.run, Option.some.injEq, Prod.mk.injEq] at h
    obtain ⟨-, rfl⟩ := h
    exact ⟨rfl, rfl, rfl, rfl, rfl, fun _ => rfl⟩
  | append_singleton l c ih =>
    obtain ⟨es1, w1, es2, h1, h2, rfl⟩ := run_append l [c] _ w es h
    obtain ⟨e, hc, rfl⟩ := run_singleton c w1 w es2 h2
    have he : e = none := hnil e (by simp)
    subst he
    have hmono := (call_returned w1 w c none hc).1
    obtain ⟨i1, i2, i3, i4, i5, i6⟩ := ih es1 w1 h1 (fun e he => hnil e (by simp [he]))
      (fun hm => hcl (by simp [hm])) (by omega)
    rw [decoderBytes_append, entriesOf_append]
    cases c with
    | WriteDecoder f =>
      obtain ⟨h0, -, hf, hD, hT, hJ, -, -, ht⟩ := WriteDecoder_returned w1 w f none hc
      have hd0 : decoderBytes l = [] := by
        rw [i3] at h0
        exact List.length_eq_zero.mp (by exact_mod_cast h0)
      have he0 := i6 hd0
      have hlen : f.bytes.length < 2 ^ 63 := by
        rw [hf, List.length_append] at hsz; omega
      simp only [Call.decoder, Call.entry, Option.toList, List.append_nil]
      rw [he0] at i1 i2 i4 ⊢
      rw [hd0] at i1 ⊢
      refine ⟨?_, by rw [ht, i2], ?_, by rw [hT, i4], by rw [hJ, i5], fun _ => rfl⟩
      · rw [hf, i1]; simp [Codec.session]
      · rw [hD, wrap64_nat _ hlen]; simp
    | WriteFile file rel =>
      obtain ⟨hne, -, -⟩ := WriteFile_returned w1 w file rel none hc
      obtain ⟨info, f, hs, hct, -, -, -, -, hf, ht, hT, hD, hJ, -⟩ := WriteFile_ok w1 w file rel hc
      have hent : (Call.WriteFile file rel : Call J).entry =
          some (headerOf info (entryName file.Name rel), f.bytes) := by
        simp only [Call.entry, fileEntry, hs, hct]
      simp only [Call.decoder, List.append_nil, hent, Option.toList, session_append]
      rw [i2] at hf ht hT
      refine ⟨?_, ?_, by rw [hD, i3], ?_, by rw [hJ, i5], ?_⟩
      · rw [hf, i1, List.append_assoc]; rfl
      · rw [ht]; rfl
      · rw [hT, i4]
        have hl : (C.addEntry (C.session (entriesOf l))
            (headerOf info (entryName file.Name rel), f.bytes)).2.length < 2 ^ 63 := by
          have : w.file.length = (decoderBytes l).length + (C.addEntry (C.session (entriesOf l))
            (headerOf info (entryName file.Name rel), f.bytes)).2.length := by
            rw [hf, i1]; simp [Codec.addEntry]
          omega
        rw [← wrap64_nat _ hl]
        congr 1
        simp [Codec.addEntry]
      · intro hd
        exfalso
        apply hne
        rw [i3, hd]; rfl
    | WriteMetaData m =>
      simp only [Writer.call, Outcome.returned.injEq, true_and] at hc
      subst hc
      simp only [Call.decoder, Call.entry, Option.toList, List.append_nil]
      exact ⟨i1, i2, i3, i4, i5, i6⟩
    | Close => exact absurd (by simp) hcl

/-! ## Evaluation helpers -/

theorem eq_some_getD {α : Type} (o : Option α) (d : α) (h : o.isSome = true) :
    o = some (o.getD d) := by
  cases o with
  | none => simp at h
  | some a => rfl

theorem eq_returned_of_observe {C : Codec} {J : Json} (o : Outcome (Writer C J))
    (h1 : o.observe.panicked = false) (h2 : o.observe.err = none) :
    o = .returned none o.state := by
  cases o with
  | returned e s =>
    simp only [Outcome.observe] at h2
    subst h2
    rfl
  | panicked m s => simp [Outcome.observe] at h1

theorem chain_eq_some {C : Codec} {J : Json} (w0 w : Writer C J) (cs : List (Call J))
    (h : w0.chain cs = some w) :
    ∃ es, w0.run cs = some (es, w) ∧ ∀ e ∈ es, e = none := by
  unfold Writer.chain at h
  cases hr : w0.run cs with
  | none => simp [hr] at h
  | some p =>
    obtain ⟨es, w1⟩ := p
    simp only [hr] at h
    split_ifs at h with ha
    simp only [Option.some.injEq] at h
    subst h
    refine ⟨es, rfl, ?_⟩
    intro e he
    have := List.all_eq_true.mp ha e he
    cases e with
    | none => rfl
    | some x => simp at this

/-! ## Validation by `Read` -/

/-- C4 (amended): `Read` succeeds exactly when the stream has at least 32 bytes, its last 8 bytes
decode to the signature, and the three length fields of the footer, added in wrapping 64-bit
arithmetic, give the stream size minus 32; in every other case it returns `ErrInvalidFormat`;
and changing any byte of the signature field of an accepted stream makes it return
`ErrInvalidFormat`. -/
theorem Read_validation (T : TarReader) (f : ReadSeeker) :
    ((∃ a, Read T f = .ok a) ↔
      (32 ≤ f.data.length ∧ (footerOf f.data).Signature = SIGNATURE ∧
        wrap64 ((footerOf f.data).LenDecoder + (footerOf f.data).LenTar +
          (footerOf f.data).LenJson) = (f.data.length : Int) - 32)) ∧
    ((∃ a, Read T f = .ok a) ∨ Read T f = .error .ErrInvalidFormat) ∧
    (∀ (i : Nat) (b : Byte) (pos : Nat), (∃ a, Read T f = .ok a) → i < 8 →
      f.data[f.data.length - 8 + i]? ≠ some b →
      Read T ⟨f.data.set (f.data.length - 8 + i) b, pos⟩ = .error .ErrInvalidFormat) := by
  refine ⟨Read_ok_iff T f, Read_error T f, ?_⟩
  intro i b pos hok hi hb
  obtain ⟨h32, hsig, -⟩ := (Read_ok_iff T f).mp hok
  have hne := sig_bytes_set f.data h32 i b hi hb
  have hlen1 : ((((f.data.set (f.data.length - 8 + i) b).drop
      ((f.data.set (f.data.length - 8 + i) b).length - 32)).drop 24).take 8).length = 8 := by
    simp only [List.length_take, List.length_drop, List.length_set]; omega
  have hlen2 : (((f.data.drop (f.data.length - 32)).drop 24).take 8).length = 8 := by
    simp only [List.length_take, List.length_drop]; omega
  have hsig2 : (footerOf (f.data.set (f.data.length - 8 + i) b)).Signature ≠ SIGNATURE := by
    intro h
    rw [← hsig, footerOf_Signature, footerOf_Signature] at h
    exact hne (getInt64_injective _ _ hlen1 hlen2 h)
  rcases Read_error T ⟨f.data.set (f.data.length - 8 + i) b, pos⟩ with h | h
  · exact absurd ((Read_ok_iff T _).mp h).2.1 hsig2
  · exact h

/-- Witness of `Read_validation`: the stream made of the footer with three zero lengths is
accepted, and with the first byte of its signature field set to 1 it is rejected. -/
theorem Read_validation_witness :
    Read refTar ⟨zeroLengthStream.set (zeroLengthStream.length - 8 + 0) 1, 0⟩ =
      .error .ErrInvalidFormat :=
  (Read_validation refTar ⟨zeroLengthStream, 0⟩).2.2 0 1 0
    (exists_ok_of_isArchive _ (by decide!)) (by decide) (by decide!)

/-- C4 (as stated, refuted): `Read` accepts the 32-byte stream whose footer has
`LenDecoder = LenTar = -2^63` and `LenJson = 0`, although as exact integers
`LenDecoder + LenTar + LenJson + 32` is not the stream size 32. -/
theorem Read_accepts_wrapped_sum :
    (∃ a, Read refTar ⟨overflowStream, 0⟩ = .ok a) ∧
    ¬ (32 ≤ overflowStream.length ∧ (footerOf overflowStream).Signature = SIGNATURE ∧
        (footerOf overflowStream).LenDecoder + (footerOf overflowStream).LenTar +
          (footerOf overflowStream).LenJson + 32 = (overflowStream.length : Int)) := by
  refine ⟨exists_ok_of_isArchive _ (by decide!), ?_⟩
  decide!

/-- C6 (the code at the failing input): `Read` returns an archive for the 32-byte stream whose
footer has `LenDecoder = LenTar = LenJson = 0`. -/
theorem Read_accepts_zero_lengths :
    ∃ a, Read refTar ⟨zeroLengthStream, 0⟩ = .ok a ∧
      a.footer.LenDecoder = 0 ∧ a.footer.LenTar = 0 ∧ a.footer.LenJson = 0 := by
  obtain ⟨a, h⟩ := exists_ok_of_isArchive (Read refTar ⟨zeroLengthStream, 0⟩) (by decide!)
  have hf : a.footer = ⟨0, 0, 0, SIGNATURE⟩ := by
    rw [(Read_ok_fields _ _ a h).2.1]
    decide!
  exact ⟨a, h, by rw [hf], by rw [hf], by rw [hf]⟩

theorem drop_append_encodeFooter (pre : List Byte) (ft : footer) :
    (pre ++ encodeFooter ft).drop ((pre ++ encodeFooter ft).length - 32) = encodeFooter ft := by
  rw [List.length_append, encodeFooter_length, Nat.add_sub_cancel]
  exact List.drop_left' rfl

/-- The layout of the output after `Close` returned nil. -/
theorem close_layout (C : Codec) (J : Json) (cs : List (Call J)) (w w2 : Writer C J)
    (h : (NewWriter C J []).chain cs = some w) (hcl : Call.Close ∉ cs)
    (hclose : w.Close = .returned none w2) (hsz : w2.file.length < 2 ^ 63) :
    ∃ jb, J.Encode w.metaData = some jb ∧
      w2.file = decoderBytes cs ++ C.stream (entriesOf cs) ++ jb ++ encodeFooter w2.footer ∧
      encodeFooter w2.footer = putInt64 w2.footer.LenDecoder ++ putInt64 w2.footer.LenTar ++
        putInt64 w2.footer.LenJson ++ putInt64 w2.footer.Signature ∧
      (encodeFooter w2.footer).length = 32 ∧
      decodeFooter (w2.file.drop (w2.file.length - 32)) = w2.footer ∧
      w2.footer.LenDecoder = ((decoderBytes cs).length : Nat) ∧
      w2.footer.LenTar = ((C.stream (entriesOf cs)).length : Nat) ∧
      w2.footer.LenJson = (jb.length : Nat) ∧
      w2.footer.Signature = 0xDEF1A7ED ∧
      w2.footer.LenDecoder + w2.footer.LenTar + w2.footer.LenJson + 32 = (w2.file.length : Nat) := by
  obtain ⟨es, hrun, hnil⟩ := chain_eq_some _ _ _ h
  have hmono := (call_returned w w2 .Close none hclose).1
  obtain ⟨i1, i2, i3, i4, i5, -⟩ := layout cs es w hrun hnil hcl (by omega)
  obtain ⟨-, -, hD, -, hT, h2⟩ := Close_returned w w2 none hclose
  rcases h2 with ⟨hne, -⟩ | ⟨-, jb, hjb, hf, hJ, hS⟩
  · exact absurd rfl hne
  have hfile : w2.file = decoderBytes cs ++ C.stream (entriesOf cs) ++ jb ++ encodeFooter w2.footer := by
    rw [hf, i1, i2]
    simp only [Codec.stream, List.append_assoc]
  have hlen : w2.file.length = (decoderBytes cs).length + (C.stream (entriesOf cs)).length +
      jb.length + 32 := by
    rw [hfile]
    simp only [List.length_append, encodeFooter_length]
  have eD : w2.footer.LenDecoder = ((decoderBytes cs).length : Nat) := by rw [hD, i3]
  have eT : w2.footer.LenTar = ((C.stream (entriesOf cs)).length : Nat) := by
    rw [hT, i4, i2, ← wrap64_nat (C.stream (entriesOf cs)).length (by omega)]
    congr 1
    simp only [Codec.stream, List.length_append]
    push_cast
    rfl
  have eJ : w2.footer.LenJson = (jb.length : Nat) := by
    rw [hJ, i5, zero_add, wrap64_nat _ (by omega)]
  have hS' : w2.footer.Signature = 0xDEF1A7ED := hS
  have hrange : w2.footer.inRange := by
    refine ⟨⟨?_, ?_⟩, ⟨?_, ?_⟩, ⟨?_, ?_⟩, ⟨?_, ?_⟩⟩ <;> (first | rw [eD] | rw [eT] | rw [eJ] | rw [hS']) <;> omega
  refine ⟨jb, hjb, hfile, rfl, encodeFooter_length _, ?_, eD, eT, eJ, hS', ?_⟩
  · rw [hfile, drop_append_encodeFooter, decodeFooter_encodeFooter _ hrange]
  · rw [eD, eT, eJ, hlen]
    push_cast
    rfl

/-- C3. After calls that all returned nil on an empty output and a `Close` that returned nil,
the output is the decoder bytes, the compressed file tree, the serialised metadata and the 32
bytes of the footer; the footer is the big-endian encoding of `LenDecoder`, `LenTar`, `LenJson`
and `Signature` in that order, the three lengths are the exact sizes of the three sections, the
signature is `0xDEF1A7ED`, and the lengths plus 32 give the size of the output. -/
theorem footer_invariant (C : Codec) (J : Json) (cs : List (Call J)) (w w2 : Writer C J)
    (h : (NewWriter C J []).chain cs = some w) (hcl : Call.Close ∉ cs)
    (hclose : w.Close = .returned none w2) (hsz : w2.file.length < 2 ^ 63) :
    ∃ jb, J.Encode w.metaData = some jb ∧
      w2.file = decoderBytes cs ++ C.stream (entriesOf cs) ++ jb ++ encodeFooter w2.footer ∧
      encodeFooter w2.footer = putInt64 w2.footer.LenDecoder ++ putInt64 w2.footer.LenTar ++
        putInt64 w2.footer.LenJson ++ putInt64 w2.footer.Signature ∧
      (encodeFooter w2.footer).length = 32 ∧
      decodeFooter (w2.file.drop (w2.file.length - 32)) = w2.footer ∧
      w2.footer.LenDecoder = ((decoderBytes cs).length : Nat) ∧
      w2.footer.LenTar = ((C.stream (entriesOf cs)).length : Nat) ∧
      w2.footer.LenJson = (jb.length : Nat) ∧
      w2.footer.Signature = 0xDEF1A7ED ∧
      w2.footer.LenDecoder + w2.footer.LenTar + w2.footer.LenJson + 32 = (w2.file.length : Nat) :=
  close_layout C J cs w w2 h hcl hclose hsz

theorem scenario_no_Close : Call.Close ∉ scenario := by
  simp [scenario, documented]

/-- Witness of `footer_invariant`: the end-to-end scenario over the reference codec with a window
of 8 bytes. -/
theorem footer_invariant_witness :
    ∃ jb, refJson.Encode eagerWriter.metaData = some jb ∧
      eagerClosed.file = decoderBytes scenario ++ (refCodec 8).stream (entriesOf scenario) ++ jb ++
        encodeFooter eagerClosed.footer ∧
      encodeFooter eagerClosed.footer = putInt64 eagerClosed.footer.LenDecoder ++
        putInt64 eagerClosed.footer.LenTar ++ putInt64 eagerClosed.footer.LenJson ++
        putInt64 eagerClosed.footer.Signature ∧
      (encodeFooter eagerClosed.footer).length = 32 ∧
      decodeFooter (eagerClosed.file.drop (eagerClosed.file.length - 32)) = eagerClosed.footer ∧
      eagerClosed.footer.LenDecoder = ((decoderBytes scenario).length : Nat) ∧
      eagerClosed.footer.LenTar = (((refCodec 8).stream (entriesOf scenario)).length : Nat) ∧
      eagerClosed.footer.LenJson = (jb.length : Nat) ∧
      eagerClosed.footer.Signature = 0xDEF1A7ED ∧
      eagerClosed.footer.LenDecoder + eagerClosed.footer.LenTar + eagerClosed.footer.LenJson + 32 =
        (eagerClosed.file.length : Nat) :=
  footer_invariant (refCodec 8) refJson scenario eagerWriter eagerClosed
    (eq_some_getD _ _ (by decide!)) scenario_no_Close
    (eq_returned_of_observe _ (by decide!) (by decide!)) (by decide!)

/-- C2 (the code at the failing input). After `WriteDecoder` and `WriteFile` calls that returned
nil, while the compressor still holds all of its output, `Close` panics: nothing was counted
into `LenTar`. -/
theorem Close_panics_while_output_is_held (C : Codec) (J : Json) (cs : List (Call J))
    (w : Writer C J) (h : (NewWriter C J []).chain cs = some w) (hcl : Call.Close ∉ cs)
    (hsz : w.file.length < 2 ^ 63) (hheld : (C.session (entriesOf cs)).2 = []) :
    ∃ msg, w.Close = .panicked msg w ∧
      msg = "gotar.Writer Close: closed incomplete archive".toList := by
  obtain ⟨es, hrun, hnil⟩ := chain_eq_some _ _ _ h
  obtain ⟨-, -, -, i4, -, -⟩ := layout cs es w hrun hnil hcl hsz
  rw [hheld] at i4
  have i4' : w.footer.LenTar = 0 := by rw [i4]; rfl
  unfold Writer.Close
  rw [if_pos (Or.inr i4')]
  exact ⟨_, rfl, rfl⟩

/-- Witness of `Close_panics_while_output_is_held`: the end-to-end scenario (decoder byte `0x42`,
one file of 5 bytes, metadata) over a compressor that has not emitted anything yet. -/
theorem Close_panics_in_scenario :
    ∃ msg, heldWriter.Close = .panicked msg heldWriter ∧
      msg = "gotar.Writer Close: closed incomplete archive".toList :=
  Close_panics_while_output_is_held (refCodec 65536) refJson scenario heldWriter
    (eq_some_getD _ _ (by decide!)) scenario_no_Close (by decide!) (by decide!)

/-- For a file named `b/r`, the entry name recorded relative to `b` is `r`. -/
theorem entryName_join (b r : GoString) : entryName (b ++ '/' :: r) b = r := by
  have h1 : TrimPrefix (b ++ '/' :: r) b = '/' :: r := by
    unfold TrimPrefix
    rw [if_pos (by simp), List.drop_left]
  unfold entryName
  rw [h1]
  unfold TrimPrefix
  simp

/-- C8 (the code at the failing input). For the file `.gotar` of the directory `.`, which the
packaging tool hands to `WriteFile` under the name `.gotar` with `relativeTo = "."`, the entry
name recorded is `gotar`, not `.gotar`. -/
theorem entryName_strips_dot :
    entryName ".gotar".toList ".".toList = "gotar".toList ∧
    fileEntry dotGotar ".".toList =
      some (⟨"gotar".toList, 0o644, 2⟩, strBytes "*\n".toList) := by
  decide

/-! ## Calls out of order -/

/-- C7 (amended). In the state reached by any history of calls on a new writer, the output
holding fewer than 2^63 bytes: `WriteDecoder` after an earlier `WriteDecoder` call that copied at
least one byte, `WriteFile` before any `WriteDecoder` call or after a `Close` that returned nil,
and `Close` before any `WriteDecoder` call or before any `WriteFile` call, each panic in that
very state: no byte is written and the footer is unchanged. -/
theorem out_of_order_calls_panic (C : Codec) (J : Json) (out : List Byte) (cs : List (Call J))
    (es : List (Option Error)) (w : Writer C J)
    (h : (NewWriter C J out).run cs = some (es, w)) (hsz : w.file.length < 2 ^ 63) :
    (∀ cs1 f0 cs2 f, cs = cs1 ++ Call.WriteDecoder f0 :: cs2 → f0.bytes ≠ [] →
      ∃ msg, w.WriteDecoder f = .panicked msg w) ∧
    (∀ file rel, (∀ f0, Call.WriteDecoder f0 ∉ cs) →
      ∃ msg, w.WriteFile file rel = .panicked msg w) ∧
    (∀ cs1 cs2 es1 w1 w2 file rel, cs = cs1 ++ Call.Close :: cs2 →
      (NewWriter C J out).run cs1 = some (es1, w1) → w1.Close = .returned none w2 →
      ∃ msg, w.WriteFile file rel = .panicked msg w) ∧
    ((∀ f0, Call.WriteDecoder f0 ∉ cs) → ∃ msg, w.Close = .panicked msg w) ∧
    ((∀ file rel, Call.WriteFile file rel ∉ cs) → ∃ msg, w.Close = .panicked msg w) := by
  have hD0 : (∀ f0, Call.WriteDecoder f0 ∉ cs) → w.footer.LenDecoder = 0 := fun hno =>
    (run_returned cs _ w es h).2.2.1 hno
  refine ⟨?_, ?_, ?_, ?_, ?_⟩
  · intro cs1 f0 cs2 f hcs hne
    subst hcs
    obtain ⟨es1, wa, es2, h1, h2, -⟩ := run_append cs1 _ _ w es h
    obtain ⟨e, wb, es3, hc, hr, -⟩ := run_cons _ cs2 wa w es2 h2
    obtain ⟨-, -, hf, hD, -⟩ := WriteDecoder_returned wa wb f0 e hc
    obtain ⟨m1, m2, -⟩ := run_returned cs2 wb w es3 hr
    have hlen : f0.bytes.length ≤ wb.file.length := by rw [hf, List.length_append]; omega
    have hpos : 0 < f0.bytes.length := List.length_pos.mpr hne
    have hb : wb.footer.LenDecoder ≠ 0 := by
      rw [hD, wrap64_nat _ (by omega)]
      exact_mod_cast (by omega : f0.bytes.length ≠ 0)
    exact WriteDecoder_panicked w f (by rw [m2 hb]; exact hb)
  · intro file rel hno
    exact WriteFile_panicked w file rel (Or.inl (hD0 hno))
  · intro cs1 cs2 es1 w1 w2 file rel hcs h1 hclose
    subst hcs
    obtain ⟨es1', wa, es2, h1', h2, -⟩ := run_append cs1 _ _ w es h
    rw [h1] at h1'
    simp only [Option.some.injEq, Prod.mk.injEq] at h1'
    obtain ⟨-, rfl⟩ := h1'
    obtain ⟨e, wb, es3, hc, hr, -⟩ := run_cons _ cs2 w1 w es2 h2
    have hcc : w1.Close = .returned e wb := hc
    rw [hclose] at hcc
    simp only [Outcome.returned.injEq] at hcc
    obtain ⟨rfl, rfl⟩ := hcc
    obtain ⟨j1, -, l1, l2⟩ := (run_returned cs1 _ w1 es1 h1).2.2.2.2 0 (Nat.zero_le _)
      (by rw [Nat.cast_zero, wrap64_zero]; rfl)
    obtain ⟨j2, -, n1, n2, n3⟩ := (call_returned w1 w2 .Close none hc).2.2.2.2 j1 l1 l2
    obtain ⟨j3, p1, p2, p3⟩ := (run_returned cs2 w2 w es3 hr).2.2.2.2 j2 n1 n2
    have hpos := n3 rfl rfl
    refine WriteFile_panicked w file rel (Or.inr ?_)
    rw [p3, wrap64_nat _ (by omega)]
    exact_mod_cast (by omega : j3 ≠ 0)
  · intro hno
    exact Close_panicked w (Or.inl (hD0 hno))
  · intro hno
    exact Close_panicked w (Or.inr ((run_returned cs _ w es h).2.2.2.1 hno rfl))

/-- Witness of `out_of_order_calls_panic`: after `WriteDecoder` copied the byte `0x42`, a second
`WriteDecoder` panics. -/
theorem second_WriteDecoder_panics :
    ∃ msg, oneDecoderWriter.WriteDecoder ⟨[0x42], none⟩ = .panicked msg oneDecoderWriter := by
  have h : (NewWriter (refCodec 8) refJson []).run [.WriteDecoder ⟨[0x42], none⟩] =
      some ((((NewWriter (refCodec 8) refJson []).run [.WriteDecoder ⟨[0x42], none⟩]).getD
        ([], NewWriter (refCodec 8) refJson [])).1, oneDecoderWriter) :=
    eq_some_getD _ ([], NewWriter (refCodec 8) refJson []) (by decide!)
  exact (out_of_order_calls_panic (refCodec 8) refJson [] [.WriteDecoder ⟨[0x42], none⟩] _
    oneDecoderWriter h (by decide!)).1 [] ⟨[0x42], none⟩ [] ⟨[0x42], none⟩ rfl (by decide)

/-- C7 (as stated, refuted): after a `WriteDecoder` call on an empty stream, a second
`WriteDecoder` call returns nil and writes its byte: `LenDecoder` was still 0. -/
theorem WriteDecoder_after_empty_decoder_returns :
    (emptyDecoderWriter.WriteDecoder ⟨[0x42], none⟩).observe = ⟨false, none, [0x42], ⟨1, 0, 0, 0⟩⟩ ∧
    ((NewWriter (refCodec 8) refJson []).run [.WriteDecoder ⟨[], none⟩]).isSome = true := by
  decide!

/-! ## Reading a section is reading its bytes -/

theorem section_bound (data : List Byte) (base : Nat) (B : List Byte)
    (h : (data.drop base).take B.length = B) (hB : B ≠ []) : base + B.length ≤ data.length := by
  have h1 := congrArg List.length h
  simp only [List.length_take, List.length_drop] at h1
  have : 0 < B.length := List.length_pos.mpr hB
  omega

theorem ReadAt_nonneg (r : ReadSeeker) (n off : Nat) :
    readerAt.ReadAt r n (off : Int) =
      ((r.data.drop off).take n, ⟨r.data, off + ((r.data.drop off).take n).length⟩) := by
  unfold readerAt.ReadAt ReadSeeker.Seek ReadSeeker.Read
  have h1 : ¬ ((off : Int) < 0) := by omega
  simp only [h1, if_false, Int.toNat_ofNat]

theorem section_read (data : List Byte) (base : Nat) (B : List Byte)
    (s : SectionReader × ReadSeeker) (m : List Byte) (n : Nat)
    (h : SectionAt data base B s m) :
    (sectionSource.read s n).1 = (memSource.read m n).1 ∧
    SectionAt data base B (sectionSource.read s n).2 (memSource.read m n).2 := by
  obtain ⟨hd, hsz, hB, hl, k, hk, ho, hm⟩ := h
  obtain ⟨s1, r⟩ := s
  simp only at hd hl ho
  simp only [sectionSource, memSource, SectionReader.Read]
  by_cases hge : s1.off ≥ s1.limit
  · have hk' : k = B.length := by rw [ho, hl] at hge; omega
    have hm' : m = [] := by rw [hm, hk']; simp
    rw [if_pos hge]
    subst hm'
    exact ⟨by simp, hd, hsz, hB, hl, k, hk, ho, by simpa using hm⟩
  · rw [if_neg hge]
    have hklt : k < B.length := by rw [ho, hl] at hge; omega
    have hBne : B ≠ [] := by intro h0; rw [h0] at hklt; simp at hklt
    have hbound := section_bound data base B hB hBne
    have hmax : wrap64 (s1.limit - s1.off) = ((B.length - k : Nat) : Int) := by
      rw [hl, ho, wrap64_of_range _ (by omega) (by omega)]; omega
    have hn1 : (if (n : Int) > wrap64 (s1.limit - s1.off) then (wrap64 (s1.limit - s1.off)).toNat
        else n) = min n (B.length - k) := by
      rw [hmax]
      split_ifs with hc
      · rw [Int.toNat_ofNat]; omega
      · omega
    simp only [hn1]
    simp only [ho, ReadAt_nonneg, hd]
    have hbs : (data.drop (base + k)).take (min n (B.length - k)) = m.take n := by
      rw [hm]
      conv_rhs => rw [← hB]
      rw [List.drop_take, List.drop_drop, List.take_take]
    rw [hbs]
    refine ⟨rfl, rfl, hsz, hB, hl, k + (m.take n).length, ?_, ?_, ?_⟩
    · rw [hm]; simp only [List.length_take, List.length_drop]; omega
    · simp only
      have hle : (m.take n).length ≤ B.length - k := by
        rw [hm]; simp only [List.length_take, List.length_drop]; omega
      rw [wrap64_of_range _ (by omega) (by omega)]
      push_cast
      omega
    · rw [hm, List.drop_drop]
      simp only [List.length_take, List.length_drop]
      by_cases hc : n ≤ B.length - k
      · rw [Nat.min_eq_left hc, Nat.add_comm]
      · rw [Nat.min_eq_right (by omega), List.drop_of_length_le (by omega),
          List.drop_of_length_le (by omega)]

theorem section_remaining (data : List Byte) (base : Nat) (B : List Byte)
    (s : SectionReader × ReadSeeker) (m : List Byte) (h : SectionAt data base B s m) :
    sectionSource.remaining s = memSource.remaining m := by
  obtain ⟨-, -, -, hl, k, hk, ho, hm⟩ := h
  simp only [sectionSource, memSource, hl, ho, hm, List.length_drop]
  omega

/-! ## Decoders over sources that deliver the same bytes -/

theorem section_sameBytes (data : List Byte) (base : Nat) (B : List Byte) :
    SameBytes sectionSource memSource (SectionAt data base B) :=
  ⟨fun s m n h => section_read data base B s m n h,
   fun s m h => section_remaining data base B s m h⟩

theorem drive_sim {Cmd Reply S1 S2 : Type} (P : Puller Cmd Reply) (a : Source S1) (b : Source S2)
    (R : S1 → S2 → Prop) (hab : SameBytes a b R) (fuel : Nat) (st : P.ρ) (s : S1) (m : S2)
    (c : Cmd) (h : R s m) :
    (P.drive a fuel st s c).1 = (P.drive b fuel st m c).1 ∧
    (P.drive a fuel st s c).2.1 = (P.drive b fuel st m c).2.1 ∧
    R (P.drive a fuel st s c).2.2 (P.drive b fuel st m c).2.2 := by
  induction fuel generalizing st s m with
  | zero => exact ⟨rfl, rfl, h⟩
  | succ fuel ih =>
    simp only [Puller.drive]
    cases hn : P.need st c with
    | none => exact ⟨rfl, rfl, h⟩
    | some n =>
      obtain ⟨h1, h2⟩ := hab.1 s m n h
      simp only [h1]
      by_cases he : (b.read m n).1 = []
      · simp only [he, if_true]
        exact ⟨trivial, trivial, h2⟩
      · simp only [he, if_false]
        exact ih _ _ _ h2

theorem call_sim {Cmd Reply S1 S2 : Type} (P : Puller Cmd Reply) (a : Source S1) (b : Source S2)
    (R : S1 → S2 → Prop) (hab : SameBytes a b R) (st : P.ρ) (s : S1) (m : S2)
    (c : Cmd) (h : R s m) :
    (P.call a st s c).1 = (P.call b st m c).1 ∧
    (P.call a st s c).2.1 = (P.call b st m c).2.1 ∧
    R (P.call a st s c).2.2 (P.call b st m c).2.2 := by
  unfold Puller.call
  rw [hab.2 s m h]
  exact drive_sim P a b R hab _ st s m c h

theorem tarNext_sim {S1 S2 : Type} (T : TarReader) (a : Source S1) (b : Source S2)
    (R : S1 → S2 → Prop) (hab : SameBytes a b R) (st : T.ρ) (s : S1) (m : S2) (h : R s m) :
    (tarNext T a st s).1 = (tarNext T b st m).1 ∧
    (tarNext T a st s).2.1 = (tarNext T b st m).2.1 ∧
    R (tarNext T a st s).2.2 (tarNext T b st m).2.2 := by
  obtain ⟨h1, h2, h3⟩ := call_sim T a b R hab st s m .Next h
  simp only [tarNext, h1, h2]
  exact ⟨trivial, trivial, h3⟩

theorem limitedRead_sim {S1 S2 : Type} (T : TarReader) (a : Source S1) (b : Source S2)
    (R : S1 → S2 → Prop) (hab : SameBytes a b R) (N : Int) (st : T.ρ) (s : S1) (m : S2)
    (n : Nat) (h : R s m) :
    (limitedRead T a N st s n).1 = (limitedRead T b N st m n).1 ∧
    (limitedRead T a N st s n).2.1 = (limitedRead T b N st m n).2.1 ∧
    (limitedRead T a N st s n).2.2.1 = (limitedRead T b N st m n).2.2.1 ∧
    R (limitedRead T a N st s n).2.2.2 (limitedRead T b N st m n).2.2.2 := by
  unfold limitedRead
  by_cases hN : N ≤ 0
  · simp only [hN, if_true]
    exact ⟨trivial, trivial, trivial, h⟩
  · simp only [hN, if_false]
    obtain ⟨h1, h2, h3⟩ := call_sim T a b R hab st s m
      (.Read (if (n : Int) > N then N.toNat else n)) h
    simp only [h1, h2]
    exact ⟨trivial, trivial, trivial, h3⟩

theorem readContents_sim {S1 S2 : Type} (T : TarReader) (a : Source S1) (b : Source S2)
    (R : S1 → S2 → Prop) (hab : SameBytes a b R) (buf fuel : Nat) (N : Int) (st : T.ρ) (s : S1)
    (m : S2) (h : R s m) :
    (readContents T a buf fuel N st s).1 = (readContents T b buf fuel N st m).1 ∧
    (readContents T a buf fuel N st s).2.1 = (readContents T b buf fuel N st m).2.1 ∧
    R (readContents T a buf fuel N st s).2.2 (readContents T b buf fuel N st m).2.2 := by
  induction fuel generalizing N st s m with
  | zero => exact ⟨rfl, rfl, h⟩
  | succ fuel ih =>
    simp only [readContents]
    obtain ⟨h1, h2, h3, h4⟩ := limitedRead_sim T a b R hab N st s m buf h
    simp only [h1, h2, h3]
    by_cases he : (limitedRead T b N st m buf).1 = []
    · simp only [he, if_true]
      exact ⟨trivial, trivial, h4⟩
    · simp only [he, if_false]
      obtain ⟨i1, i2, i3⟩ := ih (limitedRead T b N st m buf).2.1
        (limitedRead T b N st m buf).2.2.1 _ _ h4
      simp only [i1, i2]
      exact ⟨trivial, trivial, i3⟩

theorem walkStep_sim {S1 S2 : Type} (T : TarReader) (a : Source S1) (b : Source S2)
    (R : S1 → S2 → Prop) (hab : SameBytes a b R) (buf : Nat) (st : T.ρ) (s : S1)
    (m : S2) (h : R s m) :
    (walkStep T a buf st s).1 = (walkStep T b buf st m).1 ∧
    (walkStep T a buf st s).2.1 = (walkStep T b buf st m).2.1 ∧
    R (walkStep T a buf st s).2.2 (walkStep T b buf st m).2.2 := by
  obtain ⟨h1, h2, h3⟩ := tarNext_sim T a b R hab st s m h
  unfold walkStep
  rw [h1, h2]
  cases hr : (tarNext T b st m).1 with
  | error e => exact ⟨rfl, rfl, h3⟩
  | ok hd =>
    simp only []
    obtain ⟨c1, c2, c3⟩ := readContents_sim T a b R hab buf (hd.Size.toNat + 1) hd.Size
      (tarNext T b st m).2.1 _ _ h3
    rw [c1, c2]
    exact ⟨rfl, rfl, c3⟩

theorem walk_sim {S1 S2 : Type} (T : TarReader) (a : Source S1) (b : Source S2)
    (R : S1 → S2 → Prop) (hab : SameBytes a b R) (buf k : Nat) (st : T.ρ) (s : S1)
    (m : S2) (h : R s m) :
    (walk T a buf k st s).1 = (walk T b buf k st m).1 ∧
    (walk T a buf k st s).2.1 = (walk T b buf k st m).2.1 ∧
    R (walk T a buf k st s).2.2 (walk T b buf k st m).2.2 := by
  induction k generalizing st s m with
  | zero => exact ⟨rfl, rfl, h⟩
  | succ k ih =>
    simp only [walk]
    obtain ⟨h1, h2, h3⟩ := walkStep_sim T a b R hab buf st s m h
    rw [h1, h2]
    by_cases he : isError (walkStep T b buf st m).1 = true
    · simp only [he, if_true]
      exact ⟨trivial, trivial, h3⟩
    · simp only [he]
      obtain ⟨i1, i2, i3⟩ := ih (walkStep T b buf st m).2.1 _ _ h3
      rw [i1, i2]
      exact ⟨rfl, rfl, i3⟩

/-! ## Reading back what the writer produced -/

theorem decoderBytes_documented {J : Json} (D : Reader) (files : List (OsFile × GoString))
    (M : J.Val) : decoderBytes (documented D files M) = D.bytes := by
  have h : ∀ fs : List (OsFile × GoString),
      (List.map (Call.decoder ∘ fun f => (Call.WriteFile f.1 f.2 : Call J)) fs).flatten = [] := by
    intro fs
    induction fs with
    | nil => rfl
    | cons f fs ih => simp [Call.decoder]
  simp [documented, decoderBytes, Call.decoder, h]

theorem entriesOf_documented {J : Json} (D : Reader) (files : List (OsFile × GoString))
    (M : J.Val) :
    entriesOf (documented D files M) = files.filterMap (fun f => fileEntry f.1 f.2) := by
  simp only [documented, entriesOf, List.filterMap_append, List.filterMap_map]
  simp only [List.filterMap, Call.entry, List.nil_append, List.append_nil]
  rfl

theorem documented_no_Close {J : Json} (D : Reader) (files : List (OsFile × GoString))
    (M : J.Val) : Call.Close ∉ documented D files M := by
  simp [documented]

theorem chain_documented_metaData {C : Codec} {J : Json} (w0 w : Writer C J) (D : Reader)
    (files : List (OsFile × GoString)) (M : J.Val)
    (h : w0.chain (documented D files M) = some w) : w.metaData = M := by
  obtain ⟨es, hrun, -⟩ := chain_eq_some _ _ _ h
  unfold documented at hrun
  obtain ⟨es1, w1, es2, -, h2, -⟩ := run_append _ _ _ _ _ hrun
  obtain ⟨e, hc, -⟩ := run_singleton _ _ _ _ h2
  simp only [Writer.call, Outcome.returned.injEq] at hc
  rw [← hc.2]
  rfl

theorem run_entries {C : Codec} {J : Json} (cs : List (Call J)) (w0 w : Writer C J)
    (es : List (Option Error)) (h : w0.run cs = some (es, w)) (hnil : ∀ e ∈ es, e = none)
    (file : OsFile) (rel : GoString) (hm : Call.WriteFile file rel ∈ cs) :
    (fileEntry file rel).isSome = true := by
  induction cs generalizing w0 es with
  | nil => simp at hm
  | cons c cs ih =>
    obtain ⟨e, w1, es1, hc, hr, rfl⟩ := run_cons c cs w0 w es h
    rcases List.mem_cons.mp hm with heq | hin
    · subst heq
      have he : e = none := hnil e (by simp)
      subst he
      obtain ⟨info, f, hs, hct, -⟩ := WriteFile_ok w0 w1 file rel hc
      simp [fileEntry, hs, hct]
    · exact ih w1 es1 hr (fun e he => hnil e (by simp [he])) hin

theorem filterMap_length_of_isSome {α β : Type} (f : α → Option β) (l : List α)
    (h : ∀ x ∈ l, (f x).isSome = true) : (l.filterMap f).length = l.length := by
  induction l with
  | nil => rfl
  | cons x xs ih =>
    have hx := h x (by simp)
    cases hfx : f x with
    | none => simp [hfx] at hx
    | some y =>
      simp only [List.filterMap_cons, hfx, List.length_cons]
      rw [ih (fun z hz => h z (by simp [hz]))]

theorem footerOf_append (pre : List Byte) (ft : footer) (h : ft.inRange) :
    footerOf (pre ++ encodeFooter ft) = ft := by
  unfold footerOf
  rw [drop_append_encodeFooter, decodeFooter_encodeFooter _ h]

theorem Read_container (T : TarReader) (Db Tb jb : List Byte) (pos : Nat)
    (hsz : (Db ++ Tb ++ jb ++
      encodeFooter ⟨(Db.length : Nat), (Tb.length : Nat), (jb.length : Nat), SIGNATURE⟩).length
        < 2 ^ 63) :
    Read T ⟨Db ++ Tb ++ jb ++
        encodeFooter ⟨(Db.length : Nat), (Tb.length : Nat), (jb.length : Nat), SIGNATURE⟩, pos⟩ =
      .ok { file := ⟨Db ++ Tb ++ jb ++
              encodeFooter ⟨(Db.length : Nat), (Tb.length : Nat), (jb.length : Nat), SIGNATURE⟩,
              (Db ++ Tb ++ jb ++
                encodeFooter ⟨(Db.length : Nat), (Tb.length : Nat), (jb.length : Nat),
                  SIGNATURE⟩).length⟩
            footer := ⟨(Db.length : Nat), (Tb.length : Nat), (jb.length : Nat), SIGNATURE⟩
            stream := ⟨(Db.length : Nat), ((Db.length + Tb.length : Nat) : Int)⟩
            tar := T.init } := by
  have hlen : (Db ++ Tb ++ jb ++
      encodeFooter ⟨(Db.length : Nat), (Tb.length : Nat), (jb.length : Nat), SIGNATURE⟩).length =
      Db.length + Tb.length + jb.length + 32 := by
    simp only [List.length_append, encodeFooter_length]
  rw [hlen] at hsz
  have hr : (⟨(Db.length : Nat), (Tb.length : Nat), (jb.length : Nat), SIGNATURE⟩ : footer).inRange := by
    refine ⟨⟨?_, ?_⟩, ⟨?_, ?_⟩, ⟨?_, ?_⟩, ⟨?_, ?_⟩⟩ <;> simp only [SIGNATURE] <;> omega
  rw [Read_eq]
  simp only [footerOf_append _ _ hr, hlen]
  rw [if_neg (by omega), if_neg (by simp), if_neg]
  · rw [NewSectionReader_eq _ _ (by omega) (by omega) (by omega)]
    push_cast
    rfl
  · rw [wrap64_of_range _ (by omega) (by omega)]
    push_cast
    omega

theorem build_eq_some (C : Codec) (J : Json) (D : Reader) (files : List (OsFile × GoString))
    (M : J.Val) (Cn : List Byte) (h : build C J D files M = some Cn) :
    ∃ w w1, (NewWriter C J []).chain (documented D files M) = some w ∧
      w.Close = .returned none w1 ∧ w1.file = Cn := by
  unfold build at h
  cases hc : (NewWriter C J []).chain (documented D files M) with
  | none => simp [hc] at h
  | some w =>
    simp only [hc] at h
    rcases hcl : w.Close with ⟨e, w1⟩ | ⟨m, s⟩
    · simp only [hcl] at h
      cases e with
      | some x => simp at h
      | none =>
        simp only [Option.some.injEq] at h
        exact ⟨w, w1, rfl, hcl, h⟩
    · simp [hcl] at h

/-- The bytes of a container the documented sequence yields: the decoder bytes, the
compressed file tree of the entries of the files, the serialised metadata, the footer with
their three lengths. -/
theorem build_layout (C : Codec) (J : Json) (D : Reader) (files : List (OsFile × GoString))
    (M : J.Val) (Cn : List Byte) (h : build C J D files M = some Cn)
    (hsz : Cn.length < 2 ^ 63) :
    ∃ jb, J.Encode M = some jb ∧
      Cn = D.bytes ++ C.stream (files.filterMap (fun f => fileEntry f.1 f.2)) ++ jb ++
        encodeFooter ⟨(D.bytes.length : Nat),
          ((C.stream (files.filterMap (fun f => fileEntry f.1 f.2))).length : Nat),
          (jb.length : Nat), SIGNATURE⟩ ∧
      (files.filterMap (fun f => fileEntry f.1 f.2)).length = files.length := by
  obtain ⟨w, w1, hc, hcl, rfl⟩ := build_eq_some C J D files M Cn h
  obtain ⟨jb, hjb, hfile, -, -, -, eD, eT, eJ, eS, -⟩ :=
    close_layout C J _ w w1 hc (documented_no_Close D files M) hcl hsz
  rw [chain_documented_metaData _ _ _ _ _ hc] at hjb
  rw [decoderBytes_documented, entriesOf_documented] at hfile
  rw [decoderBytes_documented] at eD
  rw [entriesOf_documented] at eT
  have hft : w1.footer = ⟨(D.bytes.length : Nat),
      ((C.stream (files.filterMap (fun f => fileEntry f.1 f.2))).length : Nat),
      (jb.length : Nat), SIGNATURE⟩ := by
    cases hw : w1.footer
    rw [hw] at eD eT eJ eS
    simp only at eD eT eJ eS
    rw [eD, eT, eJ, eS]
    rfl
  refine ⟨jb, hjb, by rw [hfile, hft], ?_⟩
  obtain ⟨es, hrun, hnil⟩ := chain_eq_some _ _ _ hc
  apply filterMap_length_of_isSome
  intro f hf
  apply run_entries _ _ w es hrun hnil f.1 f.2
  simp only [documented, List.mem_append, List.mem_map, List.mem_singleton, List.mem_cons,
    List.mem_nil_iff, or_false]
  exact Or.inl (Or.inr ⟨f, hf, rfl⟩)

theorem take_append_append (a b c : List Byte) (n : Nat) (h : n = b.length) :
    ((a ++ b ++ c).drop a.length).take n = b := by
  subst h
  rw [List.append_assoc, List.drop_left, List.take_left]

/-! ## Truncated containers -/

theorem SectionAt_file (data : List Byte) (base : Nat) (B : List Byte) (s : SectionReader)
    (r r1 : ReadSeeker) (m : List Byte) (h : SectionAt data base B (s, r) m)
    (hr : r1.data = data) : SectionAt data base B (s, r1) m := by
  obtain ⟨-, h2, h3, h4, h5⟩ := h
  exact ⟨hr, h2, h3, h4, h5⟩

theorem NextFile_sim {T : TarReader} (a : Archive T) (data : List Byte) (base : Nat)
    (B m : List Byte) (h : SectionAt data base B (a.stream, a.file) m) :
    (a.NextFile).1 = (tarNext T memSource a.tar m).1.map (fun hdr => (hdr, hdr.Size)) ∧
    (a.NextFile).2.tar = (tarNext T memSource a.tar m).2.1 ∧
    (a.NextFile).2.footer = a.footer ∧
    SectionAt data base B ((a.NextFile).2.stream, (a.NextFile).2.file)
      (tarNext T memSource a.tar m).2.2 := by
  obtain ⟨h1, h2, h3⟩ := tarNext_sim T _ _ _ (section_sameBytes data base B) a.tar _ _ h
  simp only [Archive.NextFile, Archive.after]
  exact ⟨by rw [h1], h2, trivial, h3⟩

theorem readFile_sim {T : TarReader} (a : Archive T) (data : List Byte) (base : Nat)
    (B m : List Byte) (N : Int) (n : Nat) (h : SectionAt data base B (a.stream, a.file) m) :
    (a.readFile N n).1 = (limitedRead T memSource N a.tar m n).1 ∧
    (a.readFile N n).2.1 = (limitedRead T memSource N a.tar m n).2.1 ∧
    (a.readFile N n).2.2.tar = (limitedRead T memSource N a.tar m n).2.2.1 ∧
    (a.readFile N n).2.2.footer = a.footer ∧
    SectionAt data base B ((a.readFile N n).2.2.stream, (a.readFile N n).2.2.file)
      (limitedRead T memSource N a.tar m n).2.2.2 := by
  obtain ⟨h1, h2, h3, h4⟩ :=
    limitedRead_sim T _ _ _ (section_sameBytes data base B) N a.tar _ _ n h
  simp only [Archive.readFile, Archive.after]
  exact ⟨h1, h2, h3, trivial, h4⟩

theorem ReadMetaData_sim {T : TarReader} {V : Type} (Dj : JsonDecoder V) (a : Archive T)
    (data : List Byte) (base : Nat) (B : List Byte)
    (h : SectionAt data base B
      (NewSectionReader (wrap64 (a.footer.LenDecoder + a.footer.LenTar)) a.footer.LenJson, a.file)
      B) :
    (a.ReadMetaData Dj).1 = (Dj.call memSource Dj.init B ()).1 ∧
    (a.ReadMetaData Dj).2.tar = a.tar ∧ (a.ReadMetaData Dj).2.footer = a.footer ∧
    (a.ReadMetaData Dj).2.stream = a.stream ∧ (a.ReadMetaData Dj).2.file.data = data := by
  obtain ⟨h1, -, h3⟩ := call_sim Dj _ _ _ (section_sameBytes data base B) Dj.init _ _ () h
  simp only [Archive.ReadMetaData]
  exact ⟨h1, trivial, trivial, trivial, h3.1⟩

/-- The sections of a stream whose footer lengths are non-negative and add up, without
wrap-around, to its size minus 32. -/
theorem sections_of_wellformed (data : List Byte) (ft : footer)
    (r : ReadSeeker) (hr : r.data = data) (hsz : data.length < 2 ^ 63)
    (hD : 0 ≤ ft.LenDecoder) (hT : 0 ≤ ft.LenTar) (hJ : 0 ≤ ft.LenJson)
    (hsum : ft.LenDecoder + ft.LenTar + ft.LenJson + 32 = data.length) :
    SectionAt data ft.LenDecoder.toNat ((data.drop ft.LenDecoder.toNat).take ft.LenTar.toNat)
      (NewSectionReader ft.LenDecoder ft.LenTar, r)
      ((data.drop ft.LenDecoder.toNat).take ft.LenTar.toNat) ∧
    SectionAt data (ft.LenDecoder + ft.LenTar).toNat
      ((data.drop (ft.LenDecoder + ft.LenTar).toNat).take ft.LenJson.toNat)
      (NewSectionReader (wrap64 (ft.LenDecoder + ft.LenTar)) ft.LenJson, r)
      ((data.drop (ft.LenDecoder + ft.LenTar).toNat).take ft.LenJson.toNat) := by
  have l1 : ((data.drop ft.LenDecoder.toNat).take ft.LenTar.toNat).length = ft.LenTar.toNat := by
    simp only [List.length_take, List.length_drop]; omega
  have l2 : ((data.drop (ft.LenDecoder + ft.LenTar).toNat).take ft.LenJson.toNat).length =
      ft.LenJson.toNat := by
    simp only [List.length_take, List.length_drop]; omega
  constructor
  · refine ⟨hr, hsz, by rw [l1], ?_, 0, Nat.zero_le _, ?_, rfl⟩
    · rw [NewSectionReader_eq _ _ hT (by omega) (by omega), l1]
      simp only
      omega
    · rw [NewSectionReader_eq _ _ hT (by omega) (by omega)]
      simp only
      omega
  · refine ⟨hr, hsz, by rw [l2], ?_, 0, Nat.zero_le _, ?_, rfl⟩
    · rw [wrap64_of_range (ft.LenDecoder + ft.LenTar) (by omega) (by omega),
        NewSectionReader_eq _ _ hJ (by omega) (by omega), l2]
      simp only
      omega
    · rw [wrap64_of_range (ft.LenDecoder + ft.LenTar) (by omega) (by omega),
        NewSectionReader_eq _ _ hJ (by omega) (by omega)]
      simp only
      omega

theorem ops_frame {T : TarReader} {V : Type} (Dj : JsonDecoder V) (data : List Byte)
    (base : Nat) (B : List Byte) (base1 : Nat) (B1 : List Byte) (ft : footer)
    (hmeta : ∀ r : ReadSeeker, r.data = data → SectionAt data base1 B1
      (NewSectionReader (wrap64 (ft.LenDecoder + ft.LenTar)) ft.LenJson, r) B1)
    (l : List ReadOp) (a a1 : Archive T) (N : Int) (m : List Byte)
    (hf : a.footer = ft) (hf1 : a1.footer = ft) (ht : a.tar = a1.tar)
    (hs : SectionAt data base B (a.stream, a.file) m)
    (hs1 : SectionAt data base B (a1.stream, a1.file) m) :
    (∀ r, ReadEvent.metaData r ∈ a.ops Dj l N → r = (Dj.call memSource Dj.init B1 ()).1) ∧
    (a.ops Dj l N).filter (fun e => !e.isMetaData) =
      a1.ops Dj (l.filter (fun o => decide (o ≠ .ReadMetaData))) N := by
  induction l generalizing a a1 N m with
  | nil => exact ⟨fun r hr => by simp [Archive.ops] at hr, rfl⟩
  | cons o l ih =>
    cases o with
    | NextFile =>
      obtain ⟨p1, p2, p3, p4⟩ := NextFile_sim a data base B m hs
      obtain ⟨q1, q2, q3, q4⟩ := NextFile_sim a1 data base B m hs1
      rw [← ht] at q1 q2 q4
      have hr : (a.NextFile).1 = (a1.NextFile).1 := by rw [p1, q1]
      obtain ⟨i1, i2⟩ := ih (a.NextFile).2 (a1.NextFile).2 (limitOf (a.NextFile).1) _
        (by rw [p3, hf]) (by rw [q3, hf1]) (by rw [p2, q2]) p4 q4
      constructor
      · intro r hr
        simp only [Archive.ops, List.mem_cons] at hr
        rcases hr with hr | hr
        · cases hr
        · exact i1 r hr
      · rw [List.filter_cons_of_pos (by decide)]
        simp only [Archive.ops]
        rw [List.filter_cons_of_pos (by rfl), i2, hr]
    | ReadFile n =>
      obtain ⟨p1, p2, p3, p4, p5⟩ := readFile_sim a data base B m N n hs
      obtain ⟨q1, q2, q3, q4, q5⟩ := readFile_sim a1 data base B m N n hs1
      rw [← ht] at q1 q2 q3 q5
      obtain ⟨i1, i2⟩ := ih (a.readFile N n).2.2 (a1.readFile N n).2.2 (a.readFile N n).2.1 _
        (by rw [p4, hf]) (by rw [q4, hf1]) (by rw [p3, q3]) p5 q5
      constructor
      · intro r hr
        simp only [Archive.ops, List.mem_cons] at hr
        rcases hr with hr | hr
        · cases hr
        · exact i1 r hr
      · rw [List.filter_cons_of_pos (by simp)]
        simp only [Archive.ops]
        rw [List.filter_cons_of_pos (by rfl), i2, p1, q1, p2, q2]
    | ReadMetaData =>
      obtain ⟨p1, p2, p3, p4, p5⟩ := ReadMetaData_sim Dj a data base1 B1
        (by rw [hf]; exact hmeta a.file hs.1)
      obtain ⟨i1, i2⟩ := ih (a.ReadMetaData Dj).2 a1 N m (by rw [p3, hf]) hf1 (by rw [p2, ht])
        (by rw [p4]; exact SectionAt_file _ _ _ _ _ _ _ hs p5) hs1
      constructor
      · intro r hr
        simp only [Archive.ops, List.mem_cons, ReadEvent.metaData.injEq] at hr
        rcases hr with hr | hr
        · rw [hr, p1]
        · exact i1 r hr
      · rw [List.filter_cons_of_neg (by decide)]
        simp only [Archive.ops]
        rw [List.filter_cons_of_neg (by simp [ReadEvent.isMetaData])]
        exact i2

/-- Metadata reads on a well-formed archive. For an archive `Read` returns for a stream of fewer
than 2^63 bytes whose footer lengths are non-negative and add up, as exact integers, to the size
minus 32 (as in every container the writer produces), and for every sequence of `NextFile`
calls, reads of entry contents and `ReadMetaData` calls: every `ReadMetaData` call decodes the
bytes at offsets `[LenDecoder+LenTar, LenDecoder+LenTar+LenJson)`, so returns the same result
each time, and the results of `NextFile` and of the content reads are those of the same sequence
without the `ReadMetaData` calls. -/
theorem metadata_reads_do_not_disturb_walk (T : TarReader) (V : Type) (Dj : JsonDecoder V)
    (f : ReadSeeker) (a : Archive T) (l : List ReadOp) (N : Int)
    (hread : Read T f = .ok a) (hsz : f.data.length < 2 ^ 63)
    (hD : 0 ≤ a.footer.LenDecoder) (hT : 0 ≤ a.footer.LenTar) (hJ : 0 ≤ a.footer.LenJson)
    (hsum : a.footer.LenDecoder + a.footer.LenTar + a.footer.LenJson + 32 = f.data.length) :
    (∀ r, ReadEvent.metaData r ∈ a.ops Dj l N →
      r = (Dj.call memSource Dj.init
        ((f.data.drop (a.footer.LenDecoder + a.footer.LenTar).toNat).take a.footer.LenJson.toNat)
        ()).1) ∧
    (a.ops Dj l N).filter (fun e => !e.isMetaData) =
      a.ops Dj (l.filter (fun o => decide (o ≠ .ReadMetaData))) N := by
  obtain ⟨e1, e2, e3, e4⟩ := Read_ok_fields T f a hread
  have hs := (sections_of_wellformed f.data a.footer a.file (by rw [e1]) hsz hD hT hJ hsum).1
  rw [← e2] at e3
  rw [← e3] at hs
  exact ops_frame Dj f.data _ _ _ _ a.footer
    (fun r hr => (sections_of_wellformed f.data a.footer r hr hsz hD hT hJ hsum).2)
    l a a N _ rfl rfl rfl hs hs

theorem eq_ok_ofResult {T : TarReader} (r : Except Error (Archive T))
    (h : isArchive r = true) : r = .ok (Archive.ofResult r) := by
  cases r with
  | ok a => rfl
  | error e => simp [isArchive] at h

/-- Witness of `metadata_reads_do_not_disturb_walk`: the container of the end-to-end scenario,
with metadata reads before, between and after the reads of the file walk. -/
theorem metadata_reads_witness :
    (∀ r, ReadEvent.metaData r ∈ scenarioArchive.ops refJsonDecoder
        [.ReadMetaData, .NextFile, .ReadMetaData, .ReadFile 5, .NextFile, .ReadMetaData] 0 →
      r = (refJsonDecoder.call memSource refJsonDecoder.init
        ((scenarioContainer.drop
          (scenarioArchive.footer.LenDecoder + scenarioArchive.footer.LenTar).toNat).take
            scenarioArchive.footer.LenJson.toNat) ()).1) ∧
    (scenarioArchive.ops refJsonDecoder
        [.ReadMetaData, .NextFile, .ReadMetaData, .ReadFile 5, .NextFile, .ReadMetaData]
        0).filter (fun e => !e.isMetaData) =
      scenarioArchive.ops refJsonDecoder
        ([.ReadMetaData, .NextFile, .ReadMetaData, .ReadFile 5, .NextFile, .ReadMetaData].filter
          (fun o => decide (o ≠ .ReadMetaData))) 0 :=
  metadata_reads_do_not_disturb_walk refTar (Option GoString) refJsonDecoder
    ⟨scenarioContainer, 0⟩ scenarioArchive
    [.ReadMetaData, .NextFile, .ReadMetaData, .ReadFile 5, .NextFile, .ReadMetaData] 0
    (eq_ok_ofResult _ (by decide!)) (by decide!) (by decide!) (by decide!) (by decide!)
    (by decide!)

/-! ## The file walk of a caller is the walk of the tar reader over the section -/

theorem after_after {T : TarReader} (a : Archive T) (r r1 : T.ρ × SectionReader × ReadSeeker) :
    (a.after r).after r1 = a.after r1 := rfl

theorem after_self {T : TarReader} (a : Archive T) : a.after (a.tar, a.stream, a.file) = a := by
  cases a
  rfl

theorem drain_eq {T : TarReader} (buf fuel : Nat) (a : Archive T) (N : Int) :
    Archive.drain buf fuel a N =
      ((readContents T sectionSource buf fuel N a.tar (a.stream, a.file)).1,
        a.after (readContents T sectionSource buf fuel N a.tar (a.stream, a.file)).2) := by
  induction fuel generalizing a N with
  | zero => simp only [Archive.drain, readContents, after_self]
  | succ fuel ih =>
    simp only [Archive.drain, readContents, Archive.readFile]
    by_cases h : (limitedRead T sectionSource N a.tar (a.stream, a.file) buf).1 = []
    · rw [if_pos h, if_pos h]
    · rw [if_neg h, if_neg h, ih]
      rfl

theorem walk_eq {T : TarReader} (buf k : Nat) (a : Archive T) :
    a.walk buf k =
      ((walk T sectionSource buf k a.tar (a.stream, a.file)).1,
        a.after (walk T sectionSource buf k a.tar (a.stream, a.file)).2) := by
  induction k generalizing a with
  | zero => simp only [Archive.walk, walk, after_self]
  | succ k ih =>
    simp only [Archive.walk, walk, walkStep, Archive.NextFile]
    cases h : (tarNext T sectionSource a.tar (a.stream, a.file)).1 with
    | error e => simp only [Except.map, isError, if_true]
    | ok hdr =>
      simp only [Except.map, isError, Bool.false_eq_true, if_false]
      rw [drain_eq, ih]
      rfl

/-! ## Reading back a container -/

/-- Reading back a container the documented sequence yields: `Read` succeeds, the first
`LenDecoder` bytes are the decoder bytes, the file walk through `NextFile` returns what the tar
library reads from the compressed stream of the recorded entries held in memory, and
`ReadMetaData` returns what the JSON library decodes from the serialised metadata, before and
after any walk. -/
theorem read_back (C : Codec) (J : Json) (T : TarReader) {V : Type} (Dj : JsonDecoder V)
    (D : Reader) (files : List (OsFile × GoString)) (M : J.Val) (Cn : List Byte) (pos : Nat)
    (hbuild : build C J D files M = some Cn) (hsz : Cn.length < 2 ^ 63) :
    ∃ a jb, Read T ⟨Cn, pos⟩ = .ok a ∧ J.Encode M = some jb ∧
      Cn.take a.footer.LenDecoder.toNat = D.bytes ∧
      (files.filterMap (fun f => fileEntry f.1 f.2)).length = files.length ∧
      (∀ buf k, (a.walk buf k).1 =
        (walk T memSource buf k T.init
          (C.stream (files.filterMap (fun f => fileEntry f.1 f.2)))).1) ∧
      (a.ReadMetaData Dj).1 = (Dj.call memSource Dj.init jb ()).1 ∧
      (∀ buf k, ((a.walk buf k).2.ReadMetaData Dj).1 = (Dj.call memSource Dj.init jb ()).1) := by
  obtain ⟨jb, hjb, hCn, hlen⟩ := build_layout C J D files M Cn hbuild hsz
  generalize hT : C.stream (files.filterMap (fun f => fileEntry f.1 f.2)) = Tb at hCn
  have hread := Read_container T D.bytes Tb jb pos (by rw [← hCn]; exact hsz)
  rw [← hCn] at hread
  have hl : Cn.length = D.bytes.length + Tb.length + jb.length + 32 := by
    rw [hCn]; simp only [List.length_append, encodeFooter_length]
  have hrel : SectionAt Cn D.bytes.length Tb
      (⟨(D.bytes.length : Nat), ((D.bytes.length + Tb.length : Nat) : Int)⟩, ⟨Cn, Cn.length⟩) Tb := by
    refine ⟨rfl, hsz, ?_, rfl, 0, Nat.zero_le _, rfl, rfl⟩
    rw [hCn, List.append_assoc (D.bytes ++ Tb)]
    exact take_append_append _ _ _ _ rfl
  have hw := fun buf k => walk_sim T _ _ _ (section_sameBytes Cn D.bytes.length Tb) buf
    k T.init _ _ hrel
  have hmeta : ∀ r : ReadSeeker, r.data = Cn →
      (Dj.call sectionSource Dj.init
        (NewSectionReader (wrap64 (((D.bytes.length : Nat) : Int) + ((Tb.length : Nat) : Int)))
          ((jb.length : Nat) : Int), r) ()).1 = (Dj.call memSource Dj.init jb ()).1 := by
    intro r hr
    have hrelj : SectionAt Cn (D.bytes.length + Tb.length) jb
        (NewSectionReader (wrap64 (((D.bytes.length : Nat) : Int) + ((Tb.length : Nat) : Int)))
          ((jb.length : Nat) : Int), r) jb := by
      refine ⟨hr, hsz, ?_, ?_, 0, Nat.zero_le _, ?_, rfl⟩
      · rw [hCn]
        have := take_append_append (D.bytes ++ Tb) jb
          (encodeFooter ⟨(D.bytes.length : Nat), (Tb.length : Nat), (jb.length : Nat), SIGNATURE⟩)
          jb.length rfl
        rw [List.length_append] at this
        exact this
      · rw [wrap64_of_range (((D.bytes.length : Nat) : Int) + ((Tb.length : Nat) : Int))
          (by omega) (by omega), NewSectionReader_eq _ _ (by omega) (by omega) (by omega)]
        push_cast
        rfl
      · rw [wrap64_of_range (((D.bytes.length : Nat) : Int) + ((Tb.length : Nat) : Int))
          (by omega) (by omega), NewSectionReader_eq _ _ (by omega) (by omega) (by omega)]
        push_cast
        rfl
    exact (call_sim Dj _ _ _ (section_sameBytes Cn (D.bytes.length + Tb.length) jb)
      Dj.init _ _ () hrelj).1
  refine ⟨_, jb, hread, hjb, ?_, hlen, ?_, ?_, ?_⟩
  · simp only [Int.toNat_ofNat]
    rw [hCn, List.append_assoc, List.append_assoc, List.take_left]
  · intro buf k
    rw [walk_eq]
    exact (hw buf k).1
  · simp only [Archive.ReadMetaData]
    exact hmeta _ rfl
  · intro buf k
    rw [walk_eq]
    simp only [Archive.ReadMetaData, Archive.after]
    exact hmeta _ (hw buf k).2.2.1

/-! ## The writer on the files of the packaging tool -/

theorem noise_length (n : Nat) : (noise n).length = n := by
  simp only [noise, List.length_map, List.length_range]

theorem build_of_chain (C : Codec) (J : Json) (D : Reader) (files : List (OsFile × GoString))
    (M : J.Val) (w w1 : Writer C J)
    (h : (NewWriter C J []).chain (documented D files M) = some w)
    (hc : w.Close = .returned none w1) : build C J D files M = some w1.file := by
  simp only [build, h, hc]

theorem emit_eq {C : Codec} {J : Json} (w : Writer C J) (st : C.σ) (b : List Byte) :
    w.emit st b =
      ⟨w.file ++ b, w.metaData,
        ⟨w.footer.LenDecoder, wrap64 (w.footer.LenTar + (b.length : Nat)), w.footer.LenJson,
          w.footer.Signature⟩, st⟩ := rfl

/-- A `WriteFile` call in which every step succeeds returns nil after the header and the
content went through the stacked writers. -/
theorem WriteFile_success {C : Codec} {J : Json} (w : Writer C J) (file : OsFile)
    (rel : GoString) (info : FileInfo) (f : Reader)
    (hD : w.footer.LenDecoder ≠ 0) (hJ : w.footer.LenJson = 0)
    (hs : file.stat = .ok info) (hct : file.content = .ok f) (hf : f.err = none)
    (h1 : (C.WriteHeader w.tar (headerOf info (entryName file.Name rel))).ok = true)
    (h2 : (C.Write (C.WriteHeader w.tar (headerOf info (entryName file.Name rel))).st f.bytes).ok
      = true)
    (h3 : ((C.Write (C.WriteHeader w.tar (headerOf info (entryName file.Name rel))).st f.bytes).n
      : Int) = info.Size) :
    w.WriteFile file rel = .returned none
      ((w.emit (C.WriteHeader w.tar (headerOf info (entryName file.Name rel))).st
          (C.WriteHeader w.tar (headerOf info (entryName file.Name rel))).out).emit
        (C.Write (C.WriteHeader w.tar (headerOf info (entryName file.Name rel))).st f.bytes).st
        (C.Write (C.WriteHeader w.tar (headerOf info (entryName file.Name rel))).st f.bytes).out) := by
  unfold Writer.WriteFile
  rw [if_neg (by rw [hJ]; simp [hD])]
  simp only [hs, hct, hf, emit_tar, h1, h2, Bool.true_eq_false, if_false]
  rw [if_neg]
  rw [h3]
  simp [headerOf, FileInfoHeader]

theorem refWriteHeader_hold (window : Nat) (st : RefState) (h : Header) (hnb : st.nb = 0)
    (hn : h.Name.length < 256) (hm : 0 ≤ h.Mode ∧ h.Mode < 65536)
    (hs : 0 ≤ h.Size ∧ h.Size < 65536)
    (hw : (st.pending ++ refHeaderBytes h).length < window) :
    (refCodec window).WriteHeader st h = ⟨⟨st.pending ++ refHeaderBytes h, h.Size.toNat⟩, [], true, 0⟩ := by
  simp only [refCodec, refPush]
  rw [if_pos ⟨hnb, hn, hm.1, hm.2, hs.1, hs.2⟩, if_neg (by omega)]

theorem refWrite_hold (window : Nat) (st : RefState) (bs : List Byte) (hb : bs.length = st.nb)
    (hw : (st.pending ++ bs).length < window) :
    (refCodec window).Write st bs = ⟨⟨st.pending ++ bs, 0⟩, [], true, bs.length⟩ := by
  simp only [refCodec, refPush]
  rw [List.take_of_length_le (by omega), if_neg (by omega)]
  simp [hb]

theorem refWrite_emit (window : Nat) (st : RefState) (bs : List Byte) (hb : bs.length = st.nb)
    (hw : window ≤ (st.pending ++ bs).length) :
    (refCodec window).Write st bs = ⟨⟨[], 0⟩, st.pending ++ bs, true, bs.length⟩ := by
  simp only [refCodec, refPush]
  rw [List.take_of_length_le (by omega), if_pos hw]
  simp [hb]

/-- The writer over the reference codec with a window of 65536 bytes, on a decoder and the
files `app` (with any 65535 bytes) and `.gotar`: the output of the documented sequence. -/
theorem build_tool (D : Reader) (c : List Byte) (hD : D.err = none) (h0 : D.bytes ≠ [])
    (hlen : D.bytes.length < 2 ^ 62) (hc : c.length = 65535) :
    build (refCodec 65536) refJson D
      [(⟨"app".toList, .ok ⟨"app".toList, 65535, 0o755⟩, .ok ⟨c, none⟩⟩, ".".toList),
        (dotGotar, ".".toList)] (some "app".toList) =
      some (D.bytes ++ (refHeaderBytes ⟨"app".toList, 0o755, 65535⟩ ++ c ++
          (refHeaderBytes ⟨"gotar".toList, 0o644, 2⟩ ++ strBytes "*\n".toList)) ++
        strBytes "\x7b\"Name\":\"app\"\x7d\n".toList ++
        encodeFooter ⟨(D.bytes.length : Nat), 65555, 15, SIGNATURE⟩) := by
  have hpos : 0 < D.bytes.length := List.length_pos.mpr h0
  have hLD : ((D.bytes.length : Nat) : Int) ≠ 0 := by exact_mod_cast (by omega : D.bytes.length ≠ 0)
  have hb1 : (refHeaderBytes ⟨"app".toList, 0o755, 65535⟩).length = 8 := by decide
  have hb2 : (refHeaderBytes ⟨"gotar".toList, 0o644, 2⟩).length = 10 := by decide
  have e1 : (NewWriter (refCodec 65536) refJson []).WriteDecoder D =
      .returned none ⟨D.bytes, none, ⟨((D.bytes.length : Nat) : Int), 0, 0, 0⟩, ⟨[], 0⟩⟩ := by
    simp only [Writer.WriteDecoder, NewWriter, footer.zero, ne_eq, not_true_eq_false, if_false,
      List.nil_append, hD]
    rw [wrap64_nat _ (by omega)]
    rfl
  have hh1 : headerOf ⟨"app".toList, 65535, 0o755⟩ (entryName "app".toList ".".toList) =
      ⟨"app".toList, 0o755, 65535⟩ := by decide
  have hh2 : headerOf ⟨".gotar".toList, 2, 0o644⟩ (entryName ".gotar".toList ".".toList) =
      ⟨"gotar".toList, 0o644, 2⟩ := by decide
  have s1 : (refCodec 65536).WriteHeader ⟨[], 0⟩ ⟨"app".toList, 0o755, 65535⟩ =
      ⟨⟨refHeaderBytes ⟨"app".toList, 0o755, 65535⟩, 65535⟩, [], true, 0⟩ := by
    have := refWriteHeader_hold 65536 ⟨[], 0⟩ ⟨"app".toList, 0o755, 65535⟩ rfl (by decide)
      (by decide) (by decide) (by simp only [List.nil_append, hb1]; omega)
    simpa using this
  have s2 : (refCodec 65536).Write ⟨refHeaderBytes ⟨"app".toList, 0o755, 65535⟩, 65535⟩ c =
      ⟨⟨[], 0⟩, refHeaderBytes ⟨"app".toList, 0o755, 65535⟩ ++ c, true, c.length⟩ :=
    refWrite_emit 65536 _ c hc (by simp only [List.length_append, hb1, hc]; omega)
  have s3 : (refCodec 65536).WriteHeader ⟨[], 0⟩ ⟨"gotar".toList, 0o644, 2⟩ =
      ⟨⟨refHeaderBytes ⟨"gotar".toList, 0o644, 2⟩, 2⟩, [], true, 0⟩ := by
    have := refWriteHeader_hold 65536 ⟨[], 0⟩ ⟨"gotar".toList, 0o644, 2⟩ rfl (by decide)
      (by decide) (by decide) (by simp only [List.nil_append, hb2]; omega)
    simpa using this
  have s4 : (refCodec 65536).Write ⟨refHeaderBytes ⟨"gotar".toList, 0o644, 2⟩, 2⟩
        (strBytes "*\n".toList) =
      ⟨⟨refHeaderBytes ⟨"gotar".toList, 0o644, 2⟩ ++ strBytes "*\n".toList, 0⟩, [], true, 2⟩ :=
    refWrite_hold 65536 _ _ rfl (by decide)
  have e2 : (⟨D.bytes, none, ⟨((D.bytes.length : Nat) : Int), 0, 0, 0⟩, ⟨[], 0⟩⟩ :
        Writer (refCodec 65536) refJson).WriteFile
        ⟨"app".toList, .ok ⟨"app".toList, 65535, 0o755⟩, .ok ⟨c, none⟩⟩ ".".toList =
      .returned none ⟨D.bytes ++ (refHeaderBytes ⟨"app".toList, 0o755, 65535⟩ ++ c), none,
        ⟨((D.bytes.length : Nat) : Int), 65543, 0, 0⟩, ⟨[], 0⟩⟩ := by
    rw [WriteFile_success _ _ _ ⟨"app".toList, 65535, 0o755⟩ ⟨c, none⟩ hLD rfl rfl rfl rfl
      (by rw [hh1, s1]) (by rw [hh1, s1, s2]) (by rw [hh1, s1, s2, hc]; rfl)]
    rw [hh1, s1, s2]
    simp only [emit_eq, List.length_nil, List.append_nil, List.length_append, hb1, hc]
    rw [show wrap64 ((0 : Int) + ((0 : Nat) : Int)) = 0 from by
      rw [show ((0 : Int) + ((0 : Nat) : Int)) = ((0 : Nat) : Int) from rfl, wrap64_nat _ (by omega)]; rfl]
    rw [show ((0 : Int) + ((8 + 65535 : Nat) : Int)) = ((65543 : Nat) : Int) from rfl,
      wrap64_nat _ (by omega)]
    rfl
  have e3 : (⟨D.bytes ++ (refHeaderBytes ⟨"app".toList, 0o755, 65535⟩ ++ c), none,
        ⟨((D.bytes.length : Nat) : Int), 65543, 0, 0⟩, ⟨[], 0⟩⟩ :
        Writer (refCodec 65536) refJson).WriteFile dotGotar ".".toList =
      .returned none ⟨D.bytes ++ (refHeaderBytes ⟨"app".toList, 0o755, 65535⟩ ++ c), none,
        ⟨((D.bytes.length : Nat) : Int), 65543, 0, 0⟩,
        ⟨refHeaderBytes ⟨"gotar".toList, 0o644, 2⟩ ++ strBytes "*\n".toList, 0⟩⟩ := by
    rw [WriteFile_success _ dotGotar _ ⟨".gotar".toList, 2, 0o644⟩ ⟨strBytes "*\n".toList, none⟩
      hLD rfl rfl rfl rfl
      (by show ((refCodec 65536).WriteHeader ⟨[], 0⟩ (headerOf ⟨".gotar".toList, 2, 0o644⟩
            (entryName ".gotar".toList ".".toList))).ok = true
          rw [hh2, s3])
      (by show ((refCodec 65536).Write ((refCodec 65536).WriteHeader ⟨[], 0⟩
            (headerOf ⟨".gotar".toList, 2, 0o644⟩ (entryName ".gotar".toList ".".toList))).st
              (strBytes "*\n".toList)).ok = true
          rw [hh2, s3, s4])
      (by show (((refCodec 65536).Write ((refCodec 65536).WriteHeader ⟨[], 0⟩
            (headerOf ⟨".gotar".toList, 2, 0o644⟩ (entryName ".gotar".toList ".".toList))).st
              (strBytes "*\n".toList)).n : Int) = 2
          rw [hh2, s3, s4]; rfl)]
    show Outcome.returned none
      (((⟨D.bytes ++ (refHeaderBytes ⟨"app".toList, 0o755, 65535⟩ ++ c), none,
        ⟨((D.bytes.length : Nat) : Int), 65543, 0, 0⟩, ⟨[], 0⟩⟩ :
        Writer (refCodec 65536) refJson).emit
          ((refCodec 65536).WriteHeader ⟨[], 0⟩ (headerOf ⟨".gotar".toList, 2, 0o644⟩
            (entryName ".gotar".toList ".".toList))).st
          ((refCodec 65536).WriteHeader ⟨[], 0⟩ (headerOf ⟨".gotar".toList, 2, 0o644⟩
            (entryName ".gotar".toList ".".toList))).out).emit
        ((refCodec 65536).Write ((refCodec 65536).WriteHeader ⟨[], 0⟩
            (headerOf ⟨".gotar".toList, 2, 0o644⟩ (entryName ".gotar".toList ".".toList))).st
              (strBytes "*\n".toList)).st
        ((refCodec 65536).Write ((refCodec 65536).WriteHeader ⟨[], 0⟩
            (headerOf ⟨".gotar".toList, 2, 0o644⟩ (entryName ".gotar".toList ".".toList))).st
              (strBytes "*\n".toList)).out) = _
    rw [hh2, s3, s4]
    simp only [emit_eq, List.length_nil, List.append_nil]
    rw [show ((65543 : Int) + ((0 : Nat) : Int)) = ((65543 : Nat) : Int) from rfl,
      wrap64_nat _ (by omega)]
    rw [show (((65543 : Nat) : Int) + ((0 : Nat) : Int)) = ((65543 : Nat) : Int) from rfl,
      wrap64_nat _ (by omega)]
    rfl
  have e4 : (⟨D.bytes ++ (refHeaderBytes ⟨"app".toList, 0o755, 65535⟩ ++ c), some "app".toList,
        ⟨((D.bytes.length : Nat) : Int), 65543, 0, 0⟩,
        ⟨refHeaderBytes ⟨"gotar".toList, 0o644, 2⟩ ++ strBytes "*\n".toList, 0⟩⟩ :
        Writer (refCodec 65536) refJson).Close =
      .returned none ⟨D.bytes ++ (refHeaderBytes ⟨"app".toList, 0o755, 65535⟩ ++ c ++
          (refHeaderBytes ⟨"gotar".toList, 0o644, 2⟩ ++ strBytes "*\n".toList)) ++
        strBytes "\x7b\"Name\":\"app\"\x7d\n".toList ++
        encodeFooter ⟨(D.bytes.length : Nat), 65555, 15, SIGNATURE⟩, some "app".toList,
        ⟨(D.bytes.length : Nat), 65555, 15, SIGNATURE⟩, ⟨[], 0⟩⟩ := by
    have hj : refJson.Encode (some "app".toList) =
        some (strBytes "\x7b\"Name\":\"app\"\x7d\n".toList) := by decide
    unfold Writer.Close
    rw [if_neg (by
      intro h
      rcases h with h | h
      · exact hLD h
      · exact absurd (show (65543 : Int) = 0 from h) (by decide))]
    simp only [emit_eq, hj, Writer.writeFooter, countingWriter.Write]
    simp only [refCodec, List.length_nil, List.append_nil, List.length_append, hb2]
    rw [show ((65543 : Int) + ((0 : Nat) : Int)) = ((65543 : Nat) : Int) from rfl,
      wrap64_nat _ (by omega)]
    rw [show (((65543 : Nat) : Int) + ((10 + (strBytes "*\n".toList).length : Nat) : Int)) =
      ((65555 : Nat) : Int) from rfl, wrap64_nat _ (by omega)]
    rw [show ((0 : Int) + (((strBytes "\x7b\"Name\":\"app\"\x7d\n".toList).length : Nat) : Int)) =
      ((15 : Nat) : Int) from rfl, wrap64_nat _ (by omega)]
    simp only [List.append_assoc]
    rfl
  refine build_of_chain (refCodec 65536) refJson _ _ _ _ _ ?_ e4
  simp only [Writer.chain, documented, List.map, List.cons_append, List.nil_append, Writer.run,
    Writer.call, e1, e2, e3, Writer.WriteMetaData]
  rfl

theorem build_toolFiles (D : Reader) (hD : D.err = none) (h0 : D.bytes ≠ [])
    (hlen : D.bytes.length < 2 ^ 62) :
    build (refCodec 65536) refJson D toolFiles (some "app".toList) = some (toolBytes D.bytes) :=
  build_tool D (noise 65535) hD h0 hlen (noise_length 65535)

theorem toolBytes_length (D : List Byte) : (toolBytes D).length = D.length + 65602 := by
  have hb1 : (refHeaderBytes ⟨"app".toList, 0o755, 65535⟩).length = 8 := by decide
  have hb2 : (refHeaderBytes ⟨"gotar".toList, 0o644, 2⟩).length = 10 := by decide
  have hb3 : (strBytes "*\n".toList).length = 2 := by decide
  have hb4 : (strBytes "\x7b\"Name\":\"app\"\x7d\n".toList).length = 15 := by decide
  simp only [toolBytes, List.length_append, hb1, hb2, hb3, hb4, noise_length, encodeFooter_length]

theorem zeroLengthStream_length : zeroLengthStream.length = 32 := encodeFooter_length _

theorem build_toolContainer :
    build (refCodec 65536) refJson ⟨[0x42], none⟩ toolFiles (some "app".toList) =
      some (toolBytes [0x42]) :=
  build_toolFiles ⟨[0x42], none⟩ rfl (by decide)
    (by show (1 : Nat) < 2 ^ 62
        omega)

theorem toolContainer_eq : toolContainer = toolBytes [0x42] := by
  unfold toolContainer
  rw [build_toolContainer, Option.getD_some]

theorem toolContainer_length : toolContainer.length = 65603 := by
  rw [toolContainer_eq, toolBytes_length]
  rfl

/-- C1 (the code at the failing input). For a container the documented writer sequence yields
from decoder bytes, files of which the last is the file `.gotar` of the directory `.`, and
metadata, with fewer than 2^63 bytes: `Read` succeeds, the first `LenDecoder` bytes are the
decoder bytes, and the file walk through `NextFile` returns what the tar library reads from the
compressed stream of the entries recorded, in which the entry of `.gotar` is named `gotar`; so
with a tar library that returns the entries it was given, the header `NextFile` returns for the
file `.gotar` has the name `gotar`, not the relative path `.gotar`. -/
theorem round_trip_renames_dot_file (C : Codec) (J : Json) (T : TarReader) (D : Reader)
    (pre : List (OsFile × GoString)) (M : J.Val) (Cn : List Byte) (buf pos : Nat)
    (hbuild : build C J D (pre ++ [(dotGotar, ".".toList)]) M = some Cn)
    (hsz : Cn.length < 2 ^ 63) :
    ∃ a, Read T ⟨Cn, pos⟩ = .ok a ∧
      Cn.take a.footer.LenDecoder.toNat = D.bytes ∧
      dotGotar.Name = ".gotar".toList ∧
      recorded (pre ++ [(dotGotar, ".".toList)]) =
        recorded pre ++ [(⟨"gotar".toList, 0o644, 2⟩, strBytes "*\n".toList)] ∧
      (recorded pre).length = pre.length ∧
      (a.walk buf (pre.length + 2)).1 =
        (walk T memSource buf (pre.length + 2) T.init
          (C.stream (recorded (pre ++ [(dotGotar, ".".toList)])))).1 ∧
      ((walk T memSource buf (pre.length + 2) T.init
          (C.stream (recorded (pre ++ [(dotGotar, ".".toList)])))).1 =
          (recorded (pre ++ [(dotGotar, ".".toList)])).map .ok ++ [.error .EOF] →
        (a.walk buf (pre.length + 2)).1[pre.length]? =
          some (.ok (⟨"gotar".toList, 0o644, 2⟩, strBytes "*\n".toList))) := by
  obtain ⟨a, jb, hread, -, hD, hlen, hwalk, -, -⟩ :=
    read_back C J T (lineJsonDecoder) D (pre ++ [(dotGotar, ".".toList)]) M Cn pos hbuild hsz
  have hfm : recorded (pre ++ [(dotGotar, ".".toList)]) =
      recorded pre ++ [(⟨"gotar".toList, 0o644, 2⟩, strBytes "*\n".toList)] := by
    unfold recorded
    rw [List.filterMap_append]
    rfl
  have hpre : (recorded pre).length = pre.length := by
    have h1 : (recorded (pre ++ [(dotGotar, ".".toList)])).length =
        (pre ++ [(dotGotar, ".".toList)]).length := hlen
    rw [hfm] at h1
    simp only [List.length_append, List.length_cons, List.length_nil] at h1
    omega
  refine ⟨a, hread, hD, rfl, hfm, hpre, hwalk buf _, ?_⟩
  intro h
  rw [hwalk buf _]
  show (walk T memSource buf (pre.length + 2) T.init
    (C.stream (recorded (pre ++ [(dotGotar, ".".toList)])))).1[pre.length]? = _
  rw [h, hfm, List.map_append, List.append_assoc,
    List.getElem?_append_right (by rw [List.length_map, hpre])]
  rw [List.length_map, hpre, Nat.sub_self]
  rfl

/-! ## A forged archive: the file walk reads at the cursor -/

theorem forgedStream_length : forgedStream.length = 1660 := by decide!

theorem forgedStream_footer : footerOf forgedStream = ⟨-1, 600, 1029, SIGNATURE⟩ := by decide!

theorem Read_forgedStream (T : TarReader) (pos : Nat) :
    Read T ⟨forgedStream, pos⟩ =
      .ok ⟨⟨forgedStream, 1660⟩, ⟨-1, 600, 1029, SIGNATURE⟩, ⟨-1, 599⟩, T.init⟩ := by
  rw [Read_eq]
  simp only [forgedStream_length, forgedStream_footer]
  rw [if_neg (by omega), if_neg (by simp), if_neg (by decide!)]
  rw [show NewSectionReader (-1) 600 = ⟨-1, 599⟩ from by decide!]

/-- The first read of the file-tree section right after `Read`: the seek to offset -1 fails and
the cursor is at the end of the stream, so the read brings nothing. -/
theorem forged_read_at_end :
    sectionSource.read (⟨-1, 599⟩, ⟨forgedStream, 1660⟩) 4096 =
      ([], ⟨-1, 599⟩, ⟨forgedStream, 1660⟩) := by decide!

/-- The first read of the metadata section: 512 bytes from offset 599. -/
theorem forged_read_metaData :
    sectionSource.read (NewSectionReader (wrap64 (-1 + 600)) 1029, ⟨forgedStream, 1660⟩) 512 =
      (forgedMetaData, ⟨1111, 1628⟩, ⟨forgedStream, 1111⟩) := by decide!

/-- The first read of the file-tree section after the metadata was read: the seek to offset -1
fails and the read is served at the cursor, offset 1111. -/
theorem forged_read_at_cursor :
    sectionSource.read (⟨-1, 599⟩, ⟨forgedStream, 1111⟩) 4096 =
      (storedEntry ++ encodeFooter ⟨-1, 600, 1029, SIGNATURE⟩, ⟨548, 599⟩, ⟨forgedStream, 1660⟩) := by
  decide!

/-- C9 (the code at the failing input). `Read` returns an archive for the forged stream whose
footer has `LenDecoder = -1`. For a JSON decoder that reads 512 bytes and then holds its value,
and a tar reader that starts with a read of 4096 bytes and can answer from the bytes at offset
1111: `NextFile` right after `Read` answers what the tar reader answers at the end of its input,
while `NextFile` after one `ReadMetaData` answers what the tar reader answers to the bytes at
offset 1111, where `ReadMetaData` left the cursor. -/
theorem metadata_read_moves_forged_walk (T : TarReader) (V : Type) (Dj : JsonDecoder V)
    (pos : Nat)
    (hj1 : Dj.need Dj.init () = some 512)
    (hj2 : Dj.need (Dj.feed Dj.init forgedMetaData) () = none)
    (ht1 : T.need T.init .Next = some 4096)
    (ht2 : T.need (T.feed T.init (storedEntry ++ encodeFooter ⟨-1, 600, 1029, SIGNATURE⟩)) .Next
      = none) :
    ∃ a, Read T ⟨forgedStream, pos⟩ = .ok a ∧
      a.footer = ⟨-1, 600, 1029, SIGNATURE⟩ ∧
      (a.NextFile).1 =
        ((T.reply (T.feed T.init []) .Next).1.toHeader).map (fun hdr => (hdr, hdr.Size)) ∧
      (a.ReadMetaData Dj).1 = (Dj.reply (Dj.feed Dj.init forgedMetaData) ()).1 ∧
      ((a.ReadMetaData Dj).2.NextFile).1 =
        ((T.reply (T.feed T.init (storedEntry ++ encodeFooter ⟨-1, 600, 1029, SIGNATURE⟩))
          .Next).1.toHeader).map (fun hdr => (hdr, hdr.Size)) := by
  have hne1 : forgedMetaData ≠ [] := by decide
  have hne2 : storedEntry ++ encodeFooter ⟨-1, 600, 1029, SIGNATURE⟩ ≠ [] := by decide
  have hmeta : Dj.call sectionSource Dj.init
      (NewSectionReader (wrap64 (-1 + 600)) 1029, ⟨forgedStream, 1660⟩) () =
      ((Dj.reply (Dj.feed Dj.init forgedMetaData) ()).1,
        (Dj.reply (Dj.feed Dj.init forgedMetaData) ()).2, ⟨1111, 1628⟩, ⟨forgedStream, 1111⟩) := by
    have hf : sectionSource.remaining
        (NewSectionReader (wrap64 (-1 + 600)) 1029, (⟨forgedStream, 1660⟩ : ReadSeeker)) + 1 =
        1028 + 1 + 1 := by decide!
    unfold Puller.call
    rw [hf]
    rw [Puller.drive, hj1]
    simp only [forged_read_metaData, hne1, if_false]
    rw [Puller.drive, hj2]
  refine ⟨_, Read_forgedStream T pos, rfl, ?_, ?_, ?_⟩
  · have hf : sectionSource.remaining ((⟨-1, 599⟩ : SectionReader),
        (⟨forgedStream, 1660⟩ : ReadSeeker)) + 1 = 600 + 1 := by decide!
    simp only [Archive.NextFile, tarNext, Puller.call]
    rw [hf]
    rw [Puller.drive, ht1]
    simp only [forged_read_at_end, if_true]
  · simp only [Archive.ReadMetaData]
    rw [hmeta]
  · have hf : sectionSource.remaining ((⟨-1, 599⟩ : SectionReader),
        (⟨forgedStream, 1111⟩ : ReadSeeker)) + 1 = 599 + 1 + 1 := by decide!
    simp only [Archive.NextFile, tarNext, Archive.ReadMetaData]
    rw [hmeta]
    simp only [Puller.call]
    rw [hf]
    rw [Puller.drive, ht1]
    simp only [forged_read_at_cursor, hne2, if_false]
    rw [Puller.drive, ht2]

/-- Witness of `metadata_read_moves_forged_walk`: with the stored-block tar reader and the line
decoder, `NextFile` right after `Read` fails with `ErrUnexpectedEOF`, `ReadMetaData` decodes the
name `app`, and `NextFile` after that `ReadMetaData` returns the header of a file `app`. -/
theorem metadata_read_moves_forged_walk_witness :
    ∃ a, Read storedTar ⟨forgedStream, 0⟩ = .ok a ∧
      a.footer = ⟨-1, 600, 1029, SIGNATURE⟩ ∧
      (a.NextFile).1 = .error .ErrUnexpectedEOF ∧
      (a.ReadMetaData lineJsonDecoder).1 = .ok (some "app".toList) ∧
      ((a.ReadMetaData lineJsonDecoder).2.NextFile).1 = .ok (⟨"app".toList, 0o755, 0⟩, 0) := by
  obtain ⟨a, h1, h2, h3, h4, h5⟩ :=
    metadata_read_moves_forged_walk storedTar (Option GoString) lineJsonDecoder 0
      (by decide) (by decide!) (by decide) (by decide!)
  refine ⟨a, h1, h2, ?_, ?_, ?_⟩
  · rw [h3]
    decide!
  · rw [h4]
    show ((lineJsonDecoder.reply (lineJsonDecoder.feed lineJsonDecoder.init forgedMetaData) ()).1 :
      Except Error (Option GoString)) = _
    decide!
  · rw [h5]
    decide!

/-! ## The reference tar reader reads back what the reference codec wrote -/

theorem toNat_ofNat_small (n : Nat) (h : n < 256) : (Char.ofNat n).toNat = n := by
  have hv : n.isValidChar := Or.inl (by omega)
  unfold Char.ofNat
  rw [dif_pos hv]
  simp [Char.ofNatAux, Char.toNat, UInt32.toNat]

theorem byteChar_charByte (c : Char) (h : c.toNat < 256) : byteChar (charByte c) = c := by
  unfold byteChar charByte
  simp only [Nat.mod_eq_of_lt h, Char.ofNat_toNat]

theorem refParseHeader_frame (h : Header) (c : List Byte) (hf : framed (h, c))
    (rest : List Byte) : refParseHeader (refHeaderBytes h ++ rest) = some (h, rest) := by
  obtain ⟨hn, hc, hm, hs, -⟩ := hf
  simp only at hn hc hm hs
  have hl : (charByte (Char.ofNat h.Name.length)).val = h.Name.length := by
    simp only [charByte, toNat_ofNat_small _ hn, Nat.mod_eq_of_lt hn]
  have hsl : (strBytes h.Name).length = h.Name.length := by simp [strBytes]
  simp only [refHeaderBytes, refParseHeader, List.singleton_append, List.cons_append,
    List.append_assoc, hl]
  rw [← hsl]
  simp only [List.nil_append, List.drop_left, List.take_left, Option.some.injEq, Prod.mk.injEq,
    and_true]
  cases h with
  | mk Name Mode Size =>
    simp only [Header.mk.injEq]
    refine ⟨?_, ?_, ?_⟩
    · simp only [strBytes, List.map_map]
      conv_rhs => rw [← List.map_id Name]
      apply List.map_congr_left
      intro a ha
      exact byteChar_charByte a (hc a ha)
    · simp only at hm
      omega
    · simp only at hs
      omega

theorem refHeaderBytes_length (h : Header) : (refHeaderBytes h).length = h.Name.length + 5 := by
  simp only [refHeaderBytes, strBytes, List.length_append, List.length_cons, List.length_nil,
    List.length_map]
  omega

theorem refParseHeader_short (h : Header) (hn : h.Name.length < 256) (rest b s : List Byte)
    (hinv : b ++ s = refHeaderBytes h ++ rest) (hlt : b.length < h.Name.length + 5) :
    refParseHeader b = none := by
  cases b with
  | nil => rfl
  | cons l r =>
    have hl : l.val = h.Name.length := by
      have h0 := congrArg List.head? hinv
      simp only [refHeaderBytes, List.singleton_append, List.cons_append, List.head?_cons,
        Option.some.injEq] at h0
      rw [h0]
      simp only [charByte, toNat_ofNat_small _ hn, Nat.mod_eq_of_lt hn]
    have hd : (r.drop l.val).length < 4 := by
      simp only [List.length_drop, List.length_cons] at hlt ⊢
      omega
    simp only [refParseHeader]
    rcases hr : r.drop l.val with _ | ⟨a, _ | ⟨b1, _ | ⟨c1, _ | ⟨d1, tl⟩⟩⟩⟩
    · rfl
    · rfl
    · rfl
    · rfl
    · rw [hr] at hd
      simp only [List.length_cons] at hd
      omega

theorem refTar_next (h : Header) (c : List Byte) (hf : framed (h, c)) (rest b s : List Byte)
    (hinv : b ++ s = refHeaderBytes h ++ rest) :
    ∃ b1 s1, tarNext refTar memSource (⟨b, false, 0⟩ : RefReader) s =
        (.ok h, (⟨b1, false, h.Size.toNat⟩ : RefReader), s1) ∧ b1 ++ s1 = rest := by
  have hn := hf.1
  simp only at hn
  have hfl := refHeaderBytes_length h
  by_cases hb : b.length < h.Name.length + 5
  · -- the header is not complete yet: one read
    have hp0 := refParseHeader_short h hn rest b s hinv hb
    have hs : s ≠ [] := by
      intro h0
      have := congrArg List.length hinv
      rw [h0] at this
      simp only [List.append_nil, List.length_append, hfl] at this
      omega
    obtain ⟨k, hk⟩ : ∃ k, s.length = k + 1 :=
      ⟨s.length - 1, by have := List.length_pos.mpr hs; omega⟩
    have hchunk : s.take 4096 ≠ [] := by
      intro h0
      have := congrArg List.length h0
      simp only [List.length_take, List.length_nil] at this
      omega
    have hcat : b ++ s.take 4096 = refHeaderBytes h ++ (b ++ s.take 4096).drop (h.Name.length + 5) := by
      have h1 : (b ++ s.take 4096).take (h.Name.length + 5) = refHeaderBytes h := by
        have h2 : (b ++ s).take (h.Name.length + 5) = refHeaderBytes h := by
          rw [hinv, ← hfl, List.take_left]
        rw [← h2]
        rw [List.take_append_eq_append_take, List.take_append_eq_append_take,
          List.take_take]
        congr 2
        omega
      conv_lhs => rw [← List.take_append_drop (h.Name.length + 5) (b ++ s.take 4096)]
      rw [h1]
    refine ⟨(b ++ s.take 4096).drop (h.Name.length + 5), s.drop 4096, ?_, ?_⟩
    · have hneed : refTar.need (⟨b, false, 0⟩ : RefReader) .Next = some 4096 := by
        simp [refTar, hp0]
      have hread : memSource.read s 4096 = (s.take 4096, s.drop 4096) := rfl
      have hfeed : refTar.feed (⟨b, false, 0⟩ : RefReader) (s.take 4096) =
          (⟨b ++ s.take 4096, false, 0⟩ : RefReader) := by
        simp [refTar, hchunk]
      have hneed2 : refTar.need (⟨b ++ s.take 4096, false, 0⟩ : RefReader) .Next = none := by
        simp only [refTar, List.drop_zero]
        rw [hcat]
        simp only [refParseHeader_frame h c hf, Option.isSome_some, or_true, if_true]
      have hreply : refTar.reply (⟨b ++ s.take 4096, false, 0⟩ : RefReader) .Next =
          (.header h, (⟨(b ++ s.take 4096).drop (h.Name.length + 5), false, h.Size.toNat⟩ :
            RefReader)) := by
        simp only [refTar, List.drop_zero]
        conv_lhs => rw [hcat]
        rw [refParseHeader_frame h c hf]
      have hrem : memSource.remaining s + 1 = k + 1 + 1 := by
        show s.length + 1 = k + 1 + 1
        rw [hk]
      simp only [tarNext, Puller.call]
      rw [hrem, Puller.drive, hneed]
      simp only [hread, hchunk, if_false, hfeed]
      rw [Puller.drive, hneed2]
      simp only [hreply, TarReply.toHeader]
    · have hle : h.Name.length + 5 ≤ (b ++ s.take 4096).length := by
        have := congrArg List.length hcat
        rw [List.length_append (refHeaderBytes h), hfl] at this
        omega
      have h3 : (b ++ s.take 4096).drop (h.Name.length + 5) ++ s.drop 4096 =
          (b ++ s).drop (h.Name.length + 5) := by
        rw [← List.drop_append_of_le_length hle, List.append_assoc, List.take_append_drop]
      rw [h3, hinv, ← hfl, List.drop_left]
  · -- the header is complete
    have hcat : b = refHeaderBytes h ++ b.drop (h.Name.length + 5) := by
      have h1 : b.take (h.Name.length + 5) = refHeaderBytes h := by
        have h2 : (b ++ s).take (h.Name.length + 5) = refHeaderBytes h := by
          rw [hinv, ← hfl, List.take_left]
        rw [← h2, List.take_append_of_le_length (by omega)]
      conv_lhs => rw [← List.take_append_drop (h.Name.length + 5) b]
      rw [h1]
    refine ⟨b.drop (h.Name.length + 5), s, ?_, ?_⟩
    · have hp : refParseHeader b = some (h, b.drop (h.Name.length + 5)) := by
        conv_lhs => rw [hcat]
        exact refParseHeader_frame h c hf _
      have hneed : refTar.need (⟨b, false, 0⟩ : RefReader) .Next = none := by
        simp [refTar, hp]
      have hreply : refTar.reply (⟨b, false, 0⟩ : RefReader) .Next =
          (.header h, (⟨b.drop (h.Name.length + 5), false, h.Size.toNat⟩ : RefReader)) := by
        simp only [refTar, List.drop_zero]
        rw [hp]
      simp only [tarNext, Puller.call]
      rw [Puller.drive, hneed]
      show ((refTar.reply (⟨b, false, 0⟩ : RefReader) .Next).1.toHeader,
        (refTar.reply (⟨b, false, 0⟩ : RefReader) .Next).2, s) = _
      rw [hreply]
      rfl
    · have h3 : b.drop (h.Name.length + 5) ++ s = (b ++ s).drop (h.Name.length + 5) := by
        rw [List.drop_append_of_le_length (by omega)]
      rw [h3, hinv, ← hfl, List.drop_left]

theorem refTar_read_buffered (m : Nat) (R tail b s : List Byte) (hb : b ≠ [])
    (hR : m ≤ R.length) (hinv : b ++ s = R ++ tail) (fuel : Nat) :
    refTar.drive memSource (fuel + 1) (⟨b, false, R.length⟩ : RefReader) s (.Read m) =
        (.data (R.take (min m b.length)),
          (⟨b.drop (min m b.length), false, R.length - min m b.length⟩ : RefReader), s) ∧
      b.drop (min m b.length) ++ s = R.drop (min m b.length) ++ tail := by
  have hneed : refTar.need (⟨b, false, R.length⟩ : RefReader) (.Read m) = none := by
    simp [refTar, hb]
  have hmin : min m R.length = m := Nat.min_eq_left hR
  have htake : b.take m = R.take (min m b.length) := by
    have h1 : b.take m = (b ++ s).take (min m b.length) := by
      rw [List.take_append_of_le_length (Nat.min_le_right _ _)]
      by_cases h : m ≤ b.length
      · rw [Nat.min_eq_left h]
      · rw [Nat.min_eq_right (by omega), List.take_of_length_le (by omega),
          List.take_of_length_le (le_refl _)]
    rw [h1, hinv, List.take_append_of_le_length (by
      have := Nat.min_le_left m b.length
      omega)]
  have hdrop : b.drop m = b.drop (min m b.length) := by
    by_cases h : m ≤ b.length
    · rw [Nat.min_eq_left h]
    · rw [Nat.min_eq_right (by omega), List.drop_of_length_le (by omega),
        List.drop_of_length_le (le_refl _)]
  have hlen : (b.take m).length = min m b.length := by
    rw [List.length_take]
  have hreply : refTar.reply (⟨b, false, R.length⟩ : RefReader) (.Read m) =
      (.data (R.take (min m b.length)),
        (⟨b.drop (min m b.length), false, R.length - min m b.length⟩ : RefReader)) := by
    simp only [refTar, hmin, hlen]
    rw [htake, hdrop]
  constructor
  · rw [Puller.drive, hneed]
    show ((refTar.reply (⟨b, false, R.length⟩ : RefReader) (.Read m)).1,
      (refTar.reply (⟨b, false, R.length⟩ : RefReader) (.Read m)).2, s) = _
    rw [hreply]
  · have hle : min m b.length ≤ b.length := Nat.min_le_right _ _
    rw [← List.drop_append_of_le_length hle, hinv,
      List.drop_append_of_le_length (by
        have := Nat.min_le_left m b.length
        omega)]

theorem refTar_read (m : Nat) (hm : 0 < m) (R tail b s : List Byte) (hR : m ≤ R.length)
    (hinv : b ++ s = R ++ tail) :
    ∃ d b2 s2, 0 < d ∧ d ≤ R.length ∧
      refTar.call memSource (⟨b, false, R.length⟩ : RefReader) s (.Read m) =
        (.data (R.take d), (⟨b2, false, R.length - d⟩ : RefReader), s2) ∧
      b2 ++ s2 = R.drop d ++ tail := by
  by_cases hb : b = []
  · subst hb
    rw [List.nil_append] at hinv
    have hs : 0 < s.length := by
      rw [hinv, List.length_append]
      omega
    obtain ⟨k, hk⟩ : ∃ k, s.length = k + 1 := ⟨s.length - 1, by omega⟩
    have hchunk : s.take 4096 ≠ [] := by
      intro h0
      have := congrArg List.length h0
      simp only [List.length_take, List.length_nil] at this
      omega
    have hneed : refTar.need (⟨[], false, R.length⟩ : RefReader) (.Read m) = some 4096 := by
      simp only [refTar]
      rw [if_neg]
      simp only [ne_eq, not_true_eq_false, Bool.false_eq_true, or_false, not_or]
      omega
    have hfeed : refTar.feed (⟨[], false, R.length⟩ : RefReader) (s.take 4096) =
        (⟨s.take 4096, false, R.length⟩ : RefReader) := by
      simp [refTar, hchunk]
    have hread : memSource.read s 4096 = (s.take 4096, s.drop 4096) := rfl
    have hrem : memSource.remaining s + 1 = k + 1 + 1 := by
      show s.length + 1 = k + 1 + 1
      rw [hk]
    obtain ⟨h1, h2⟩ := refTar_read_buffered m R tail (s.take 4096) (s.drop 4096) hchunk hR
      (by rw [List.take_append_drop, hinv]) k
    have hd : 0 < min m (s.take 4096).length := by
      have := List.length_pos.mpr hchunk
      exact Nat.lt_min.mpr ⟨hm, this⟩
    refine ⟨min m (s.take 4096).length, _, _, hd,
      le_trans (Nat.min_le_left _ _) hR, ?_, h2⟩
    unfold Puller.call
    rw [hrem, Puller.drive, hneed]
    simp only [hread, hchunk, if_false, hfeed]
    exact h1
  · obtain ⟨h1, h2⟩ := refTar_read_buffered m R tail b s hb hR hinv (memSource.remaining s)
    have hd : 0 < min m b.length := Nat.lt_min.mpr ⟨hm, List.length_pos.mpr hb⟩
    exact ⟨min m b.length, _, _, hd, le_trans (Nat.min_le_left _ _) hR, h1, h2⟩

theorem refTar_limitedRead (buf : Nat) (hbuf : 0 < buf) (R tail b s : List Byte) (hR : R ≠ [])
    (hinv : b ++ s = R ++ tail) :
    ∃ d b2 s2, 0 < d ∧ d ≤ R.length ∧
      limitedRead refTar memSource (R.length : Nat) (⟨b, false, R.length⟩ : RefReader) s buf =
        (R.take d, (((R.drop d).length : Nat) : Int),
          (⟨b2, false, (R.drop d).length⟩ : RefReader), s2) ∧
      b2 ++ s2 = R.drop d ++ tail := by
  have hpos : 0 < R.length := List.length_pos.mpr hR
  have hm : (if (buf : Int) > ((R.length : Nat) : Int) then ((R.length : Nat) : Int).toNat else buf)
      = min buf R.length := by
    by_cases h : buf ≤ R.length
    · rw [if_neg (by omega), Nat.min_eq_left h]
    · rw [if_pos (by omega), Nat.min_eq_right (by omega)]
      omega
  obtain ⟨d, b2, s2, hd, hdR, hcall, hrest⟩ :=
    refTar_read (min buf R.length) (Nat.lt_min.mpr ⟨hbuf, hpos⟩) R tail b s
      (Nat.min_le_right _ _) hinv
  refine ⟨d, b2, s2, hd, hdR, ?_, hrest⟩
  unfold limitedRead
  rw [if_neg (by omega), hm, hcall]
  simp only [TarReply.bytes, List.length_take, List.length_drop, Nat.min_eq_left hdR]
  congr 2
  omega

theorem refTar_readContents (buf : Nat) (hbuf : 0 < buf) (tail : List Byte) :
    ∀ (fuel : Nat) (R b s : List Byte), R.length < fuel → b ++ s = R ++ tail →
      ∃ b1 s1, readContents refTar memSource buf fuel (R.length : Nat)
          (⟨b, false, R.length⟩ : RefReader) s = (R, (⟨b1, false, 0⟩ : RefReader), s1) ∧
        b1 ++ s1 = tail := by
  intro fuel
  induction fuel with
  | zero => intro R b s h; omega
  | succ fuel ih =>
    intro R b s hfuel hinv
    by_cases hR : R = []
    · subst hR
      refine ⟨b, s, ?_, by simpa using hinv⟩
      simp only [readContents, limitedRead, List.length_nil, Nat.cast_zero, le_refl, if_true]
    · obtain ⟨d, b2, s2, hd, hdR, hlr, hrest⟩ := refTar_limitedRead buf hbuf R tail b s hR hinv
      have hne : R.take d ≠ [] := by
        intro h0
        have := congrArg List.length h0
        simp only [List.length_take, List.length_nil] at this
        omega
      obtain ⟨b1, s1, hrec, hfin⟩ := ih (R.drop d) b2 s2
        (by simp only [List.length_drop]; omega) hrest
      refine ⟨b1, s1, ?_, hfin⟩
      rw [readContents]
      simp only [hlr, hne, if_false, hrec, List.take_append_drop]

theorem refTar_next_end :
    tarNext refTar memSource (⟨[], false, 0⟩ : RefReader) [] =
      (.error .EOF, (⟨[], true, 0⟩ : RefReader), []) := by
  rfl

theorem refTar_walk (buf : Nat) (hbuf : 0 < buf) :
    ∀ (es : List (Header × List Byte)), (∀ e ∈ es, framed e) → ∀ (b s : List Byte),
      b ++ s = frames es →
      (walk refTar memSource buf (es.length + 1) (⟨b, false, 0⟩ : RefReader) s).1 =
        es.map .ok ++ [.error .EOF] := by
  intro es
  induction es with
  | nil =>
    intro _ b s hinv
    simp only [frames, List.map_nil, List.flatten_nil, List.append_eq_nil] at hinv
    obtain ⟨rfl, rfl⟩ := hinv
    simp only [List.length_nil, zero_add, walk, walkStep, refTar_next_end, isError, if_true,
      List.map_nil, List.nil_append]
  | cons e es ih =>
    intro hfr b s hinv
    have hf : framed (e.1, e.2) := hfr e (by simp)
    have hinv1 : b ++ s = refHeaderBytes e.1 ++ (e.2 ++ frames es) := by
      rw [hinv]
      simp only [frames, List.map_cons, List.flatten_cons, List.append_assoc]
    obtain ⟨b1, s1, hnext, hrest⟩ := refTar_next e.1 e.2 hf _ b s hinv1
    have hsize : e.1.Size = ((e.2.length : Nat) : Int) := by
      have h1 := hf.2.2.2.2
      have h2 := hf.2.2.2.1
      simp only at h1 h2
      omega
    obtain ⟨b2, s2, hrc, hrest2⟩ := refTar_readContents buf hbuf (frames es) (e.2.length + 1)
      e.2 b1 s1 (by omega) hrest
    have hrc1 : readContents refTar memSource buf (e.1.Size.toNat + 1) e.1.Size
        (⟨b1, false, e.1.Size.toNat⟩ : RefReader) s1 = (e.2, (⟨b2, false, 0⟩ : RefReader), s2) := by
      rw [hsize]
      exact hrc
    have ih1 := ih (fun x hx => hfr x (by simp [hx])) b2 s2 hrest2
    rw [List.length_cons, walk]
    simp only [walkStep, hnext, isError, Bool.false_eq_true, if_false, hrc1, ih1, List.map_cons,
      List.cons_append]

theorem refPush_out (window : Nat) (st : RefState) (bs : List Byte) (nb : Nat) (ok : Bool)
    (n : Nat) :
    (refPush window st bs nb ok n).out ++ (refPush window st bs nb ok n).st.pending =
        st.pending ++ bs ∧
      (refPush window st bs nb ok n).st.nb = nb := by
  unfold refPush
  split_ifs <;> simp

theorem refCodec_addEntry (window : Nat) (acc : RefState × List Byte) (e : Header × List Byte)
    (hnb : acc.1.nb = 0) (hf : framed e) :
    ((refCodec window).addEntry acc e).2 ++ ((refCodec window).addEntry acc e).1.pending =
        acc.2 ++ acc.1.pending ++ (refHeaderBytes e.1 ++ e.2) ∧
      ((refCodec window).addEntry acc e).1.nb = 0 := by
  obtain ⟨hn, -, hm, hs, hl⟩ := hf
  have hWH : (refCodec window).WriteHeader acc.1 e.1 =
      refPush window acc.1 (refHeaderBytes e.1) e.1.Size.toNat true 0 := by
    simp only [refCodec]
    rw [if_pos ⟨hnb, hn, hm.1, hm.2, hs.1, hs.2⟩]
  have hW : ∀ st : RefState, st.nb = e.1.Size.toNat → (refCodec window).Write st e.2 =
      refPush window st e.2 0 true e.2.length := by
    intro st hst
    simp only [refCodec]
    rw [hst, ← hl, List.take_of_length_le (le_refl _), Nat.sub_self]
    simp
  obtain ⟨p1, p2⟩ := refPush_out window acc.1 (refHeaderBytes e.1) e.1.Size.toNat true 0
  obtain ⟨q1, q2⟩ := refPush_out window
    (refPush window acc.1 (refHeaderBytes e.1) e.1.Size.toNat true 0).st e.2 0 true e.2.length
  simp only [Codec.addEntry, hWH, hW _ p2]
  refine ⟨?_, q2⟩
  rw [List.append_assoc, List.append_assoc, q1, ← List.append_assoc _ _ e.2, p1]
  simp only [List.append_assoc]

theorem refCodec_session (window : Nat) (es : List (Header × List Byte))
    (hfr : ∀ e ∈ es, framed e) : ∀ acc : RefState × List Byte, acc.1.nb = 0 →
      (es.foldl (refCodec window).addEntry acc).2 ++
          (es.foldl (refCodec window).addEntry acc).1.pending =
        acc.2 ++ acc.1.pending ++ frames es := by
  induction es with
  | nil =>
    intro acc _
    simp [frames]
  | cons e es ih =>
    intro acc hnb
    obtain ⟨h1, h2⟩ := refCodec_addEntry window acc e hnb (hfr e (by simp))
    rw [List.foldl_cons, ih (fun x hx => hfr x (by simp [hx])) _ h2, h1]
    simp only [frames, List.map_cons, List.flatten_cons, List.append_assoc]

theorem refCodec_stream (window : Nat) (es : List (Header × List Byte))
    (hfr : ∀ e ∈ es, framed e) : (refCodec window).stream es = frames es := by
  have h := refCodec_session window es hfr ((refCodec window).init, []) rfl
  simp only [Codec.stream, Codec.session, Codec.finish]
  show (es.foldl (refCodec window).addEntry ((refCodec window).init, [])).2 ++
    ([] ++ (es.foldl (refCodec window).addEntry ((refCodec window).init, [])).1.pending) = _
  rw [List.nil_append, h]
  rfl

/-- The reference tar reader reads back the entries the reference codec was given, whatever the
window of the codec and the size of the reads. -/
theorem refTar_reads_refCodec (window buf : Nat) (hbuf : 0 < buf)
    (es : List (Header × List Byte)) (hfr : ∀ e ∈ es, framed e) :
    (walk refTar memSource buf (es.length + 1) refTar.init ((refCodec window).stream es)).1 =
      es.map .ok ++ [.error .EOF] := by
  rw [refCodec_stream window es hfr]
  exact refTar_walk buf hbuf es hfr [] (frames es) rfl

theorem recorded_toolFiles :
    recorded ([(appBinary, ".".toList)] ++ [(dotGotar, ".".toList)]) =
      [(⟨"app".toList, 0o755, 65535⟩, noise 65535),
        (⟨"gotar".toList, 0o644, 2⟩, strBytes "*\n".toList)] := by
  have hh1 : headerOf ⟨"app".toList, 65535, 0o755⟩ (entryName "app".toList ".".toList) =
      ⟨"app".toList, 0o755, 65535⟩ := by decide
  have e1 : fileEntry appBinary ".".toList =
      some (⟨"app".toList, 0o755, 65535⟩, noise 65535) := by
    simp only [fileEntry, appBinary, hh1]
  have e2 : fileEntry dotGotar ".".toList =
      some (⟨"gotar".toList, 0o644, 2⟩, strBytes "*\n".toList) := by decide
  simp only [recorded, List.cons_append, List.nil_append, List.filterMap_cons, e1, e2,
    List.filterMap_nil]

theorem framed_app (n : Nat) (c : List Byte) (hn : n < 65536) (hc : c.length = n) :
    framed (⟨"app".toList, 0o755, (n : Nat)⟩, c) := by
  unfold framed
  simp only []
  refine ⟨by decide, by decide, by decide, ⟨by omega, by omega⟩, ?_⟩
  rw [hc, Int.toNat_ofNat]

theorem framed_toolFiles :
    ∀ e ∈ recorded ([(appBinary, ".".toList)] ++ [(dotGotar, ".".toList)]), framed e := by
  rw [recorded_toolFiles]
  intro e he
  simp only [List.mem_cons, List.mem_singleton, List.mem_nil_iff, or_false] at he
  rcases he with rfl | rfl
  · exact framed_app 65535 (noise 65535) (by omega) (noise_length 65535)
  · exact ⟨by decide, by decide, by decide, by decide, by decide⟩

/-- Witness of `round_trip_renames_dot_file`: the container of the decoder byte `0x42`, the files
`app` (65535 bytes that do not compress) and `.gotar`, and the metadata, over the reference
codec with a window of 65536 bytes, read back with the reference tar reader: the walk returns
the entry `app`, then an entry named `gotar`, then the end of data. -/
theorem round_trip_renames_dot_file_witness :
    ∃ a, Read refTar ⟨toolContainer, 0⟩ = .ok a ∧
      toolContainer.take a.footer.LenDecoder.toNat = [0x42] ∧
      (a.walk 32768 3).1 =
        [.ok (⟨"app".toList, 0o755, 65535⟩, noise 65535),
          .ok (⟨"gotar".toList, 0o644, 2⟩, strBytes "*\n".toList), .error .EOF] ∧
      (a.walk 32768 3).1[1]? = some (.ok (⟨"gotar".toList, 0o644, 2⟩, strBytes "*\n".toList)) := by
  obtain ⟨a, h1, h2, -, -, -, h6, h7⟩ :=
    round_trip_renames_dot_file (refCodec 65536) refJson refTar ⟨[0x42], none⟩
      [(appBinary, ".".toList)] (some "app".toList) toolContainer 32768 0
      (by rw [toolContainer_eq]; exact build_toolContainer)
      (by rw [toolContainer_length]; decide)
  have hlib := refTar_reads_refCodec 65536 32768 (by decide)
    (recorded ([(appBinary, ".".toList)] ++ [(dotGotar, ".".toList)])) framed_toolFiles
  rw [recorded_toolFiles] at hlib h7
  refine ⟨a, h1, h2, ?_, h7 hlib⟩
  exact h6.trans (by rw [recorded_toolFiles]; exact hlib)

end gotar

namespace decoder

open gotar

/-! ## The handoff -/

theorem Unpack_frame (W : World) {T : TarReader} (fuel : Nat) (a : Archive T) (p p1 : Process)
    (h : Unpack W fuel a p = .ok p1) : p1.cwd = p.cwd ∧ p1.env = p.env ∧ p1.args = p.args := by
  induction fuel generalizing a p with
  | zero => simp [Unpack] at h
  | succ fuel ih =>
    simp only [Unpack] at h
    split at h
    · split_ifs at h
      · cases h; exact ⟨rfl, rfl, rfl⟩
    · split at h
      · cases h
      · split at h
        · cases h
        · split at h
          · cases h
          · split at h
            · cases h
            · split at h
              · cases h
              · have hfr := ih _ _ h
                exact ⟨hfr.1, hfr.2.1, hfr.2.2⟩

theorem prepared_fields (p : Process) (W : World) (pwd dir : GoString) (h : W.chdir dir = none) :
    (p.prepared W pwd dir).cwd = dir ∧ (p.prepared W pwd dir).args = p.args ∧
    (p.prepared W pwd dir).env = fun k =>
      if k = "GOTAR_DIR".toList then some dir
      else if k = "GOTAR_PWD".toList then some pwd else p.env k := by
  simp only [Process.prepared, Process.Chdir, h, Process.Setenv]
  exact ⟨trivial, trivial, trivial⟩

/-- C10. When every step before the handoff succeeds (working directory `w = p.cwd`,
environment `p.env`, arguments `p.args`, temporary directory `t`), `main` ends with the call
`syscall.Exec` on `path.Join(t, m.Name)` with the arguments unchanged and the environment
changed only in `GOTAR_PWD = w` and `GOTAR_DIR = t`, in a process whose working directory is
`t`. -/
theorem handoff (W : World) (T : TarReader) (Dj : JsonDecoder metaData) (fuel : Nat)
    (p : Process) (pth : GoString) (file : ReadSeeker) (archive : Archive T) (t : GoString)
    (m : metaData) (h1 : W.getwd = none) (h2 : W.executable = .ok pth)
    (h3 : W.openFile pth = .ok file) (h4 : Read T file = .ok archive) (h5 : W.tempDir = .ok t)
    (h6 : (archive.ReadMetaData Dj).1 = .ok m) (h7 : W.chdir t = none)
    (h8 : (Unpack W fuel (archive.ReadMetaData Dj).2 (p.prepared W p.cwd t)).isOk = true) :
    main W T Dj fuel p =
      .exec (W.pathJoin t m.Name) p.args
        (fun k => if k = "GOTAR_DIR".toList then some t
          else if k = "GOTAR_PWD".toList then some p.cwd else p.env k) t := by
  unfold main
  simp only [h1, h2, h3, h4, h5, h6]
  cases hu : Unpack W fuel (archive.ReadMetaData Dj).2 (p.prepared W p.cwd t) with
  | panic e => simp [hu, Result.isOk] at h8
  | running => simp [hu, Result.isOk] at h8
  | ok p1 =>
    simp only []
    obtain ⟨f1, f2, f3⟩ := Unpack_frame W fuel _ _ p1 hu
    obtain ⟨g1, g2, g3⟩ := prepared_fields p W p.cwd t h7
    rw [f1, f2, f3, g1, g2, g3]

/-- Witness of `handoff`: the container of the end-to-end scenario run as the executable. -/
theorem handoff_witness :
    main scenarioWorld refTar refMetaDecoder 5 scenarioProcess =
      .exec (scenarioWorld.pathJoin "/tmp/123".toList (⟨"app".toList⟩ : metaData).Name)
        scenarioProcess.args
        (fun k => if k = "GOTAR_DIR".toList then some "/tmp/123".toList
          else if k = "GOTAR_PWD".toList then some scenarioProcess.cwd
          else scenarioProcess.env k) "/tmp/123".toList :=
  handoff scenarioWorld refTar refMetaDecoder 5 scenarioProcess "/usr/bin/app".toList
    ⟨scenarioContainer, 0⟩ scenarioArchive "/tmp/123".toList ⟨"app".toList⟩ rfl rfl rfl
    (eq_ok_ofResult _ (by decide!)) rfl (by decide!) rfl (by decide!)

end decoder
